import Mathlib

/-!
# go-sdk-gen: schema resolution and operation mapping

A shallow embedding of `pkg/builder` (transform.go, methods.go, types.go) and
theorems about it.

Conventions of the embedding.
* A Go `map[string]V` is an association list `List (String × V)` with pairwise
  distinct keys; the order in which a `range` statement visits a map is an
  explicit argument wherever the source ranges over a map without sorting.
* A Go `int` is an `Int` inside the 64-bit range; arithmetic that can leave the
  range is wrapped explicitly (`wrapInt`).
* A nil dereference or a failed index is the fault `Fault.panic`; a returned
  Go `error` is `Fault.error`.
* Functions of other packages (strcase, stringx, the godoc helpers, `%q`,
  `%v` of a float) are fields of the record `Ext`.
* Log output (`slog`) is not modelled.
-/

namespace Builder

/-! ## Strings -/

/-- Go `strings.HasPrefix`. -/
def HasPrefixOf (s pre : String) : Bool := pre.data.isPrefixOf s.data

/-- Go `strings.TrimPrefix`. -/
def TrimPrefixOf (s pre : String) : String :=
  if pre.data.isPrefixOf s.data then ⟨s.data.drop pre.data.length⟩ else s

/-- The prefix of a component schema reference. -/
def schemasPrefixStr : String := "#/components/schemas/"

/-- The prefix of a component response reference. -/
def responsesPrefixStr : String := "#/components/responses/"

/-- Go `strings.ReplaceAll(s, "XX", "00")`: non-overlapping occurrences, left to
right. -/
def replaceAllXX : List Char → List Char
  | 'X' :: 'X' :: rest => '0' :: '0' :: replaceAllXX rest
  | c :: rest => c :: replaceAllXX rest
  | [] => []

/-- Go `unicode.IsSpace`. -/
def isSpace (c : Char) : Bool :=
  c = '\t' || c = '\n' || c.toNat = 11 || c.toNat = 12 || c = '\r' || c = ' ' ||
  c.toNat = 0x85 || c.toNat = 0xA0 || c.toNat = 0x1680 ||
  (0x2000 ≤ c.toNat && c.toNat ≤ 0x200A) || c.toNat = 0x2028 || c.toNat = 0x2029 ||
  c.toNat = 0x202F || c.toNat = 0x205F || c.toNat = 0x3000

/-- Go `strings.TrimSpace`. -/
def TrimSpace (s : String) : String :=
  ⟨((s.data.dropWhile isSpace).reverse.dropWhile isSpace).reverse⟩

/-- The value of a string of decimal digits. -/
def digitsValue (ds : List Char) : Nat :=
  ds.foldl (fun n ch => n * 10 + (ch.toNat - 48)) 0

/-- Go `strconv.Atoi` on a 64-bit platform: the value and whether the error is
nil. A syntax error gives 0; a value out of range gives the nearest bound. -/
def Atoi (s : String) : Int × Bool :=
  let neg := s.data.head? == some '-'
  let body := match s.data with
    | '-' :: r => r
    | '+' :: r => r
    | l => l
  if body.isEmpty || !(body.all Char.isDigit) then (0, false)
  else if !neg && digitsValue body ≥ 2 ^ 63 then (2 ^ 63 - 1, false)
  else if neg && digitsValue body > 2 ^ 63 then (-(2 ^ 63), false)
  else if neg then (-(digitsValue body : Int), true)
  else ((digitsValue body : Int), true)

/-- The result of an `int` operation, wrapped into the 64-bit range. -/
def wrapInt (n : Int) : Int := (n + 2 ^ 63) % 2 ^ 64 - 2 ^ 63

/-- Go `strings.Split(s, "/")`. -/
def splitSlash : List Char → List (List Char)
  | [] => [[]]
  | c :: rest =>
    if c = '/' then [] :: splitSlash rest
    else match splitSlash rest with
      | [] => [[c]]
      | seg :: segs => (c :: seg) :: segs

/-- The character class `\w` of Go regular expressions. -/
def isWordChar (c : Char) : Bool :=
  c.isDigit || c.isLower || c.isUpper || c = '_'

/-- A match of `\{(\w+)\}` starting at the head of the input: the submatch. -/
def matchPathParamHere : List Char → Option (List Char)
  | '{' :: rest =>
    if (rest.takeWhile isWordChar).length > 0 && (rest.dropWhile isWordChar).head? == some '}'
    then some (rest.takeWhile isWordChar) else none
  | _ => none

/-- Go `pathParamRegexp.FindStringSubmatch(part)`, element 1: the name inside the
leftmost `{name}` of the input, `none` when nothing matches. -/
def findPathParam : List Char → Option (List Char)
  | [] => none
  | c :: rest =>
    match matchPathParamHere (c :: rest) with
    | some w => some w
    | none => findPathParam rest

/-! ## Sorting (package slices) -/

/-- The inner loop of Go `insertionSortCmpFunc`: `x` moves left past every
element it compares below. The sorted part is given last element first. -/
def insertLeft {α : Type} (cmp : α → α → Int) (x : α) : List α → List α
  | [] => [x]
  | p :: ps => if cmp x p < 0 then p :: insertLeft cmp x ps else x :: p :: ps

/-- Go `insertionSortCmpFunc`, the algorithm `slices.SortFunc` runs on a slice of
at most 12 elements. -/
def insertionSortCmpFunc {α : Type} (cmp : α → α → Int) (data : List α) : List α :=
  (data.foldl (fun sorted x => insertLeft cmp x sorted) []).reverse

/-- Go `slices.SortFunc`. On longer slices the library runs pattern-defeating
quicksort, of which only the contract (a permutation, ordered by `cmp`) is
used below. -/
def SortFunc {α : Type} (cmp : α → α → Int) (data : List α) : List α :=
  insertionSortCmpFunc cmp data

/-! ## The parsed document (openapi3) -/

/-- A float64, by its IEEE-754 bit pattern. -/
structure Float64 where
  bits : Nat
deriving DecidableEq, Repr

/-- An element of `Schema.Enum` (Go `any`): a decoded string, a decoded number,
or a value of another dynamic type (named by its `%T`). -/
inductive AnyValue where
  | str (s : String)
  | float64 (f : Float64)
  | other (goType : String)
deriving DecidableEq, Repr

mutual
/-- The record openapi3.Schema, restricted to the fields the builder reads.
`Typ` is the field `Type` (nil or a list of type names); `APHas` and `APSchema`
are `AdditionalProperties.Has` and `AdditionalProperties.Schema`. -/
inductive Schema where
  | mk (Typ : Option (List String)) (Format : String) (Title : String)
       (Enum : List AnyValue) (Items : Option SchemaRef)
       (Properties : List (String × SchemaRef)) (Required : List String)
       (APHas : Option Bool) (APSchema : Option SchemaRef)
       (OneOf : Option (List SchemaRef)) (AnyOf : Option (List SchemaRef))
       (AllOf : Option (List SchemaRef))
/-- The record openapi3.SchemaRef: a reference string and the resolved schema. -/
inductive SchemaRef where
  | mk (Ref : String) (Value : Schema)
end

namespace Schema
def Typ : Schema → Option (List String) | mk t _ _ _ _ _ _ _ _ _ _ _ => t
def Format : Schema → String | mk _ f _ _ _ _ _ _ _ _ _ _ => f
def Title : Schema → String | mk _ _ t _ _ _ _ _ _ _ _ _ => t
def Enum : Schema → List AnyValue | mk _ _ _ e _ _ _ _ _ _ _ _ => e
def Items : Schema → Option SchemaRef | mk _ _ _ _ i _ _ _ _ _ _ _ => i
def Properties : Schema → List (String × SchemaRef) | mk _ _ _ _ _ p _ _ _ _ _ _ => p
def Required : Schema → List String | mk _ _ _ _ _ _ r _ _ _ _ _ => r
def APHas : Schema → Option Bool | mk _ _ _ _ _ _ _ h _ _ _ _ => h
def APSchema : Schema → Option SchemaRef | mk _ _ _ _ _ _ _ _ s _ _ _ => s
def OneOf : Schema → Option (List SchemaRef) | mk _ _ _ _ _ _ _ _ _ o _ _ => o
def AnyOf : Schema → Option (List SchemaRef) | mk _ _ _ _ _ _ _ _ _ _ a _ => a
def AllOf : Schema → Option (List SchemaRef) | mk _ _ _ _ _ _ _ _ _ _ _ a => a
/-- Go `Types.Is`: the type list is present and is exactly `[t]`. -/
def TypeIs (s : Schema) (t : String) : Bool :=
  match s.Typ with
  | some [u] => u == t
  | _ => false
end Schema

namespace SchemaRef
def Ref : SchemaRef → String | mk r _ => r
def Value : SchemaRef → Schema | mk _ v => v
end SchemaRef

/-- The record openapi3.Parameter, restricted to the fields the builder reads. -/
structure OAParameter where
  Name : String
  In : String
  Required : Bool
  Schema : Option SchemaRef

/-- The record openapi3.MediaType; `Schema` is nil when the media type declares
no schema. -/
structure MediaType where
  Schema : Option SchemaRef

/-- The record openapi3.Response. -/
structure OAResponse where
  Description : Option String
  Content : List (String × MediaType)

/-- The record openapi3.ResponseRef. -/
structure ResponseRef where
  Ref : String
  Value : OAResponse

/-- The record openapi3.ParameterRef; `Value` is nil when the reference was not
resolved. -/
structure ParameterRef where
  Ref : String
  Value : Option OAParameter

/-- The record openapi3.RequestBodyRef with the content of its value. -/
structure RequestBodyRef where
  Ref : String
  Content : List (String × MediaType)

/-- The value of a vendor extension: a decoded JSON object or another value. -/
inductive ExtValue where
  | object (fields : List (String × AnyValue))
  | other

/-- The record openapi3.Operation, restricted to the fields the builder reads.
`Responses` is the map `o.Responses.Map()`. -/
structure Operation where
  OperationID : String
  Extensions : List (String × ExtValue)
  Parameters : List ParameterRef
  RequestBody : Option RequestBodyRef
  Responses : List (String × ResponseRef)

/-- The record openapi3.PathItem; `Operations` is the map `p.Operations()`. -/
structure PathItem where
  Ref : String
  Parameters : List ParameterRef
  Operations : List (String × Operation)

/-- The part of the Builder that the operation mapper reads:
`b.spec.Components.Responses`. -/
structure BuilderSpec where
  ComponentsResponses : List (String × ResponseRef)

/-! ## Faults -/

/-- How a call can fail: a returned Go error, or a run-time panic. -/
inductive Fault where
  | error (msg : String)
  | panic
deriving DecidableEq, Repr

/-! ## The intermediate representation

The declarations of `StructField`, `TypeDeclaration`, `EnumOption`,
`EnumDeclaration` and `Response` are not among the sources; the records below
carry the fields that transform.go, methods.go and types.go assign and read. -/

/-- Modelled from the spec: the record StructField (its declaration is missing),
with the fields assigned in createFields and pathsToParamTypes. -/
structure StructField where
  Name : String
  Typ : String
  Comment : String
  Tags : List (String × List String)
  Optional : Bool
  Parameter : Option OAParameter

/-- Modelled from the spec: the record TypeDeclaration (its declaration is
missing), with the fields assigned in transform.go. A nil and an empty `Fields`
slice are both the empty list. The back pointers `Response` and `Operation` are
left out. -/
structure TypeDeclaration where
  Comment : String
  Typ : String
  Name : String
  Fields : List StructField
  Schema : Option Schema

/-- The record Parameter (methods.go 24-27). -/
structure Parameter where
  Name : String
  Typ : String
deriving DecidableEq, Repr

/-- Modelled from the spec: the record Response (its declaration is missing),
with the fields assigned in operationToMethod. -/
structure Response where
  IsErr : Bool
  IsDefault : Bool
  IsUnexpected : Bool
  Typ : String
  Code : Int
  ErrDescription : String
deriving DecidableEq, Repr

/-- The record Method (methods.go 30-40). -/
structure Method where
  Description : String
  HTTPMethod : String
  FunctionName : String
  ResponseType : String
  Path : String
  PathParams : List Parameter
  QueryParams : Option Parameter
  HasBody : Bool
  Responses : List Response
deriving DecidableEq, Repr

/-- The value of an enum option: the type parameter E of EnumOption is one of
string, int64, int and float64. -/
inductive EnumValue where
  | string (s : String)
  | int64 (i : Int)
  | int (i : Int)
  | float64 (f : Float64)
deriving DecidableEq, Repr

/-- Modelled from the spec: the record EnumOption (its declaration is missing). -/
structure EnumOption where
  Name : String
  Value : EnumValue
deriving DecidableEq, Repr

/-- Modelled from the spec: the record EnumDeclaration (its declaration is
missing). -/
structure EnumDeclaration where
  Typ : TypeDeclaration
  Values : List EnumOption

/-- Modelled from the spec: the record OneOfDeclaration (its declaration is
missing), with the fields read by its method String (types.go 38-54): the name
of the sum type and the type names of its variants. -/
structure OneOfDeclaration where
  Name : String
  Options : List String
deriving DecidableEq, Repr

/-- The implementations of the interface Writable. -/
inductive Writable where
  | typeDeclaration (d : TypeDeclaration)
  | enumDeclaration (e : EnumDeclaration)
  | oneOfDeclaration (o : OneOfDeclaration)
  | typeAssertionDeclaration (typ : String)
  | errorImplementation (Typ : TypeDeclaration)
  | staticErrorImplementation (Typ : String) (Name : String)
  | toQueryValues (Typ : TypeDeclaration)

/-! ## Functions of other packages -/

/-- Functions the builder calls and that are defined outside pkg/builder:
strcase (ToCamel, ToLowerCamel, ToSnake), internal/stringx (MakeSingular), the
godoc helpers, `%v` of a float64, the conversions `int(f)` and `int64(f)` of a
float64, and `%q` of a string. -/
structure Ext where
  ToCamel : String → String
  ToLowerCamel : String → String
  ToSnake : String → String
  MakeSingular : String → String
  schemaGodoc : String → Schema → String
  schemaPropertyGodoc : Schema → String
  fmtFloat64 : Float64 → String
  float64ToInt : Float64 → Int
  float64ToInt64 : Float64 → Int
  Quote : String → String
  operationGodoc : String → Operation → String
  httpMethod : String → String
  parameterPropertyGodoc : OAParameter → String
  operationParamsGodoc : String → Operation → String

/-! ## transform.go -/

/-- The order of Go strings, `a <= b`, on the characters: the first differing
character decides, a proper prefix comes first. -/
def charsLe : List Char → List Char → Bool
  | [], _ => true
  | _ :: _, [] => false
  | a :: as, b :: bs =>
    if a.toNat < b.toNat then true
    else if b.toNat < a.toNat then false
    else charsLe as bs

/-- Go `a <= b` on strings. -/
def stringLe (a b : String) : Prop := charsLe a.data b.data = true

instance : DecidableRel stringLe := fun a b =>
  inferInstanceAs (Decidable (charsLe a.data b.data = true))

/-- Go `slices.Sort(slices.Collect(maps.Keys(m)))`: the keys of a map in
ascending order. -/
def sortedKeys {α : Type} (m : List (String × α)) : List String :=
  (m.map Prod.fst).insertionSort stringLe

/-- Go `delete(m, k)` for every `k` of `seen`. -/
def deleteKeys {α : Type} (seen : List String) (m : List (String × α)) : List (String × α) :=
  m.filter (fun kv => !(seen.contains kv.1))

/-- One iteration of the string loop of createEnum (transform.go 449-464). -/
def enumStepString (x : Ext) (enumName : String) (values : List EnumOption) (v : AnyValue) :
    List EnumOption :=
  match v with
  | .str option => values ++ [{ Name := enumName ++ x.ToCamel option, Value := .string option }]
  | _ => values

/-- One iteration of the int64 loop of createEnum (transform.go 478-493). -/
def enumStepInt64 (x : Ext) (enumName : String) (values : List EnumOption) (v : AnyValue) :
    List EnumOption :=
  match v with
  | .float64 option =>
    values ++ [{ Name := enumName ++ x.ToCamel (x.fmtFloat64 option),
                 Value := .int64 (x.float64ToInt64 option) }]
  | _ => values

/-- One iteration of the int loop of createEnum (transform.go 507-522). -/
def enumStepInt (x : Ext) (enumName : String) (values : List EnumOption) (v : AnyValue) :
    List EnumOption :=
  match v with
  | .float64 option =>
    values ++ [{ Name := enumName ++ x.ToCamel (x.fmtFloat64 option),
                 Value := .int (x.float64ToInt option) }]
  | _ => values

/-- One iteration of the float64 loop of createEnum (transform.go 535-550). -/
def enumStepFloat64 (x : Ext) (enumName : String) (values : List EnumOption) (v : AnyValue) :
    List EnumOption :=
  match v with
  | .float64 option =>
    values ++ [{ Name := enumName ++ x.ToCamel (x.fmtFloat64 option), Value := .float64 option }]
  | _ => values

/-- The function createEnum (transform.go 444-564); `none` is the nil result. -/
def createEnum (x : Ext) (schema : Schema) (name : String) : Option EnumDeclaration :=
  let enumName := x.MakeSingular name
  if schema.TypeIs "string" then
    some { Typ := { Comment := x.schemaGodoc name schema, Name := enumName, Typ := "string",
                    Fields := [], Schema := some schema },
           Values := schema.Enum.foldl (enumStepString x enumName) [] }
  else if schema.TypeIs "integer" then
    if schema.Format = "int64" then
      some { Typ := { Comment := x.schemaGodoc name schema, Name := x.MakeSingular name,
                      Typ := "int64", Fields := [], Schema := some schema },
             Values := schema.Enum.foldl (enumStepInt64 x enumName) [] }
    else
      some { Typ := { Comment := x.schemaGodoc name schema, Name := x.MakeSingular name,
                      Typ := "int", Fields := [], Schema := some schema },
             Values := schema.Enum.foldl (enumStepInt x enumName) [] }
  else if schema.TypeIs "number" then
    some { Typ := { Comment := x.schemaGodoc name schema, Name := x.MakeSingular name,
                    Typ := "float64", Fields := [], Schema := some schema },
           Values := schema.Enum.foldl (enumStepFloat64 x enumName) [] }
  else none

/-- The function createOneOf (transform.go 596-606). -/
def createOneOf (x : Ext) (schema : Schema) (name : String) : TypeDeclaration :=
  { Comment := x.schemaGodoc name schema, Name := name, Typ := "json.RawMessage",
    Fields := [], Schema := some schema }

/-- The function formatStringType (methods.go 400-411). -/
def formatStringType (t : Schema) : String :=
  if t.Format = "date-time" then "time.Time"
  else if t.Format = "date" then "Date"
  else if t.Format = "time" then "Time"
  else "string"

/-- The loop of uniqueFunc (transform.go 616-624) with the key function of
uniqueFields: `out` is `arr[:n]`, `seen` the keys marked so far. -/
def uniqueLoop : List StructField → List String → List StructField → List StructField
  | [], _, out => out
  | ele :: rest, seen, out =>
    if seen.contains ele.Name then uniqueLoop rest seen out
    else uniqueLoop rest (seen ++ [ele.Name]) (out ++ [ele])

/-- The function uniqueFields (transform.go 608-627). -/
def uniqueFields (fields : List StructField) : List StructField :=
  uniqueLoop fields [] []

mutual
/-- The height of the tree under a schema reference. -/
def SchemaRef.height : SchemaRef → Nat
  | SchemaRef.mk _ v => v.height + 1
/-- The height of the tree under a schema. -/
def Schema.height : Schema → Nat
  | Schema.mk _ _ _ _ items props _ _ aps oneOf anyOf allOf =>
    max (optHeight items) (max (propsHeight props) (max (optHeight aps)
      (max (optListHeight oneOf) (max (optListHeight anyOf) (optListHeight allOf))))) + 1
/-- The height under an optional schema reference. -/
def optHeight : Option SchemaRef → Nat
  | none => 0
  | some s => s.height
/-- The height under a property map. -/
def propsHeight : List (String × SchemaRef) → Nat
  | [] => 0
  | kv :: rest => max (pairHeight kv) (propsHeight rest)
/-- The height under one property. -/
def pairHeight : String × SchemaRef → Nat
  | (_, s) => s.height
/-- The height under an optional list of schema references. -/
def optListHeight : Option (List SchemaRef) → Nat
  | none => 0
  | some l => listHeight l
/-- The height under a list of schema references. -/
def listHeight : List SchemaRef → Nat
  | [] => 0
  | s :: rest => max s.height (listHeight rest)
end

/-- The struct field built for one property in createFields (transform.go 424-437). -/
def propertyField (x : Ext) (property : String) (schema : SchemaRef) (typeName : String)
    (required : List String) : StructField :=
  { Name := property
    Typ := typeName
    Comment := x.schemaPropertyGodoc schema.Value
    Tags := [("json", if !(required.contains property) then [x.ToSnake property, "omitempty"]
                      else [x.ToSnake property])]
    Optional := !(required.contains property)
    Parameter := none }

/-- The state of the loop of createAllOf: the declarations and fields collected,
the property names seen, and the properties each visited branch is left with
(the loop deletes from the branch's own map). -/
structure AllOfState where
  types : List Writable
  fields : List StructField
  seen : List String
  left : List (List (String × SchemaRef))

/-- What genSchema returns: the type name and the new declarations, or a fault. -/
abbrev GenResult : Type := Except Fault (String × List Writable)

/-! The functions genSchema, createObject, createFields and createAllOf call one
another. Each body is written once, with the callee genSchema as the argument
`gen`; genSchema itself is obtained by running its body as deep as the schema
tree is high, and `genSchema_unfold` states the recursion of the source. -/

/-- The loop of createFields (transform.go 421-439) over the remaining keys,
with the fields and declarations collected so far. -/
def createFieldsLoopWith (x : Ext) (gen : SchemaRef → String → GenResult)
    (properties : List (String × SchemaRef)) (name : String) (required : List String) :
    List String → List StructField → List Writable →
      Except Fault (List StructField × List Writable)
  | [], fields, types => .ok (fields, types)
  | property :: rest, fields, types =>
    match properties.lookup property with
    | none => .error Fault.panic
    | some schema =>
      match gen schema (name ++ x.ToCamel property) with
      | .error e => .error e
      | .ok (typeName, moreTypes) =>
        createFieldsLoopWith x gen properties name required rest
          (fields ++ [propertyField x property schema typeName required]) (types ++ moreTypes)

/-- The body of createFields (transform.go 414-442): the keys are collected and
sorted, then the loop runs over them. -/
def createFieldsWith (x : Ext) (gen : SchemaRef → String → GenResult)
    (properties : List (String × SchemaRef)) (name : String) (required : List String) :
    Except Fault (List StructField × List Writable) :=
  createFieldsLoopWith x gen properties name required (sortedKeys properties) [] []

/-- The body of createObject (transform.go 391-411). -/
def createObjectWith (x : Ext) (gen : SchemaRef → String → GenResult) (schema : Schema)
    (name : String) : Except Fault (TypeDeclaration × List Writable) :=
  if (schema.Properties.length == 0 && (schema.APHas.isSome && schema.APHas == some true))
      || schema.APSchema.isSome then
    .ok ({ Comment := x.schemaGodoc name schema, Name := name, Typ := "map[string]any",
           Fields := [], Schema := some schema }, [])
  else
    match createFieldsWith x gen schema.Properties name schema.Required with
    | .error e => .error e
    | .ok (fields, additionalTypes) =>
      .ok ({ Comment := x.schemaGodoc name schema, Name := name, Typ := "struct",
             Fields := fields, Schema := some schema }, additionalTypes)

/-- The loop of createAllOf (transform.go 571-584) over the remaining branches. -/
def createAllOfLoopWith (x : Ext) (gen : SchemaRef → String → GenResult) (name : String) :
    List SchemaRef → AllOfState → Except Fault AllOfState
  | [], st => .ok st
  | s :: rest, st =>
    match createFieldsWith x gen (deleteKeys st.seen s.Value.Properties) name
        s.Value.Required with
    | .error e => .error e
    | .ok (objectFields, additionalTypes) =>
      createAllOfLoopWith x gen name rest
        { types := st.types ++ additionalTypes
          fields := st.fields ++ objectFields
          seen := st.seen ++ (deleteKeys st.seen s.Value.Properties).map Prod.fst
          left := st.left ++ [deleteKeys st.seen s.Value.Properties] }

/-- The body of createAllOf (transform.go 567-593); ranging over a nil `AllOf`
runs no iteration. -/
def createAllOfWith (x : Ext) (gen : SchemaRef → String → GenResult) (schema : Schema)
    (name : String) : Except Fault (TypeDeclaration × List Writable) :=
  match createAllOfLoopWith x gen name (schema.AllOf.getD [])
      { types := [], fields := [], seen := [], left := [] } with
  | .error e => .error e
  | .ok st =>
    .ok ({ Comment := x.schemaGodoc name schema, Name := name, Typ := "struct",
           Fields := uniqueFields st.fields, Schema := some schema }, st.types)

/-- The body of genSchema (transform.go 330-388). -/
def genSchemaBody (x : Ext) (gen : SchemaRef → String → GenResult) (schema : SchemaRef)
    (name : String) : GenResult :=
  if schema.Ref ≠ "" then
    if schema.Value.Enum.length > 0 then
      .ok (x.ToCamel (x.MakeSingular (TrimPrefixOf schema.Ref schemasPrefixStr)), [])
    else .ok (x.ToCamel (TrimPrefixOf schema.Ref schemasPrefixStr), [])
  else if schema.Value.Enum.length > 0 then
    match createEnum x schema.Value name with
    | some enum => .ok (x.MakeSingular name, [Writable.enumDeclaration enum])
    | none => .ok (x.MakeSingular name, [])
  else if schema.Value.TypeIs "string" then .ok (formatStringType schema.Value, [])
  else if schema.Value.TypeIs "integer" then .ok ("int", [])
  else if schema.Value.TypeIs "number" then .ok ("float64", [])
  else if schema.Value.TypeIs "boolean" then .ok ("bool", [])
  else if schema.Value.TypeIs "array" then
    match schema.Value.Items with
    | none => .error Fault.panic
    | some items =>
      match gen items (x.MakeSingular name) with
      | .error e => .error e
      | .ok (typeName, schemas) => .ok ("[]" ++ typeName, schemas)
  else if schema.Value.TypeIs "object" then
    match createObjectWith x gen schema.Value name with
    | .error e => .error e
    | .ok (object, additionalTypes) =>
      .ok (name, [Writable.typeDeclaration object] ++ additionalTypes)
  else if schema.Value.OneOf.isSome then
    .ok (name, [Writable.typeDeclaration (createOneOf x schema.Value name)])
  else if schema.Value.AnyOf.isSome then .ok ("interface\x7b\x7d", [])
  else if schema.Value.AllOf.isSome then
    match createAllOfWith x gen schema.Value name with
    | .error e => .error e
    | .ok (object, additionalTypes) =>
      .ok (name, [Writable.typeDeclaration object] ++ additionalTypes)
  else .ok ("interface\x7b\x7d", [])

/-- The body of genSchema run `depth` levels deep. -/
def genSchemaDepth (x : Ext) : Nat → SchemaRef → String → GenResult
  | 0 => fun _ _ => .error Fault.panic
  | depth + 1 => genSchemaBody x (genSchemaDepth x depth)

/-- The function genSchema (transform.go 330-388): its body, run as deep as the
schema tree is high. -/
def genSchema (x : Ext) (schema : SchemaRef) (name : String) : GenResult :=
  genSchemaDepth x schema.height schema name

/-- The loop of createFields (transform.go 421-439). -/
def createFieldsLoop (x : Ext) (properties : List (String × SchemaRef)) (name : String)
    (required : List String) (keys : List String) (fields : List StructField)
    (types : List Writable) : Except Fault (List StructField × List Writable) :=
  createFieldsLoopWith x (genSchema x) properties name required keys fields types

/-- The function createFields (transform.go 414-442). -/
def createFields (x : Ext) (properties : List (String × SchemaRef)) (name : String)
    (required : List String) : Except Fault (List StructField × List Writable) :=
  createFieldsWith x (genSchema x) properties name required

/-- The function createObject (transform.go 391-411). -/
def createObject (x : Ext) (schema : Schema) (name : String) :
    Except Fault (TypeDeclaration × List Writable) :=
  createObjectWith x (genSchema x) schema name

/-- The loop of createAllOf (transform.go 571-584). -/
def createAllOfLoop (x : Ext) (branches : List SchemaRef) (name : String) (st : AllOfState) :
    Except Fault AllOfState :=
  createAllOfLoopWith x (genSchema x) name branches st

/-- The function createAllOf (transform.go 567-593). -/
def createAllOf (x : Ext) (schema : Schema) (name : String) :
    Except Fault (TypeDeclaration × List Writable) :=
  createAllOfWith x (genSchema x) schema name

/-- A top-level declaration of a scalar schema in generateSchemaComponents. -/
def scalarDeclaration (x : Ext) (name : String) (spec : Schema) (typ : String) : Writable :=
  Writable.typeDeclaration
    { Comment := x.schemaGodoc name spec, Typ := typ, Name := name, Fields := [],
      Schema := some spec }

/-- The function generateSchemaComponents (transform.go 228-326). -/
def generateSchemaComponents (x : Ext) (name : String) (schema : SchemaRef) (isErr : Bool) :
    Except Fault (List Writable) :=
  if schema.Value.Enum.length > 0 then
    match createEnum x schema.Value name with
    | some enum =>
      .ok ((if isErr then [Writable.typeAssertionDeclaration name] else [])
        ++ [Writable.enumDeclaration enum])
    | none => .ok (if isErr then [Writable.typeAssertionDeclaration name] else [])
  else if schema.Value.TypeIs "string" then
    .ok ((if isErr then [Writable.typeAssertionDeclaration name] else [])
      ++ [scalarDeclaration x name schema.Value "string"])
  else if schema.Value.TypeIs "integer" then
    .ok ((if isErr then [Writable.typeAssertionDeclaration name] else [])
      ++ [scalarDeclaration x name schema.Value "int64"])
  else if schema.Value.TypeIs "number" then
    .ok ((if isErr then [Writable.typeAssertionDeclaration name] else [])
      ++ [scalarDeclaration x name schema.Value "float64"])
  else if schema.Value.TypeIs "boolean" then
    .ok ((if isErr then [Writable.typeAssertionDeclaration name] else [])
      ++ [scalarDeclaration x name schema.Value "bool"])
  else if schema.Value.TypeIs "array" then
    match schema.Value.Items with
    | none => .error Fault.panic
    | some items =>
      match genSchema x items (x.MakeSingular name) with
      | .error e => .error e
      | .ok (typeName, itemTypes) =>
        .ok ((if isErr then [Writable.typeAssertionDeclaration name] else []) ++ itemTypes
          ++ [scalarDeclaration x name schema.Value ("[]" ++ typeName)])
  else if schema.Value.TypeIs "object" then
    match createObject x schema.Value name with
    | .error e => .error e
    | .ok (object, additionalTypes) =>
      .ok ((if isErr then [Writable.typeAssertionDeclaration name] else [])
        ++ [Writable.typeDeclaration object] ++ additionalTypes
        ++ (if isErr then [Writable.errorImplementation object] else []))
  else if schema.Value.OneOf.isSome then
    .ok ((if isErr then [Writable.typeAssertionDeclaration name] else [])
      ++ [Writable.typeDeclaration (createOneOf x schema.Value name)]
      ++ (if isErr then [Writable.errorImplementation (createOneOf x schema.Value name)] else []))
  else if schema.Value.AnyOf.isSome then
    .ok ((if isErr then [Writable.typeAssertionDeclaration name] else [])
      ++ [scalarDeclaration x name schema.Value "interface\x7b\x7d"])
  else if schema.Value.AllOf.isSome then
    match createAllOf x schema.Value name with
    | .error e => .error e
    | .ok (object, additionalTypes) =>
      .ok ((if isErr then [Writable.typeAssertionDeclaration name] else [])
        ++ [Writable.typeDeclaration object] ++ additionalTypes
        ++ (if isErr then [Writable.errorImplementation object] else []))
  else .ok (if isErr then [Writable.typeAssertionDeclaration name] else [])

/-! ## methods.go -/

/-- The function getReferenceSchema (methods.go 386-397). -/
def getReferenceSchema (x : Ext) (v : SchemaRef) : String :=
  if v.Ref ≠ "" then
    if v.Value.Enum.length > 0 then
      x.ToCamel (x.MakeSingular (TrimPrefixOf v.Ref schemasPrefixStr))
    else x.ToCamel (TrimPrefixOf v.Ref schemasPrefixStr)
  else ""

/-- The function getResponseName (transform.go 629-635), given the schema of the
media type. -/
def getResponseName (x : Ext) (operationName responseCode : String) (schema : SchemaRef) :
    String :=
  if schema.Value.Title ≠ "" then operationName ++ x.ToCamel schema.Value.Title ++ "Response"
  else operationName ++ responseCode ++ "Response"

/-- The status token as an integer: `strconv.Atoi(strings.ReplaceAll(name, "XX", "00"))`. -/
def statusAtoi (name : String) : Int × Bool := Atoi ⟨replaceAllXX name.data⟩

/-- The function getSuccessResponse (methods.go 265-293) over the entries of the
responses map in the order `range` visits them: the media type and the status
token of the first successful JSON response. -/
def getSuccessResponse (b : BuilderSpec) :
    List (String × ResponseRef) → Except Fault (Option (MediaType × String))
  | [] => .ok none
  | (name, response) :: rest =>
    if (statusAtoi (if name = "default" then "400" else name)).2 = false then
      .error (Fault.error "error converting status to an integer")
    else if (statusAtoi (if name = "default" then "400" else name)).1 < 200
        || (statusAtoi (if name = "default" then "400" else name)).1 ≥ 300 then
      getSuccessResponse b rest
    else if response.Ref ≠ "" then
      match b.ComponentsResponses.lookup (TrimPrefixOf response.Ref responsesPrefixStr) with
      | none => .error Fault.panic
      | some resolved =>
        match resolved.Value.Content.lookup "application/json" with
        | some content => .ok (some (content, if name = "default" then "400" else name))
        | none => getSuccessResponse b rest
    else
      match response.Value.Content.lookup "application/json" with
      | some content => .ok (some (content, if name = "default" then "400" else name))
      | none => getSuccessResponse b rest

/-- The function getSuccessResponseType (methods.go 226-242). -/
def getSuccessResponseType (x : Ext) (b : BuilderSpec) (o : Operation)
    (order : List (String × ResponseRef)) : Except Fault String :=
  match getSuccessResponse b order with
  | .error e => .error e
  | .ok none => .ok ""
  | .ok (some (resp, code)) =>
    match resp.Schema with
    | none => .error Fault.panic
    | some schema =>
      if schema.Ref ≠ "" then .ok (getReferenceSchema x schema)
      else .ok (getResponseName x (x.ToCamel o.OperationID) code schema)

/-- The function responseToType (methods.go 244-263). -/
def responseToType (x : Ext) (operationName : String) (resp : ResponseRef) (code : String) :
    Except Fault String :=
  if resp.Ref ≠ "" then
    .ok (x.ToCamel (TrimPrefixOf resp.Ref responsesPrefixStr) ++ "Response")
  else
    match resp.Value.Content.lookup "application/json" with
    | none => .ok ""
    | some content =>
      match content.Schema with
      | none => .error Fault.panic
      | some schema =>
        if schema.Ref ≠ "" then .ok (getReferenceSchema x schema)
        else .ok (getResponseName x operationName code schema)

/-- The function convertToValidGoType (methods.go 325-384). The pattern names
`r.Value.AllOf`, on whose first element the function calls itself. -/
def convertToValidGoType (x : Ext) (property : String) : SchemaRef → Except Fault String
  | r@(SchemaRef.mk _ (Schema.mk _ _ _ _ _ _ _ _ _ _ _ valueAllOf)) =>
    if r.Ref ≠ "" then .ok (getReferenceSchema x r)
    else
      match (match r.Value.APSchema with
        | none => (Except.ok none : Except Fault (Option String))
        | some ap =>
          if ap.Ref ≠ "" then .ok (some (getReferenceSchema x ap))
          else match ap.Value.Items with
            | none => .error Fault.panic
            | some items =>
              if items.Ref ≠ "" then
                if items.Value.TypeIs "array" then .ok (some ("[]" ++ getReferenceSchema x items))
                else .ok (some (getReferenceSchema x items))
              else .ok none) with
      | .error e => .error e
      | .ok (some t) => .ok t
      | .ok none =>
        match valueAllOf with
        | some allOf =>
          if allOf.length > 1 then .ok "TODO"
          else match allOf with
            | [] => .error Fault.panic
            | first :: _ => convertToValidGoType x property first
        | none =>
          if r.Value.TypeIs "string" then .ok (formatStringType r.Value)
          else if r.Value.TypeIs "integer" then .ok "int"
          else if r.Value.TypeIs "number" then .ok "float64"
          else if r.Value.TypeIs "boolean" then .ok "bool"
          else if r.Value.TypeIs "array" then
            match r.Value.Items with
            | none => .error Fault.panic
            | some items =>
              if getReferenceSchema x items ≠ "" then .ok ("[]" ++ getReferenceSchema x items)
              else .ok "[]string"
          else if r.Value.TypeIs "object" then
            if r.Value.Properties.length = 0 then .ok "interface\x7b\x7d"
            else .ok (x.ToCamel property)
          else .ok "interface\x7b\x7d"

/-- The loop of buildPathParams (methods.go 305-319) over the remaining
parameters. -/
def buildPathParamsLoop (x : Ext) :
    List ParameterRef → List Parameter → Except Fault (List Parameter)
  | [], pathParams => .ok pathParams
  | p :: rest, pathParams =>
    match p.Value with
    | none => buildPathParamsLoop x rest pathParams
    | some v =>
      if v.In ≠ "path" then buildPathParamsLoop x rest pathParams
      else match v.Schema with
        | none => .error Fault.panic
        | some schema =>
          match convertToValidGoType x v.Name schema with
          | .error e => .error e
          | .ok t => buildPathParamsLoop x rest (pathParams ++ [{ Name := v.Name, Typ := t }])

/-- The function buildPathParams (methods.go 295-322). -/
def buildPathParams (x : Ext) (paramType : String) (params : List ParameterRef) :
    Except Fault (List Parameter) :=
  if params.length = 0 then .ok []
  else if paramType ≠ "query" && paramType ≠ "path" then
    .error (Fault.error "paramType must be one of 'query' or 'path'")
  else buildPathParamsLoop x params []

/-- The loop of pathBuilder (methods.go 103-114) over the remaining segments:
`i` is the index of the next segment, `res` the text written so far, `params`
the arguments collected so far. -/
def pathBuilderLoop (x : Ext) :
    List (List Char) → Nat → String → List String → String × List String
  | [], _, res, params => (res, params)
  | part :: rest, i, res, params =>
    match findPathParam part with
    | none =>
      pathBuilderLoop x rest (i + 1) ((if i ≠ 0 then res ++ "/" else res) ++ ⟨part⟩) params
    | some name =>
      pathBuilderLoop x rest (i + 1) ((if i ≠ 0 then res ++ "/" else res) ++ "%v")
        (params ++ [x.ToLowerCamel ⟨name⟩])

/-- The function pathBuilder (methods.go 99-121); `x.Quote` is the verb `%q`. -/
def pathBuilder (x : Ext) (path : String) : String :=
  if (pathBuilderLoop x (splitSlash path.data) 0 "" []).2.length = 0 then
    "fmt.Sprintf(" ++ x.Quote (pathBuilderLoop x (splitSlash path.data) 0 "" []).1 ++ ")"
  else
    "fmt.Sprintf(" ++ x.Quote (pathBuilderLoop x (splitSlash path.data) 0 "" []).1 ++ ", "
      ++ ", ".intercalate (pathBuilderLoop x (splitSlash path.data) 0 "" []).2 ++ ")"

/-- The method name chosen in operationToMethod (methods.go 129-136); a failed
type assertion panics. -/
def methodNameOf (x : Ext) (o : Operation) : Except Fault String :=
  match o.Extensions.lookup "x-codegen" with
  | none => .ok (x.ToCamel o.OperationID)
  | some (ExtValue.object fields) =>
    match fields.lookup "method_name" with
    | none => .ok (x.ToCamel o.OperationID)
    | some (AnyValue.str name) => .ok (x.ToCamel name)
    | some _ => .error Fault.panic
  | some ExtValue.other => .error Fault.panic

/-- The request-body argument appended in operationToMethod (methods.go 143-151). -/
def bodyParams (x : Ext) (o : Operation) : List Parameter :=
  match o.RequestBody with
  | none => []
  | some body =>
    match body.Content.lookup "application/json" with
    | none => []
    | some mt =>
      if mt.Schema.isSome then [{ Name := "body", Typ := x.ToCamel o.OperationID ++ "Body" }]
      else []

/-- Go `slices.ContainsFunc(o.Parameters, func(p) bool { return p.Value.In != "path" })`
(methods.go 154-156): the scan stops at the first hit and dereferences every
value before it. -/
def containsNonPath : List ParameterRef → Except Fault Bool
  | [] => .ok false
  | p :: rest =>
    match p.Value with
    | none => .error Fault.panic
    | some v => if v.In ≠ "path" then .ok true else containsNonPath rest

/-- The loop over the responses map in operationToMethod (methods.go 164-181),
over the entries in the order `range` visits them. -/
def responsesLoop (x : Ext) (o : Operation) :
    List (String × ResponseRef) → List Response → Except Fault (List Response)
  | [], responses => .ok responses
  | (code, resp) :: rest, responses =>
    match responseToType x (x.ToCamel o.OperationID) resp code with
    | .error e => .error e
    | .ok typ =>
      responsesLoop x o rest (responses ++ [{
        IsErr := !(HasPrefixOf code "2")
        IsDefault := code == "default"
        IsUnexpected := false
        Typ := typ
        Code := (statusAtoi code).1
        ErrDescription := TrimSpace (match resp.Value.Description with
          | some d => d
          | none => code) }])

/-- The comparison passed to slices.SortFunc in operationToMethod (methods.go
183-193); the difference of the codes is an `int`. -/
def responseCmp (a b : Response) : Int :=
  if a.IsDefault then 1000
  else if b.IsDefault then -1000
  else wrapInt (a.Code - b.Code)

/-- The sorted response list with its fallback entry (methods.go 183-205). -/
def finishResponses (responses : List Response) : List Response :=
  if !((SortFunc responseCmp responses).any (fun r => r.IsDefault)) then
    SortFunc responseCmp responses ++ [{
      IsErr := false, IsDefault := true, IsUnexpected := true, Typ := "", Code := 0,
      ErrDescription := "" }]
  else SortFunc responseCmp responses

/-- The function operationToMethod (methods.go 123-224). `succOrder` and
`respOrder` are the entries of `o.Responses` in the order in which the loop of
getSuccessResponse and the loop at line 164 visit the map. -/
def operationToMethod (x : Ext) (b : BuilderSpec) (method path : String) (o : Operation)
    (succOrder respOrder : List (String × ResponseRef)) : Except Fault Method :=
  match getSuccessResponseType x b o succOrder with
  | .error e => .error e
  | .ok respType =>
    match methodNameOf x o with
    | .error e => .error e
    | .ok methodName =>
      match buildPathParams x "path" o.Parameters with
      | .error e => .error e
      | .ok params =>
        match containsNonPath o.Parameters with
        | .error e => .error e
        | .ok hasQuery =>
          match responsesLoop x o respOrder [] with
          | .error e => .error e
          | .ok responses =>
            .ok { Description := x.operationGodoc methodName o
                  HTTPMethod := x.httpMethod method
                  FunctionName := methodName
                  ResponseType := respType
                  Path := pathBuilder x path
                  PathParams := params ++ bodyParams x o
                  QueryParams :=
                    if hasQuery then
                      some { Name := "params", Typ := x.ToCamel o.OperationID ++ "Params" }
                    else none
                  HasBody := o.RequestBody.isSome
                  Responses := finishResponses responses }

/-- The order in which the two loops over the responses map of one operation
visit its entries. -/
structure RangeOrder where
  succOrder : List (String × ResponseRef)
  respOrder : List (String × ResponseRef)

/-- The loop of pathToMethods (methods.go 85-94) over the remaining verbs. -/
def pathToMethodsLoop (x : Ext) (b : BuilderSpec) (path : String) (p : PathItem)
    (range : String → RangeOrder) : List String → List Method → Except Fault (List Method)
  | [], methods => .ok methods
  | method :: rest, methods =>
    match p.Operations.lookup method with
    | none => .error Fault.panic
    | some operationSpec =>
      match operationToMethod x b method path
          { operationSpec with Parameters := operationSpec.Parameters ++ p.Parameters }
          (range method).succOrder (range method).respOrder with
      | .error e => .error e
      | .ok m => pathToMethodsLoop x b path p range rest (methods ++ [m])

/-- The function pathToMethods (methods.go 79-97); `range method` gives the map
orders met while the operation of `method` is converted. -/
def pathToMethods (x : Ext) (b : BuilderSpec) (path : String) (p : PathItem)
    (range : String → RangeOrder) : Except Fault (List Method) :=
  pathToMethodsLoop x b path p range (sortedKeys p.Operations) []

/-! ## transform.go: the types of operations -/

/-- The loop over the verbs of one path item shared by pathsToBodyTypes,
pathsToParamTypes and pathsToResponseTypes (transform.go 84-100, 121-163):
`f` is the body of the loop for one operation. -/
def verbsLoop (f : Operation → Except Fault (List Writable)) (p : PathItem) :
    List String → List Writable → Except Fault (List Writable)
  | [], acc => .ok acc
  | verb :: rest, acc =>
    match p.Operations.lookup verb with
    | none => .error Fault.panic
    | some opSpec =>
      match f opSpec with
      | .error e => .error e
      | .ok ws => verbsLoop f p rest (acc ++ ws)

/-- The loop over `paths.InMatchingOrder()` shared by the same functions; a path
item that is a reference is skipped. -/
def pathsLoop (f : Operation → Except Fault (List Writable)) :
    List (String × PathItem) → List Writable → Except Fault (List Writable)
  | [], acc => .ok acc
  | (_, pathSpec) :: rest, acc =>
    if pathSpec.Ref ≠ "" then pathsLoop f rest acc
    else
      match verbsLoop f pathSpec (sortedKeys pathSpec.Operations) acc with
      | .error e => .error e
      | .ok acc1 => pathsLoop f rest acc1

/-- The body of the loop of pathsToBodyTypes for one operation (transform.go
88-99). -/
def operationBodyTypes (x : Ext) (opSpec : Operation) : Except Fault (List Writable) :=
  match opSpec.RequestBody with
  | none => .ok []
  | some body =>
    match body.Content.lookup "application/json" with
    | none => .ok []
    | some mt =>
      match mt.Schema with
      | none => .ok []
      | some schema =>
        match createObject x schema.Value (x.ToCamel opSpec.OperationID ++ "Body") with
        | .error e => .error e
        | .ok (bodyObject, additionalTypes) =>
          .ok ([Writable.typeDeclaration bodyObject] ++ additionalTypes)

/-- The function pathsToBodyTypes (transform.go 71-104); `none` is a nil
`paths`. -/
def pathsToBodyTypes (x : Ext) (paths : Option (List (String × PathItem))) :
    Except Fault (List Writable) :=
  match paths with
  | none => .ok []
  | some ps => pathsLoop (operationBodyTypes x) ps []

/-- The struct field built for one parameter in pathsToParamTypes (transform.go
136-147); `t` is the converted type. -/
def queryField (x : Ext) (p : ParameterRef) (v : OAParameter) (t : String) : StructField :=
  { Name := if p.Ref ≠ "" then x.ToCamel (TrimPrefixOf p.Ref schemasPrefixStr) else v.Name
    Typ := t
    Parameter := some v
    Optional := !v.Required
    Comment := x.parameterPropertyGodoc v
    Tags := [] }

/-- The loop over the parameters of one operation in pathsToParamTypes
(transform.go 130-148). -/
def paramFieldsLoop (x : Ext) :
    List ParameterRef → List StructField → Except Fault (List StructField)
  | [], fields => .ok fields
  | p :: rest, fields =>
    match p.Value with
    | none => .error Fault.panic
    | some v =>
      if v.In = "path" then paramFieldsLoop x rest fields
      else
        match v.Schema with
        | none => .error Fault.panic
        | some schema =>
          match convertToValidGoType x "" schema with
          | .error e => .error e
          | .ok t =>
            paramFieldsLoop x rest (fields ++ [queryField x p v t])

/-- The body of the loop of pathsToParamTypes for one operation (transform.go
125-162). -/
def operationParamTypes (x : Ext) (opSpec : Operation) : Except Fault (List Writable) :=
  if opSpec.Parameters.length > 0 then
    match paramFieldsLoop x opSpec.Parameters [] with
    | .error e => .error e
    | .ok fields =>
      if fields.length ≠ 0 then
        .ok [Writable.typeDeclaration
               { Typ := "struct", Name := x.ToCamel opSpec.OperationID ++ "Params"
                 Comment := x.operationParamsGodoc
                   (x.ToCamel opSpec.OperationID ++ "Params") opSpec
                 Fields := fields, Schema := none },
             Writable.toQueryValues
               { Typ := "struct", Name := x.ToCamel opSpec.OperationID ++ "Params"
                 Comment := x.operationParamsGodoc
                   (x.ToCamel opSpec.OperationID ++ "Params") opSpec
                 Fields := fields, Schema := none }]
      else .ok []
  else .ok []

/-- The function pathsToParamTypes (transform.go 107-167). -/
def pathsToParamTypes (x : Ext) (paths : Option (List (String × PathItem))) :
    Except Fault (List Writable) :=
  match paths with
  | none => .ok []
  | some ps => pathsLoop (operationParamTypes x) ps []

/-- The loop over the sorted status tokens of one operation in
pathsToResponseTypes (transform.go 195-217). -/
def responseTypesLoop (x : Ext) (b : BuilderSpec) (opSpec : Operation) :
    List String → List Writable → Except Fault (List Writable)
  | [], acc => .ok acc
  | code :: rest, acc =>
    match opSpec.Responses.lookup code with
    | none => .error Fault.panic
    | some response =>
      match (if response.Ref ≠ "" then
          b.ComponentsResponses.lookup (TrimPrefixOf response.Ref responsesPrefixStr)
        else some response) with
      | none => .error Fault.panic
      | some resolved =>
        match resolved.Value.Content.lookup "application/json" with
        | none => responseTypesLoop x b opSpec rest acc
        | some content =>
          match content.Schema with
          | none => .error Fault.panic
          | some schema =>
            if schema.Ref ≠ "" then responseTypesLoop x b opSpec rest acc
            else
              match generateSchemaComponents x
                  (getResponseName x (x.ToCamel opSpec.OperationID) code schema) schema
                  (code == "default" || HasPrefixOf code "4" || HasPrefixOf code "5") with
              | .error e => .error e
              | .ok objects => responseTypesLoop x b opSpec rest (acc ++ objects)

/-- The body of the loop of pathsToResponseTypes for one operation (transform.go
189-218): the status tokens are collected and sorted, then the loop runs. -/
def operationResponseTypes (x : Ext) (b : BuilderSpec) (opSpec : Operation) :
    Except Fault (List Writable) :=
  responseTypesLoop x b opSpec (sortedKeys opSpec.Responses) []

/-- The function pathsToResponseTypes (transform.go 171-223). -/
def pathsToResponseTypes (x : Ext) (b : BuilderSpec)
    (paths : Option (List (String × PathItem))) : Except Fault (List Writable) :=
  match paths with
  | none => .ok []
  | some ps => pathsLoop (operationResponseTypes x b) ps []

/-! ## types.go -/

/-- The function paramToString (types.go 108-143); a parameter without a schema
is a nil dereference. -/
def paramToString (name : String) (param : OAParameter) : Except Fault String :=
  match param.Schema with
  | none => .error Fault.panic
  | some schema =>
    if schema.Ref ≠ "" then .ok ("string(" ++ name ++ ")")
    else if schema.Value.TypeIs "string" then
      if schema.Value.Format = "date-time" then
        .ok (TrimPrefixOf name "*" ++ ".Format(time.RFC3339)")
      else if schema.Value.Format = "date" then .ok (TrimPrefixOf name "*" ++ ".String()")
      else if schema.Value.Format = "time" then .ok (TrimPrefixOf name "*" ++ ".String()")
      else .ok name
    else if schema.Value.TypeIs "integer" then .ok ("strconv.Itoa(" ++ name ++ ")")
    else if schema.Value.TypeIs "boolean" then .ok ("strconv.FormatBool(" ++ name ++ ")")
    else if schema.Value.TypeIs "number" then
      .ok ("strconv.FormatFloat(" ++ name ++ ", 'f', -1, 64)")
    else .ok name

/-! ## Stand-ins used to evaluate the code on concrete documents -/

/-- The text with its first letter in upper case. -/
def upperFirst (s : String) : String :=
  match s.data with
  | [] => ""
  | c :: rest => ⟨c.toUpper :: rest⟩

/-- The text without a final `s`. -/
def dropFinalS (s : String) : String :=
  if s.data.getLast? = some 's' then ⟨s.data.dropLast⟩ else s

/-- One choice of the functions of other packages, for evaluating examples; the
general statements hold for all choices. -/
def sampleExt : Ext :=
  { ToCamel := upperFirst
    ToLowerCamel := id
    ToSnake := id
    MakeSingular := dropFinalS
    schemaGodoc := fun _ _ => ""
    schemaPropertyGodoc := fun _ => ""
    fmtFloat64 := fun _ => "0"
    float64ToInt := fun _ => 0
    float64ToInt64 := fun _ => 0
    Quote := fun s => "\"" ++ s ++ "\""
    operationGodoc := fun _ _ => ""
    httpMethod := id
    parameterPropertyGodoc := fun _ => ""
    operationParamsGodoc := fun _ _ => "" }

/-- A schema with the given type name and nothing else. -/
def plainSchema (typ : String) : Schema :=
  Schema.mk (some [typ]) "" "" [] none [] [] none none none none none

/-- An inline string schema. -/
def stringRef : SchemaRef := SchemaRef.mk "" (plainSchema "string")

/-! ## The recursion of genSchema -/

theorem height_lookup_le (k : String) (m : List (String × SchemaRef)) (s : SchemaRef)
    (h : m.lookup k = some s) : s.height ≤ propsHeight m := by
  induction m with
  | nil => simp [List.lookup] at h
  | cons kv rest ih =>
    obtain ⟨k1, s1⟩ := kv
    simp only [List.lookup] at h
    simp only [propsHeight, pairHeight]
    split at h
    · injection h with h
      subst h
      exact Nat.le_max_left _ _
    · exact Nat.le_trans (ih h) (Nat.le_max_right _ _)

theorem propsHeight_filter_le (p : String × SchemaRef → Bool) (m : List (String × SchemaRef)) :
    propsHeight (m.filter p) ≤ propsHeight m := by
  induction m with
  | nil => simp
  | cons kv rest ih =>
    simp only [List.filter]
    split
    · simp only [propsHeight]
      exact max_le_max (Nat.le_refl _) ih
    · simp only [propsHeight]
      exact Nat.le_trans ih (Nat.le_max_right _ _)

theorem height_mem_le (s : SchemaRef) (l : List SchemaRef) (h : s ∈ l) :
    s.height ≤ listHeight l := by
  induction l with
  | nil => simp at h
  | cons t rest ih =>
    simp only [listHeight]
    rcases List.mem_cons.mp h with h1 | h1
    · subst h1
      exact Nat.le_max_left _ _
    · exact Nat.le_trans (ih h1) (Nat.le_max_right _ _)

theorem height_value_lt (s : SchemaRef) : s.Value.height < s.height := by
  cases s
  simp [SchemaRef.Value, SchemaRef.height]

theorem height_pos (s : SchemaRef) : 0 < s.height := by
  cases s
  simp [SchemaRef.height]

theorem height_items_lt (s : Schema) (i : SchemaRef) (h : s.Items = some i) :
    i.height < s.height := by
  cases s
  simp only [Schema.Items] at h
  subst h
  simp only [Schema.height, optHeight]
  omega

theorem height_properties_lt (s : Schema) : propsHeight s.Properties < s.height := by
  cases s
  simp only [Schema.Properties, Schema.height]
  omega

theorem height_allOf_lt (s : Schema) : listHeight (s.AllOf.getD []) < s.height := by
  cases s with
  | mk _ _ _ _ _ _ _ _ _ _ _ allOf =>
    cases allOf with
    | none => simp [Schema.AllOf, listHeight, Schema.height]
    | some l =>
      simp only [Schema.AllOf, Option.getD, Schema.height, optListHeight]
      omega

theorem createFieldsLoopWith_congr (x : Ext) (gen1 gen2 : SchemaRef → String → GenResult)
    (props : List (String × SchemaRef)) (name : String) (required : List String)
    (hg : ∀ c nm, c.height ≤ propsHeight props → gen1 c nm = gen2 c nm) (keys : List String) :
    ∀ (fields : List StructField) (types : List Writable),
      createFieldsLoopWith x gen1 props name required keys fields types
        = createFieldsLoopWith x gen2 props name required keys fields types := by
  induction keys with
  | nil => intro fields types; rfl
  | cons k rest ih =>
    intro fields types
    simp only [createFieldsLoopWith]
    cases hl : props.lookup k with
    | none => rfl
    | some schema =>
      simp only [hg schema _ (height_lookup_le k props schema hl)]
      cases gen2 schema (name ++ x.ToCamel k) with
      | error e => rfl
      | ok r => exact ih _ _

theorem createFieldsWith_congr (x : Ext) (gen1 gen2 : SchemaRef → String → GenResult)
    (props : List (String × SchemaRef)) (name : String) (required : List String)
    (hg : ∀ c nm, c.height ≤ propsHeight props → gen1 c nm = gen2 c nm) :
    createFieldsWith x gen1 props name required = createFieldsWith x gen2 props name required :=
  createFieldsLoopWith_congr x gen1 gen2 props name required hg _ _ _

theorem createObjectWith_congr (x : Ext) (gen1 gen2 : SchemaRef → String → GenResult)
    (schema : Schema) (name : String)
    (hg : ∀ c nm, c.height < schema.height → gen1 c nm = gen2 c nm) :
    createObjectWith x gen1 schema name = createObjectWith x gen2 schema name := by
  unfold createObjectWith
  rw [createFieldsWith_congr x gen1 gen2 schema.Properties name schema.Required
    (fun c nm hc => hg c nm (Nat.lt_of_le_of_lt hc (height_properties_lt schema)))]

theorem createAllOfLoopWith_congr (x : Ext) (gen1 gen2 : SchemaRef → String → GenResult)
    (name : String) (branches : List SchemaRef)
    (hg : ∀ c nm, c.height < listHeight branches → gen1 c nm = gen2 c nm) :
    ∀ st : AllOfState,
      createAllOfLoopWith x gen1 name branches st = createAllOfLoopWith x gen2 name branches st := by
  induction branches with
  | nil => intro st; rfl
  | cons s rest ih =>
    intro st
    simp only [createAllOfLoopWith]
    have hs : s.height ≤ listHeight (s :: rest) := by
      simp only [listHeight]
      exact Nat.le_max_left _ _
    have hr : listHeight rest ≤ listHeight (s :: rest) := by
      simp only [listHeight]
      exact Nat.le_max_right _ _
    rw [createFieldsWith_congr x gen1 gen2 (deleteKeys st.seen s.Value.Properties) name
      s.Value.Required (fun c nm hc => hg c nm (by
        have h1 := propsHeight_filter_le (fun kv => !(st.seen.contains kv.1)) s.Value.Properties
        have h2 := height_properties_lt s.Value
        have h3 := height_value_lt s
        unfold deleteKeys at hc
        omega))]
    cases createFieldsWith x gen2 (deleteKeys st.seen s.Value.Properties) name
        s.Value.Required with
    | error e => rfl
    | ok r => exact ih (fun c nm hc => hg c nm (Nat.lt_of_lt_of_le hc hr)) _

theorem createAllOfWith_congr (x : Ext) (gen1 gen2 : SchemaRef → String → GenResult)
    (schema : Schema) (name : String)
    (hg : ∀ c nm, c.height < schema.height → gen1 c nm = gen2 c nm) :
    createAllOfWith x gen1 schema name = createAllOfWith x gen2 schema name := by
  unfold createAllOfWith
  rw [createAllOfLoopWith_congr x gen1 gen2 name (schema.AllOf.getD [])
    (fun c nm hc => hg c nm (Nat.lt_trans hc (height_allOf_lt schema)))]

theorem genSchemaBody_congr (x : Ext) (gen1 gen2 : SchemaRef → String → GenResult)
    (schema : SchemaRef) (name : String)
    (hg : ∀ c nm, c.height < schema.height → gen1 c nm = gen2 c nm) :
    genSchemaBody x gen1 schema name = genSchemaBody x gen2 schema name := by
  have hv := height_value_lt schema
  have h2 := createObjectWith_congr x gen1 gen2 schema.Value name
    (fun c nm hc => hg c nm (Nat.lt_trans hc hv))
  have h3 := createAllOfWith_congr x gen1 gen2 schema.Value name
    (fun c nm hc => hg c nm (Nat.lt_trans hc hv))
  unfold genSchemaBody
  rw [h2, h3]
  cases hI : schema.Value.Items with
  | none => rfl
  | some items =>
    simp only [hg items _ (Nat.lt_trans (height_items_lt _ _ hI) hv)]

theorem genSchemaDepth_of_le (x : Ext) (n : Nat) :
    ∀ (s : SchemaRef) (name : String), s.height ≤ n →
      genSchemaDepth x n s name = genSchemaDepth x s.height s name := by
  induction n using Nat.strong_induction_on with
  | _ n ih =>
    intro s name hle
    obtain ⟨m, hm⟩ : ∃ m, s.height = m + 1 := ⟨s.height - 1, by have := height_pos s; omega⟩
    obtain ⟨k, hk⟩ : ∃ k, n = k + 1 := ⟨n - 1, by have := height_pos s; omega⟩
    rw [hm, hk]
    simp only [genSchemaDepth]
    apply genSchemaBody_congr
    intro c nm hc
    rw [ih k (by omega) c nm (by omega), ih m (by omega) c nm (by omega)]

/-- The recursion of the source: genSchema is its body with genSchema as the
callee. -/
theorem genSchema_unfold (x : Ext) (schema : SchemaRef) (name : String) :
    genSchema x schema name = genSchemaBody x (genSchema x) schema name := by
  obtain ⟨m, hm⟩ : ∃ m, schema.height = m + 1 :=
    ⟨schema.height - 1, by have := height_pos schema; omega⟩
  unfold genSchema
  rw [hm]
  simp only [genSchemaDepth]
  apply genSchemaBody_congr
  intro c nm hc
  exact genSchemaDepth_of_le x m c nm (by omega)

/-! ## Lemmas on strings -/

theorem append_ne_empty_of_left (a b : String) (h : a ≠ "") : a ++ b ≠ "" := by
  intro hab
  apply h
  have h1 : (a ++ b).data = [] := by rw [hab]
  rw [String.data_append] at h1
  exact String.ext (List.append_eq_nil.mp h1).1

theorem trimPrefixOf_append (pre r : String) : TrimPrefixOf (pre ++ r) pre = r := by
  unfold TrimPrefixOf
  have h : pre.data.isPrefixOf (pre ++ r).data = true := by
    rw [String.data_append, List.isPrefixOf_iff_prefix]
    exact List.prefix_append _ _
  rw [if_pos h]
  apply String.ext
  simp [String.data_append]

theorem string_append_left_cancel (a b c : String) (h : a ++ b = a ++ c) : b = c := by
  apply String.ext
  have h1 : (a ++ b).data = (a ++ c).data := by rw [h]
  rw [String.data_append, String.data_append] at h1
  exact List.append_cancel_left h1

theorem schemasPrefixStr_ne_empty : schemasPrefixStr ≠ "" := by decide

/-! ## References (genSchema, getReferenceSchema) -/

theorem genSchema_of_ref (x : Ext) (schema : SchemaRef) (name : String) (h : schema.Ref ≠ "") :
    genSchema x schema name =
      .ok (if schema.Value.Enum.length > 0
           then x.ToCamel (x.MakeSingular (TrimPrefixOf schema.Ref schemasPrefixStr))
           else x.ToCamel (TrimPrefixOf schema.Ref schemasPrefixStr), []) := by
  rw [genSchema_unfold]
  unfold genSchemaBody
  rw [if_pos h]
  split <;> rfl

/-- C8: for a schema reference `#/components/schemas/<ref>` and every desired
name, genSchema returns no new declarations and the type name ToCamel(ref), or
ToCamel of the singularized ref when the referenced schema has enum values;
getReferenceSchema returns the same name; an array whose items are a reference
to the enum schema `Color` resolves to a sequence of ToCamel(MakeSingular
"Color") whatever the desired name is. -/
theorem genSchema_reference_name (x : Ext) (ref : String) (value : Schema) (name : String) :
    genSchema x (SchemaRef.mk (schemasPrefixStr ++ ref) value) name =
        .ok (if value.Enum.length > 0 then x.ToCamel (x.MakeSingular ref) else x.ToCamel ref, [])
      ∧ getReferenceSchema x (SchemaRef.mk (schemasPrefixStr ++ ref) value) =
        (if value.Enum.length > 0 then x.ToCamel (x.MakeSingular ref) else x.ToCamel ref)
      ∧ (value.Enum.length > 0 →
          genSchema x (SchemaRef.mk "" (Schema.mk (some ["array"]) "" "" []
            (some (SchemaRef.mk (schemasPrefixStr ++ "Color") value)) [] [] none none none none
            none)) name = .ok ("[]" ++ x.ToCamel (x.MakeSingular "Color"), [])) := by
  have hne : ∀ r : String, (SchemaRef.mk (schemasPrefixStr ++ r) value).Ref ≠ "" := fun r =>
    append_ne_empty_of_left _ _ schemasPrefixStr_ne_empty
  refine ⟨?_, ?_, ?_⟩
  · rw [genSchema_of_ref x _ name (hne ref)]
    simp only [SchemaRef.Ref, SchemaRef.Value, trimPrefixOf_append]
  · unfold getReferenceSchema
    rw [if_pos (hne ref)]
    simp only [SchemaRef.Ref, SchemaRef.Value, trimPrefixOf_append]
  · intro hen
    rw [genSchema_unfold]
    simp only [genSchemaBody, SchemaRef.Ref, SchemaRef.Value, Schema.Enum, Schema.TypeIs,
      Schema.Typ, Schema.Items]
    rw [genSchema_of_ref x _ _ (hne "Color")]
    simp only [SchemaRef.Ref, SchemaRef.Value, trimPrefixOf_append, if_pos hen]
    simp

/-- C8, evaluated: the enum schema `Color` referenced from an array named
`colors` resolves to `[]Color`, and the reference itself to `Color`. -/
theorem genSchema_reference_name_witness :
    genSchema sampleExt (SchemaRef.mk "" (Schema.mk (some ["array"]) "" "" []
        (some (SchemaRef.mk "#/components/schemas/Color"
          (Schema.mk (some ["string"]) "" "" [AnyValue.str "red"] none [] [] none none none none
            none))) [] [] none none none none none)) "colors" = .ok ("[]Color", [])
      ∧ getReferenceSchema sampleExt (SchemaRef.mk "#/components/schemas/Color"
          (Schema.mk (some ["string"]) "" "" [AnyValue.str "red"] none [] [] none none none none
            none)) = "Color" := by
  have h := genSchema_reference_name sampleExt "Color"
    (Schema.mk (some ["string"]) "" "" [AnyValue.str "red"] none [] [] none none none none none)
    "colors"
  refine ⟨?_, ?_⟩
  · rw [show ("#/components/schemas/Color" : String) = schemasPrefixStr ++ "Color" from by decide]
    rw [h.2.2 (by decide)]
    rfl
  · rw [show ("#/components/schemas/Color" : String) = schemasPrefixStr ++ "Color" from by decide]
    rw [h.2.1]
    decide

/-! ## Objects (createObject) -/

theorem typeIs_unique (s : Schema) (t u : String) (h : s.TypeIs t = true) :
    s.TypeIs u = (t == u) := by
  unfold Schema.TypeIs at h ⊢
  split at h
  · next v hv =>
    have hvt : v = t := by simpa using h
    rw [hvt]
  · exact absurd h (by simp)

/-- The free-form map declaration of createObject (transform.go 395-400). -/
def mapDeclaration (x : Ext) (schema : Schema) (name : String) : TypeDeclaration :=
  { Comment := x.schemaGodoc name schema, Name := name, Typ := "map[string]any",
    Fields := [], Schema := some schema }

/-- An object schema without properties, with `additionalProperties: true` and
one enum literal. -/
def freeFormWithEnum : Schema :=
  Schema.mk (some ["object"]) "" "" [AnyValue.str "a"] none [] [] (some true) none none none none

/-- C9, as stated, fails: on an object schema without properties and with
`additionalProperties: true` that also lists enum values, genSchema and
generateSchemaComponents produce no declaration at all, so no map declaration. -/
theorem freeForm_with_enum_no_map :
    freeFormWithEnum.TypeIs "object" = true ∧ freeFormWithEnum.Properties = []
      ∧ freeFormWithEnum.APHas = some true
      ∧ genSchema sampleExt (SchemaRef.mk "" freeFormWithEnum) "Meta" = .ok ("Meta", [])
      ∧ generateSchemaComponents sampleExt "Meta" (SchemaRef.mk "" freeFormWithEnum) false
          = .ok [] := by
  refine ⟨by decide, rfl, rfl, ?_, ?_⟩
  · rfl
  · rfl

/-- C9, amended: for every object schema with no properties and
`additionalProperties: true`, createObject returns the declaration of
`map[string]any` with no fields and no additional declarations; when the schema
is inline and lists no enum values, genSchema returns that declaration alone,
and generateSchemaComponents returns it, alone when isErr is false and between
the type assertion and the error implementation when isErr is true. No struct
is declared. -/
theorem freeForm_object_is_map (x : Ext) (schema : Schema) (name : String)
    (hp : schema.Properties = []) (ha : schema.APHas = some true) :
    createObject x schema name = .ok (mapDeclaration x schema name, [])
      ∧ (mapDeclaration x schema name).Typ = "map[string]any"
      ∧ (mapDeclaration x schema name).Fields = []
      ∧ (schema.Enum = [] → schema.TypeIs "object" = true →
          genSchema x (SchemaRef.mk "" schema) name
            = .ok (name, [Writable.typeDeclaration (mapDeclaration x schema name)]))
      ∧ (schema.Enum = [] → schema.TypeIs "object" = true → ∀ ref : String,
          generateSchemaComponents x name (SchemaRef.mk ref schema) false
            = .ok [Writable.typeDeclaration (mapDeclaration x schema name)]
          ∧ generateSchemaComponents x name (SchemaRef.mk ref schema) true
            = .ok [Writable.typeAssertionDeclaration name,
                   Writable.typeDeclaration (mapDeclaration x schema name),
                   Writable.errorImplementation (mapDeclaration x schema name)]) := by
  have hobj : createObject x schema name = .ok (mapDeclaration x schema name, []) := by
    unfold createObject createObjectWith
    simp [hp, ha, mapDeclaration]
  have hobj1 : createObjectWith x (genSchema x) schema name
      = .ok (mapDeclaration x schema name, []) := hobj
  refine ⟨hobj, rfl, rfl, ?_, ?_⟩
  · intro he ht
    rw [genSchema_unfold]
    simp [genSchemaBody, SchemaRef.Ref, SchemaRef.Value, he, typeIs_unique schema _ _ ht, hobj1]
  · intro he ht ref
    unfold generateSchemaComponents
    simp [SchemaRef.Value, he, typeIs_unique schema _ _ ht, hobj]

/-- C9, amended, at a concrete schema. -/
theorem freeForm_object_is_map_witness :
    createObject sampleExt
        (Schema.mk (some ["object"]) "" "" [] none [] [] (some true) none none none none) "Meta"
      = .ok (mapDeclaration sampleExt
          (Schema.mk (some ["object"]) "" "" [] none [] [] (some true) none none none none)
          "Meta", []) :=
  (freeForm_object_is_map sampleExt
    (Schema.mk (some ["object"]) "" "" [] none [] [] (some true) none none none none) "Meta"
    rfl rfl).1

/-- An object schema with the property `id` and an additionalProperties schema. -/
def objectWithPropertyAndAP : Schema :=
  Schema.mk (some ["object"]) "" "" [] none [("id", stringRef)] ["id"] none (some stringRef)
    none none none

/-- C10, the code at the failing input: an object schema that declares the
property `id` and gives an additionalProperties schema becomes the free-form
map declaration, without fields. -/
theorem createObject_property_with_ap_schema_is_map :
    objectWithPropertyAndAP.Properties.length = 1
      ∧ createObject sampleExt objectWithPropertyAndAP "Pet"
        = .ok (mapDeclaration sampleExt objectWithPropertyAndAP "Pet", []) := by
  exact ⟨rfl, rfl⟩

/-! ## Enumerations (createEnum) -/

/-- The literal is a decoded string. -/
def AnyValue.isString : AnyValue → Bool
  | .str _ => true
  | _ => false

/-- The literal is a decoded number. -/
def AnyValue.isNumber : AnyValue → Bool
  | .float64 _ => true
  | _ => false

/-- The text of a literal of the declared kind: the string itself, or `%v` of
the number. -/
def literalText (x : Ext) (stringKind : Bool) : AnyValue → Option String
  | .str s => if stringKind then some s else none
  | .float64 f => if stringKind then none else some (x.fmtFloat64 f)
  | .other _ => none

/-- The variant the claim describes for one literal of a string enum. -/
def stringVariant (x : Ext) (enumName : String) : AnyValue → Option EnumOption
  | .str s => some { Name := enumName ++ x.ToCamel s, Value := EnumValue.string s }
  | _ => none

/-- The variant the claim describes for one literal of a numeric enum; `conv`
turns the decoded number into the value of the declared kind. -/
def numberVariant (x : Ext) (enumName : String) (conv : Float64 → EnumValue) :
    AnyValue → Option EnumOption
  | .float64 f => some { Name := enumName ++ x.ToCamel (x.fmtFloat64 f), Value := conv f }
  | _ => none

theorem foldl_enumStepString (x : Ext) (n : String) (l : List AnyValue) (acc : List EnumOption) :
    l.foldl (enumStepString x n) acc = acc ++ l.filterMap (stringVariant x n) := by
  induction l generalizing acc with
  | nil => simp
  | cons v rest ih =>
    rw [List.foldl_cons, ih]
    cases v <;> simp [enumStepString, stringVariant, List.filterMap_cons]

theorem foldl_enumStepInt64 (x : Ext) (n : String) (l : List AnyValue) (acc : List EnumOption) :
    l.foldl (enumStepInt64 x n) acc
      = acc ++ l.filterMap (numberVariant x n (fun f => EnumValue.int64 (x.float64ToInt64 f))) := by
  induction l generalizing acc with
  | nil => simp
  | cons v rest ih =>
    rw [List.foldl_cons, ih]
    cases v <;> simp [enumStepInt64, numberVariant, List.filterMap_cons]

theorem foldl_enumStepInt (x : Ext) (n : String) (l : List AnyValue) (acc : List EnumOption) :
    l.foldl (enumStepInt x n) acc
      = acc ++ l.filterMap (numberVariant x n (fun f => EnumValue.int (x.float64ToInt f))) := by
  induction l generalizing acc with
  | nil => simp
  | cons v rest ih =>
    rw [List.foldl_cons, ih]
    cases v <;> simp [enumStepInt, numberVariant, List.filterMap_cons]

theorem foldl_enumStepFloat64 (x : Ext) (n : String) (l : List AnyValue) (acc : List EnumOption) :
    l.foldl (enumStepFloat64 x n) acc
      = acc ++ l.filterMap (numberVariant x n EnumValue.float64) := by
  induction l generalizing acc with
  | nil => simp
  | cons v rest ih =>
    rw [List.foldl_cons, ih]
    cases v <;> simp [enumStepFloat64, numberVariant, List.filterMap_cons]

theorem length_filterMap_stringVariant (x : Ext) (n : String) (l : List AnyValue) :
    (l.filterMap (stringVariant x n)).length = (l.filter AnyValue.isString).length := by
  induction l with
  | nil => rfl
  | cons v rest ih =>
    cases v <;> simp [stringVariant, AnyValue.isString, List.filterMap_cons, ih]

theorem length_filterMap_numberVariant (x : Ext) (n : String) (conv : Float64 → EnumValue)
    (l : List AnyValue) :
    (l.filterMap (numberVariant x n conv)).length = (l.filter AnyValue.isNumber).length := by
  induction l with
  | nil => rfl
  | cons v rest ih =>
    cases v <;> simp [numberVariant, AnyValue.isNumber, List.filterMap_cons, ih]

/-- The variants of createEnum, by the kind of the schema. -/
theorem createEnum_values (x : Ext) (schema : Schema) (name : String) :
    (schema.TypeIs "string" = true →
      ∃ e, createEnum x schema name = some e ∧ e.Typ.Name = x.MakeSingular name
        ∧ e.Typ.Typ = "string"
        ∧ e.Values = schema.Enum.filterMap (stringVariant x (x.MakeSingular name)))
    ∧ (schema.TypeIs "integer" = true → schema.Format = "int64" →
      ∃ e, createEnum x schema name = some e ∧ e.Typ.Name = x.MakeSingular name
        ∧ e.Typ.Typ = "int64"
        ∧ e.Values = schema.Enum.filterMap (numberVariant x (x.MakeSingular name)
            (fun f => EnumValue.int64 (x.float64ToInt64 f))))
    ∧ (schema.TypeIs "integer" = true → schema.Format ≠ "int64" →
      ∃ e, createEnum x schema name = some e ∧ e.Typ.Name = x.MakeSingular name
        ∧ e.Typ.Typ = "int"
        ∧ e.Values = schema.Enum.filterMap (numberVariant x (x.MakeSingular name)
            (fun f => EnumValue.int (x.float64ToInt f))))
    ∧ (schema.TypeIs "number" = true →
      ∃ e, createEnum x schema name = some e ∧ e.Typ.Name = x.MakeSingular name
        ∧ e.Typ.Typ = "float64"
        ∧ e.Values = schema.Enum.filterMap (numberVariant x (x.MakeSingular name)
            EnumValue.float64)) := by
  refine ⟨?_, ?_, ?_, ?_⟩
  · intro h
    refine ⟨_, by simp only [createEnum, h, if_true]; rfl, rfl, rfl, ?_⟩
    simp [foldl_enumStepString]
  · intro h hf
    have hs := typeIs_unique schema _ "string" h
    refine ⟨_, by simp only [createEnum, h, hs, hf, if_true]; rfl, rfl, rfl, ?_⟩
    simp [foldl_enumStepInt64]
  · intro h hf
    have hs := typeIs_unique schema _ "string" h
    refine ⟨_, by simp only [createEnum, h, hs, hf, if_true]; rfl, rfl, rfl, ?_⟩
    simp [foldl_enumStepInt]
  · intro h
    have hs := typeIs_unique schema _ "string" h
    have hi := typeIs_unique schema _ "integer" h
    refine ⟨_, by simp only [createEnum, h, hs, hi, if_true]; rfl, rfl, rfl, ?_⟩
    simp [foldl_enumStepFloat64]

/-- C6: for an enum schema of kind string, integer or number, createEnum returns
a declaration (it never fails) named by the singularized desired name, whose
variants are, in the order of the literal list, exactly the literals whose
runtime type matches the kind (decoded strings for string, decoded numbers for
integer and number), so there are as many variants as matching literals; each
is named enumName + ToCamel(text of the literal) and carries the literal as its
value: the string, the number, or for an integer enum the number converted to
`int64` or `int`. -/
theorem createEnum_matching_literals (x : Ext) (schema : Schema) (name : String) :
    (schema.TypeIs "string" = true →
      ∃ e, createEnum x schema name = some e ∧ e.Typ.Name = x.MakeSingular name
        ∧ e.Values = schema.Enum.filterMap (stringVariant x (x.MakeSingular name))
        ∧ e.Values.length = (schema.Enum.filter AnyValue.isString).length)
    ∧ (schema.TypeIs "integer" = true →
      ∃ e, createEnum x schema name = some e ∧ e.Typ.Name = x.MakeSingular name
        ∧ e.Values = schema.Enum.filterMap (numberVariant x (x.MakeSingular name)
            (if schema.Format = "int64" then fun f => EnumValue.int64 (x.float64ToInt64 f)
             else fun f => EnumValue.int (x.float64ToInt f)))
        ∧ e.Values.length = (schema.Enum.filter AnyValue.isNumber).length)
    ∧ (schema.TypeIs "number" = true →
      ∃ e, createEnum x schema name = some e ∧ e.Typ.Name = x.MakeSingular name
        ∧ e.Values = schema.Enum.filterMap (numberVariant x (x.MakeSingular name)
            EnumValue.float64)
        ∧ e.Values.length = (schema.Enum.filter AnyValue.isNumber).length) := by
  obtain ⟨h1, h2, h3, h4⟩ := createEnum_values x schema name
  refine ⟨?_, ?_, ?_⟩
  · intro h
    obtain ⟨e, he, hn, _, hv⟩ := h1 h
    exact ⟨e, he, hn, hv, by rw [hv, length_filterMap_stringVariant]⟩
  · intro h
    by_cases hf : schema.Format = "int64"
    · obtain ⟨e, he, hn, _, hv⟩ := h2 h hf
      exact ⟨e, he, hn, by rw [hv, if_pos hf], by rw [hv, length_filterMap_numberVariant]⟩
    · obtain ⟨e, he, hn, _, hv⟩ := h3 h hf
      exact ⟨e, he, hn, by rw [hv, if_neg hf], by rw [hv, length_filterMap_numberVariant]⟩
  · intro h
    obtain ⟨e, he, hn, _, hv⟩ := h4 h
    exact ⟨e, he, hn, hv, by rw [hv, length_filterMap_numberVariant]⟩

/-- A string enum whose literal list holds a number between two strings. -/
def colorsEnum : Schema :=
  Schema.mk (some ["string"]) "" "" [AnyValue.str "red", AnyValue.float64 ⟨0⟩, AnyValue.str "blue"]
    none [] [] none none none none none

/-- C6 at a concrete schema: the number is skipped, the two strings give the
variants `ColorRed` and `ColorBlue` in that order. -/
theorem createEnum_matching_literals_witness :
    ∃ e, createEnum sampleExt colorsEnum "Colors" = some e
      ∧ e.Values = [{ Name := "ColorRed", Value := EnumValue.string "red" },
                    { Name := "ColorBlue", Value := EnumValue.string "blue" }] := by
  obtain ⟨e, he, _, hv, _⟩ := (createEnum_matching_literals sampleExt colorsEnum "Colors").1 rfl
  exact ⟨e, he, by rw [hv]; decide⟩

theorem map_name_stringVariant (x : Ext) (n : String) (l : List AnyValue) :
    (l.filterMap (stringVariant x n)).map (fun o => o.Name)
      = ((l.filterMap (literalText x true)).map x.ToCamel).map (fun t => n ++ t) := by
  induction l with
  | nil => rfl
  | cons v rest ih =>
    cases v <;> simp [stringVariant, literalText, List.filterMap_cons, ih]

theorem map_name_numberVariant (x : Ext) (n : String) (conv : Float64 → EnumValue)
    (l : List AnyValue) :
    (l.filterMap (numberVariant x n conv)).map (fun o => o.Name)
      = ((l.filterMap (literalText x false)).map x.ToCamel).map (fun t => n ++ t) := by
  induction l with
  | nil => rfl
  | cons v rest ih =>
    cases v <;> simp [numberVariant, literalText, List.filterMap_cons, ih]

theorem nodup_map_append_left (n : String) (l : List String) :
    (l.map (fun t => n ++ t)).Nodup ↔ l.Nodup :=
  List.nodup_map_iff (fun _ _ h => string_append_left_cancel n _ _ h)

/-- A string enum that lists the literal `a` twice. -/
def repeatedEnum : Schema :=
  Schema.mk (some ["string"]) "" "" [AnyValue.str "a", AnyValue.str "a"] none [] [] none none
    none none none

/-- C7, as stated, fails: a literal list that repeats a value gives two variants
of the same name. -/
theorem createEnum_repeated_literal_names :
    ∃ e, createEnum sampleExt repeatedEnum "Kind" = some e
      ∧ e.Values.map (fun o => o.Name) = ["KindA", "KindA"]
      ∧ ¬ (e.Values.map (fun o => o.Name)).Nodup := by
  refine ⟨_, rfl, by decide, by decide⟩

/-- C7, amended: createEnum removes no duplicates; the variant names of the
declaration it returns are pairwise distinct exactly when the camel-cased texts
of the matching literals are pairwise distinct. -/
theorem createEnum_names_nodup_iff (x : Ext) (schema : Schema) (name : String)
    (e : EnumDeclaration) (h : createEnum x schema name = some e) :
    (e.Values.map (fun o => o.Name)).Nodup
      ↔ ((schema.Enum.filterMap (literalText x (schema.TypeIs "string"))).map x.ToCamel).Nodup := by
  obtain ⟨h1, h2, h3, h4⟩ := createEnum_values x schema name
  by_cases hs : schema.TypeIs "string" = true
  · obtain ⟨e1, he1, _, _, hv⟩ := h1 hs
    rw [he1] at h
    injection h with h
    subst h
    rw [hv, map_name_stringVariant, nodup_map_append_left, hs]
  · have hsf : schema.TypeIs "string" = false := by simpa using hs
    rw [hsf]
    by_cases hi : schema.TypeIs "integer" = true
    · by_cases hf : schema.Format = "int64"
      · obtain ⟨e1, he1, _, _, hv⟩ := h2 hi hf
        rw [he1] at h
        injection h with h
        subst h
        rw [hv, map_name_numberVariant, nodup_map_append_left]
      · obtain ⟨e1, he1, _, _, hv⟩ := h3 hi hf
        rw [he1] at h
        injection h with h
        subst h
        rw [hv, map_name_numberVariant, nodup_map_append_left]
    · by_cases hn : schema.TypeIs "number" = true
      · obtain ⟨e1, he1, _, _, hv⟩ := h4 hn
        rw [he1] at h
        injection h with h
        subst h
        rw [hv, map_name_numberVariant, nodup_map_append_left]
      · simp [createEnum, hs, hi, hn] at h

/-- C7, amended, at a concrete schema with distinct literals. -/
theorem createEnum_names_nodup_iff_witness :
    ∃ e, createEnum sampleExt colorsEnum "Colors" = some e
      ∧ (e.Values.map (fun o => o.Name)).Nodup := by
  refine ⟨_, rfl, ?_⟩
  exact (createEnum_names_nodup_iff sampleExt colorsEnum "Colors" _ rfl).2 (by decide)

/-! ## Path templates (pathBuilder) -/

/-- What the claim writes for one segment: `%v` when the segment contains a
placeholder, the segment itself otherwise. -/
def segmentText (part : List Char) : String :=
  match findPathParam part with
  | none => ⟨part⟩
  | some _ => "%v"

/-- The argument the claim lists for one segment: the lower-camel-cased name of
its placeholder. -/
def segmentArg (x : Ext) (part : List Char) : Option String :=
  match findPathParam part with
  | none => none
  | some name => some (x.ToLowerCamel ⟨name⟩)

/-- The format string the claim describes: the segments of the path rewritten
and rejoined with `/`. -/
def pathFormat (path : String) : String :=
  "/".intercalate ((splitSlash path.data).map segmentText)

/-- The arguments the claim describes, left to right. -/
def pathArgs (x : Ext) (path : String) : List String :=
  (splitSlash path.data).filterMap (segmentArg x)

/-- The segments joined with `/`, as characters. -/
def joinSlash : List (List Char) → List Char
  | [] => []
  | [a] => a
  | a :: b :: rest => a ++ '/' :: joinSlash (b :: rest)

theorem splitSlash_ne_nil (cs : List Char) : splitSlash cs ≠ [] := by
  cases cs with
  | nil => simp [splitSlash]
  | cons c rest =>
    simp only [splitSlash]
    split
    · simp
    · split <;> simp

theorem joinSlash_splitSlash (cs : List Char) : joinSlash (splitSlash cs) = cs := by
  induction cs with
  | nil => rfl
  | cons c rest ih =>
    simp only [splitSlash]
    split
    · next hc =>
      cases hr : splitSlash rest with
      | nil => exact absurd hr (splitSlash_ne_nil rest)
      | cons seg segs =>
        rw [hr] at ih
        simp [joinSlash, ih, hc]
    · cases hr : splitSlash rest with
      | nil => exact absurd hr (splitSlash_ne_nil rest)
      | cons seg segs =>
        rw [hr] at ih
        cases segs with
        | nil => simpa [joinSlash] using ih
        | cons s2 more =>
          simp only [joinSlash] at ih ⊢
          rw [List.cons_append, ih]

theorem intercalate_go_data (acc : String) (l : List (List Char)) :
    (String.intercalate.go acc "/" (l.map String.mk)).data = joinSlash (acc.data :: l) := by
  induction l generalizing acc with
  | nil => simp [String.intercalate.go, joinSlash]
  | cons a rest ih =>
    simp only [List.map_cons, String.intercalate.go]
    rw [ih]
    cases rest with
    | nil => simp [joinSlash, String.data_append]
    | cons b more => simp [joinSlash, String.data_append]

theorem intercalate_mk_data (l : List (List Char)) :
    ("/".intercalate (l.map String.mk)).data = joinSlash l := by
  cases l with
  | nil => rfl
  | cons a rest =>
    simp only [List.map_cons, String.intercalate]
    exact intercalate_go_data ⟨a⟩ rest

theorem pathBuilderLoop_succ (x : Ext) (parts : List (List Char)) (i : Nat) (res : String)
    (params : List String) :
    pathBuilderLoop x parts (i + 1) res params
      = (String.intercalate.go res "/" (parts.map segmentText),
         params ++ parts.filterMap (segmentArg x)) := by
  induction parts generalizing i res params with
  | nil => simp [pathBuilderLoop, String.intercalate.go]
  | cons part rest ih =>
    simp only [pathBuilderLoop]
    cases hf : findPathParam part with
    | none =>
      simp only [ih, List.map_cons, String.intercalate.go, segmentText, segmentArg, hf,
        List.filterMap_cons]
      simp
    | some name =>
      simp only [ih, List.map_cons, String.intercalate.go, segmentText, segmentArg, hf,
        List.filterMap_cons]
      simp

theorem pathBuilderLoop_zero (x : Ext) (path : String) :
    pathBuilderLoop x (splitSlash path.data) 0 "" [] = (pathFormat path, pathArgs x path) := by
  unfold pathFormat pathArgs
  cases hs : splitSlash path.data with
  | nil => exact absurd hs (splitSlash_ne_nil _)
  | cons part rest =>
    simp only [pathBuilderLoop]
    cases hf : findPathParam part with
    | none =>
      simp only [pathBuilderLoop_succ, List.map_cons, String.intercalate, segmentText, segmentArg,
        hf, List.filterMap_cons]
      simp
    | some name =>
      simp only [pathBuilderLoop_succ, List.map_cons, String.intercalate, segmentText, segmentArg,
        hf, List.filterMap_cons]
      simp

theorem pathArgs_length (x : Ext) (path : String) :
    (pathArgs x path).length
      = ((splitSlash path.data).filter (fun part => (findPathParam part).isSome)).length := by
  unfold pathArgs
  induction splitSlash path.data with
  | nil => rfl
  | cons part rest ih =>
    cases hf : findPathParam part <;> simp [segmentArg, hf, List.filterMap_cons, ih]

theorem pathFormat_of_no_placeholder (path : String)
    (h : ∀ part ∈ splitSlash path.data, findPathParam part = none) : pathFormat path = path := by
  apply String.ext
  unfold pathFormat
  have hm : (splitSlash path.data).map segmentText = (splitSlash path.data).map String.mk := by
    apply List.map_congr_left
    intro part hp
    simp [segmentText, h part hp]
  rw [hm, intercalate_mk_data, joinSlash_splitSlash]

theorem pathArgs_of_no_placeholder (x : Ext) (path : String)
    (h : ∀ part ∈ splitSlash path.data, findPathParam part = none) : pathArgs x path = [] := by
  unfold pathArgs
  rw [List.filterMap_eq_nil_iff]
  intro part hp
  simp [segmentArg, h part hp]

/-- C4: pathBuilder splits the path on `/`, writes `%v` for each segment that
contains a `{name}` placeholder and the segment unchanged otherwise, rejoins
with `/`, and lists the lower-camel-cased placeholder names left to right, one
per rewritten segment, so there are as many arguments as `%v` markers written;
a path without placeholders gives a format string equal to the path and no
arguments; `/users/{userId}/orders/{orderId}` gives
`fmt.Sprintf("/users/%v/orders/%v", userId, orderId)`. -/
theorem pathBuilder_format_and_args (x : Ext) (path : String) :
    pathBuilder x path
        = (if (pathArgs x path).length = 0 then
             "fmt.Sprintf(" ++ x.Quote (pathFormat path) ++ ")"
           else "fmt.Sprintf(" ++ x.Quote (pathFormat path) ++ ", "
             ++ ", ".intercalate (pathArgs x path) ++ ")")
      ∧ (pathArgs x path).length
        = ((splitSlash path.data).filter (fun part => (findPathParam part).isSome)).length
      ∧ ((∀ part ∈ splitSlash path.data, findPathParam part = none) →
          pathFormat path = path ∧ pathArgs x path = []
            ∧ pathBuilder x path = "fmt.Sprintf(" ++ x.Quote path ++ ")")
      ∧ pathBuilder x "/users/{userId}/orders/{orderId}"
        = "fmt.Sprintf(" ++ x.Quote "/users/%v/orders/%v" ++ ", " ++ x.ToLowerCamel "userId"
          ++ ", " ++ x.ToLowerCamel "orderId" ++ ")" := by
  have hb : ∀ p : String, pathBuilder x p
      = (if (pathArgs x p).length = 0 then "fmt.Sprintf(" ++ x.Quote (pathFormat p) ++ ")"
         else "fmt.Sprintf(" ++ x.Quote (pathFormat p) ++ ", "
           ++ ", ".intercalate (pathArgs x p) ++ ")") := by
    intro p
    unfold pathBuilder
    rw [pathBuilderLoop_zero]
  refine ⟨hb path, pathArgs_length x path, ?_, ?_⟩
  · intro h
    refine ⟨pathFormat_of_no_placeholder path h, pathArgs_of_no_placeholder x path h, ?_⟩
    rw [hb, pathArgs_of_no_placeholder x path h, pathFormat_of_no_placeholder path h]
    rfl
  · rw [hb]
    have h1 : pathArgs x "/users/{userId}/orders/{orderId}"
        = [x.ToLowerCamel "userId", x.ToLowerCamel "orderId"] := by
      simp [pathArgs, splitSlash, segmentArg, findPathParam, matchPathParamHere, isWordChar]
    have h2 : pathFormat "/users/{userId}/orders/{orderId}" = "/users/%v/orders/%v" := by
      decide
    rw [h1, h2]
    simp [String.intercalate, String.intercalate.go, String.append_assoc]

/-- C4 at a concrete path, with `%q` as plain quoting and names unchanged by the
camel-casing. -/
theorem pathBuilder_format_and_args_witness :
    pathBuilder sampleExt "/users/{userId}/orders/{orderId}"
        = "fmt.Sprintf(\"/users/%v/orders/%v\", userId, orderId)"
      ∧ pathBuilder sampleExt "/users" = "fmt.Sprintf(\"/users\")" := by
  refine ⟨?_, ?_⟩
  · rw [(pathBuilder_format_and_args sampleExt "/users/{userId}/orders/{orderId}").2.2.2]
    decide
  · rw [((pathBuilder_format_and_args sampleExt "/users").2.2.1 (by decide)).2.2]
    decide

/-! ## Fields (createFields) and allOf (createAllOf) -/

/-- The keys of a map. -/
def keysOf {α : Type} (m : List (String × α)) : List String := m.map Prod.fst

/-- The field `f` is the one createFields builds for the property `k` of the map
`props`: its type is what genSchema returns for the property schema under the
name `name + ToCamel(k)`. -/
def FieldOf (x : Ext) (name : String) (required : List String)
    (props : List (String × SchemaRef)) (k : String) (f : StructField) : Prop :=
  ∃ sch ty more, props.lookup k = some sch
    ∧ genSchema x sch (name ++ x.ToCamel k) = .ok (ty, more)
    ∧ f = propertyField x k sch ty required

theorem FieldOf.name_eq {x : Ext} {name : String} {required : List String}
    {props : List (String × SchemaRef)} {k : String} {f : StructField}
    (h : FieldOf x name required props k f) : f.Name = k := by
  obtain ⟨sch, ty, more, _, _, hf⟩ := h
  rw [hf]
  rfl

theorem createFieldsLoop_ok (x : Ext) (props : List (String × SchemaRef)) (name : String)
    (required : List String) (keys : List String) :
    ∀ (fields : List StructField) (types : List Writable) (fs : List StructField)
      (ts : List Writable),
      createFieldsLoop x props name required keys fields types = .ok (fs, ts) →
      ∃ newF, fs = fields ++ newF ∧ List.Forall₂ (FieldOf x name required props) keys newF := by
  induction keys with
  | nil =>
    intro fields types fs ts h
    unfold createFieldsLoop at h
    simp only [createFieldsLoopWith] at h
    injection h with h
    injection h with h1 h2
    exact ⟨[], by simp [h1], List.Forall₂.nil⟩
  | cons k rest ih =>
    intro fields types fs ts h
    unfold createFieldsLoop at h
    simp only [createFieldsLoopWith] at h
    split at h
    · exact absurd h (by simp)
    · next sch hl =>
      split at h
      · exact absurd h (by simp)
      · next ty more hg =>
        obtain ⟨newF, hfs, hall⟩ := ih _ _ _ _ h
        refine ⟨propertyField x k sch ty required :: newF, by simp [hfs], ?_⟩
        exact List.Forall₂.cons ⟨sch, ty, more, hl, hg, rfl⟩ hall

theorem createFields_ok (x : Ext) (props : List (String × SchemaRef)) (name : String)
    (required : List String) (fs : List StructField) (ts : List Writable)
    (h : createFields x props name required = .ok (fs, ts)) :
    List.Forall₂ (FieldOf x name required props) (sortedKeys props) fs := by
  unfold createFields createFieldsWith at h
  obtain ⟨newF, hfs, hall⟩ := createFieldsLoop_ok x props name required _ _ _ _ _ h
  simpa [hfs] using hall

theorem forall₂_fieldOf_names {x : Ext} {name : String} {required : List String}
    {props : List (String × SchemaRef)} {keys : List String} {fs : List StructField}
    (h : List.Forall₂ (FieldOf x name required props) keys fs) :
    fs.map (fun f => f.Name) = keys := by
  induction h with
  | nil => rfl
  | cons hkf _ ih => simp [hkf.name_eq, ih]

theorem forall₂_fieldOf_mem {x : Ext} {name : String} {required : List String}
    {props : List (String × SchemaRef)} {keys : List String} {fs : List StructField}
    (h : List.Forall₂ (FieldOf x name required props) keys fs) :
    ∀ f ∈ fs, FieldOf x name required props f.Name f := by
  induction h with
  | nil => intro f hf; simp at hf
  | cons hkf _ ih =>
    intro f hf
    rcases List.mem_cons.mp hf with h1 | h1
    · subst h1
      rw [hkf.name_eq]
      exact hkf
    · exact ih f h1

theorem sortedKeys_perm {α : Type} (m : List (String × α)) : (sortedKeys m).Perm (keysOf m) :=
  List.perm_insertionSort _ _

theorem lookup_mem_keysOf {α : Type} (m : List (String × α)) (k : String) (v : α)
    (h : m.lookup k = some v) : k ∈ keysOf m := by
  induction m with
  | nil => simp at h
  | cons kv rest ih =>
    obtain ⟨k2, s2⟩ := kv
    simp only [List.lookup] at h
    split at h
    · next heq =>
      have : k = k2 := by simpa using heq
      simp [keysOf, this]
    · have := ih h
      simp only [keysOf, List.map_cons, List.mem_cons] at this ⊢
      exact Or.inr this

theorem lookup_deleteKeys (seen : List String) (m : List (String × SchemaRef)) (k : String)
    (sch : SchemaRef) (h : (deleteKeys seen m).lookup k = some sch) : m.lookup k = some sch := by
  induction m with
  | nil => simp [deleteKeys] at h
  | cons kv rest ih =>
    obtain ⟨k1, s1⟩ := kv
    unfold deleteKeys at h ih
    by_cases hk : (!(seen.contains k1)) = true
    · rw [List.filter_cons_of_pos (by simpa using hk)] at h
      simp only [List.lookup] at h ⊢
      split at h
      · next heq => simp [heq, h]
      · next heq => simp [heq, ih h]
    · rw [List.filter_cons_of_neg (by simpa using hk)] at h
      have hmem := lookup_mem_keysOf _ k sch h
      have hk1 : k ≠ k1 := by
        intro heq
        subst heq
        simp only [keysOf, List.mem_map, List.mem_filter] at hmem
        obtain ⟨⟨k3, s3⟩, ⟨_, hp⟩, h3⟩ := hmem
        simp only at h3
        subst h3
        exact hk hp
      simp only [List.lookup]
      have : (k == k1) = false := by simpa using hk1
      rw [this]
      exact ih h

theorem keysOf_deleteKeys (seen : List String) (m : List (String × SchemaRef)) (k : String) :
    k ∈ keysOf (deleteKeys seen m) ↔ k ∈ keysOf m ∧ k ∉ seen := by
  simp only [keysOf, deleteKeys, List.mem_map, List.mem_filter]
  constructor
  · rintro ⟨⟨k1, s1⟩, ⟨hm, hp⟩, rfl⟩
    exact ⟨⟨(k1, s1), hm, rfl⟩, by simpa using hp⟩
  · rintro ⟨⟨⟨k1, s1⟩, hm, rfl⟩, hn⟩
    exact ⟨(k1, s1), ⟨hm, by simpa using hn⟩, rfl⟩

theorem keysOf_deleteKeys_nodup (seen : List String) (m : List (String × SchemaRef))
    (h : (keysOf m).Nodup) : (keysOf (deleteKeys seen m)).Nodup := by
  unfold keysOf deleteKeys
  exact List.Nodup.sublist (List.Sublist.map _ (List.filter_sublist _)) h

theorem uniqueLoop_of_nodup (l : List StructField) :
    ∀ (seen : List String) (out : List StructField),
      (l.map (fun f => f.Name)).Nodup → (∀ f ∈ l, f.Name ∉ seen) →
      uniqueLoop l seen out = out ++ l := by
  induction l with
  | nil => intro seen out _ _; simp [uniqueLoop]
  | cons ele rest ih =>
    intro seen out hnd hdis
    have hnot : seen.contains ele.Name = false := by
      simpa using hdis ele (List.mem_cons_self _ _)
    simp only [uniqueLoop, hnot]
    simp only [List.map_cons, List.nodup_cons] at hnd
    rw [if_neg (by simp), ih _ _ hnd.2]
    · simp
    · intro f hf
      simp only [List.mem_append, List.mem_singleton, not_or]
      refine ⟨hdis f (List.mem_cons_of_mem _ hf), ?_⟩
      intro heq
      exact hnd.1 (heq ▸ List.mem_map_of_mem (fun f => f.Name) hf)

theorem uniqueFields_of_nodup (l : List StructField) (h : (l.map (fun f => f.Name)).Nodup) :
    uniqueFields l = l := by
  unfold uniqueFields
  rw [uniqueLoop_of_nodup l [] [] h (by simp)]
  simp

/-- The invariant of the loop of createAllOf after the branches `done`: every
collected field is the one its first declaring branch gives, the field names
are pairwise distinct, and the names seen are the property names of `done`. -/
structure AllOfInv (x : Ext) (name : String) (done : List SchemaRef) (st : AllOfState) :
    Prop where
  first : ∀ f ∈ st.fields, ∃ pre s post, done = pre ++ s :: post
    ∧ (∀ t ∈ pre, f.Name ∉ keysOf t.Value.Properties)
    ∧ FieldOf x name s.Value.Required s.Value.Properties f.Name f
  nodup : (st.fields.map (fun f => f.Name)).Nodup
  seen_iff : ∀ k, k ∈ st.seen ↔ ∃ t ∈ done, k ∈ keysOf t.Value.Properties
  names_iff : ∀ k, k ∈ st.fields.map (fun f => f.Name) ↔ k ∈ st.seen

theorem allOfInv_step (x : Ext) (name : String) (done : List SchemaRef) (st : AllOfState)
    (s : SchemaRef) (objectFields : List StructField) (additionalTypes : List Writable)
    (hs : (keysOf s.Value.Properties).Nodup) (inv : AllOfInv x name done st)
    (hc : createFields x (deleteKeys st.seen s.Value.Properties) name s.Value.Required
      = .ok (objectFields, additionalTypes)) :
    AllOfInv x name (done ++ [s])
      { types := st.types ++ additionalTypes
        fields := st.fields ++ objectFields
        seen := st.seen ++ (deleteKeys st.seen s.Value.Properties).map Prod.fst
        left := st.left ++ [deleteKeys st.seen s.Value.Properties] } := by
  have hF := createFields_ok x _ name _ _ _ hc
  have hnames := forall₂_fieldOf_names hF
  have hperm := sortedKeys_perm (deleteKeys st.seen s.Value.Properties)
  have hmemNew : ∀ k, k ∈ objectFields.map (fun f => f.Name)
      ↔ k ∈ keysOf s.Value.Properties ∧ k ∉ st.seen := by
    intro k
    rw [hnames, hperm.mem_iff, keysOf_deleteKeys]
  refine ⟨?_, ?_, ?_, ?_⟩
  · intro f hf
    rcases List.mem_append.mp hf with h1 | h1
    · obtain ⟨pre, t, post, hd, hpre, hfo⟩ := inv.first f h1
      exact ⟨pre, t, post ++ [s], by simp [hd], hpre, hfo⟩
    · obtain ⟨sch, ty, more, hl, hg, hfe⟩ := forall₂_fieldOf_mem hF f h1
      have hin := (hmemNew f.Name).mp (List.mem_map_of_mem (fun f => f.Name) h1)
      refine ⟨done, s, [], rfl, ?_, ⟨sch, ty, more, lookup_deleteKeys _ _ _ _ hl, hg, hfe⟩⟩
      intro t ht hk
      exact hin.2 ((inv.seen_iff f.Name).mpr ⟨t, ht, hk⟩)
  · show ((st.fields ++ objectFields).map (fun f => f.Name)).Nodup
    rw [List.map_append, List.nodup_append]
    refine ⟨inv.nodup, ?_, ?_⟩
    · rw [hnames]
      exact hperm.nodup_iff.mpr (keysOf_deleteKeys_nodup _ _ hs)
    · intro k hk1 hk2
      exact ((hmemNew k).mp hk2).2 ((inv.names_iff k).mp hk1)
  · intro k
    show k ∈ st.seen ++ keysOf (deleteKeys st.seen s.Value.Properties) ↔ _
    rw [List.mem_append, keysOf_deleteKeys, inv.seen_iff]
    constructor
    · rintro (⟨t, ht, hk⟩ | ⟨hk, _⟩)
      · exact ⟨t, List.mem_append_left _ ht, hk⟩
      · exact ⟨s, by simp, hk⟩
    · rintro ⟨t, ht, hk⟩
      rcases List.mem_append.mp ht with h1 | h1
      · exact Or.inl ⟨t, h1, hk⟩
      · have hts : t = s := by simpa using h1
        subst hts
        by_cases hseen : ∃ u ∈ done, k ∈ keysOf u.Value.Properties
        · exact Or.inl hseen
        · exact Or.inr ⟨hk, hseen⟩
  · intro k
    show k ∈ (st.fields ++ objectFields).map (fun f => f.Name)
      ↔ k ∈ st.seen ++ keysOf (deleteKeys st.seen s.Value.Properties)
    rw [List.map_append, List.mem_append, List.mem_append, hmemNew, keysOf_deleteKeys,
      inv.names_iff]

theorem createAllOfLoop_inv (x : Ext) (name : String) (rest : List SchemaRef) :
    ∀ (done : List SchemaRef) (st st1 : AllOfState),
      (∀ s ∈ rest, (keysOf s.Value.Properties).Nodup) → AllOfInv x name done st →
      createAllOfLoop x rest name st = .ok st1 → AllOfInv x name (done ++ rest) st1 := by
  induction rest with
  | nil =>
    intro done st st1 _ inv h
    unfold createAllOfLoop at h
    simp only [createAllOfLoopWith] at h
    injection h with h
    subst h
    simpa using inv
  | cons s rest ih =>
    intro done st st1 hnd inv h
    unfold createAllOfLoop at h
    simp only [createAllOfLoopWith] at h
    split at h
    · exact absurd h (by simp)
    · next objectFields additionalTypes hc =>
      have hstep := allOfInv_step x name done st s objectFields additionalTypes
        (hnd s (List.mem_cons_self _ _)) inv hc
      have := ih (done ++ [s]) _ st1 (fun t ht => hnd t (List.mem_cons_of_mem _ ht)) hstep h
      simpa using this

/-- C2: for an allOf schema whose branch property maps have distinct keys,
the declaration createAllOf returns is a struct in which each property name
occurring in any branch appears as exactly one field (the field names are
pairwise distinct and are exactly the property names of the branches), and each
field takes its type and its optional flag from the first branch, in list
order, that declares its name: the type is what genSchema gives for that
branch's property schema, the flag says that the name is not in that branch's
required list. -/
theorem createAllOf_first_occurrence (x : Ext) (schema : Schema) (name : String)
    (branches : List SchemaRef) (decl : TypeDeclaration) (types : List Writable)
    (hb : schema.AllOf = some branches)
    (hnd : ∀ s ∈ branches, (keysOf s.Value.Properties).Nodup)
    (h : createAllOf x schema name = .ok (decl, types)) :
    decl.Typ = "struct" ∧ decl.Name = name
      ∧ (decl.Fields.map (fun f => f.Name)).Nodup
      ∧ (∀ k, k ∈ decl.Fields.map (fun f => f.Name)
          ↔ ∃ s ∈ branches, k ∈ keysOf s.Value.Properties)
      ∧ (∀ f ∈ decl.Fields, ∃ pre s post sch ty more, branches = pre ++ s :: post
          ∧ (∀ t ∈ pre, f.Name ∉ keysOf t.Value.Properties)
          ∧ s.Value.Properties.lookup f.Name = some sch
          ∧ genSchema x sch (name ++ x.ToCamel f.Name) = .ok (ty, more)
          ∧ f.Typ = ty
          ∧ f.Optional = !(s.Value.Required.contains f.Name)) := by
  unfold createAllOf createAllOfWith at h
  rw [hb] at h
  simp only [Option.getD] at h
  · split at h
    · exact absurd h (by simp)
    · next st hloop =>
      have inv0 : AllOfInv x name [] { types := [], fields := [], seen := [], left := [] } :=
        ⟨by simp, by simp, by simp, by simp⟩
      have inv := createAllOfLoop_inv x name _ [] _ st hnd inv0 hloop
      rw [List.nil_append] at inv
      injection h with h
      injection h with hdecl _
      subst hdecl
      have hu := uniqueFields_of_nodup _ inv.nodup
      refine ⟨rfl, rfl, ?_, ?_, ?_⟩
      · simp only [hu]
        exact inv.nodup
      · intro k
        simp only [hu]
        rw [inv.names_iff, inv.seen_iff]
      · intro f hf
        simp only [hu] at hf
        obtain ⟨pre, s, post, hd, hpre, sch, ty, more, hl, hg, hfe⟩ := inv.first f hf
        refine ⟨pre, s, post, sch, ty, more, hd, hpre, hl, hg, ?_, ?_⟩
        · rw [hfe]; rfl
        · rw [hfe]; rfl

/-- Two allOf branches that both declare `id`: first as a required string, then
as an integer. -/
def petBranches : List SchemaRef :=
  [ SchemaRef.mk "" (Schema.mk (some ["object"]) "" "" [] none
      [("name", stringRef), ("id", stringRef)] ["id"] none none none none none),
    SchemaRef.mk "" (Schema.mk (some ["object"]) "" "" [] none
      [("id", SchemaRef.mk "" (plainSchema "integer")),
       ("age", SchemaRef.mk "" (plainSchema "integer"))] [] none none none none none) ]

/-- The allOf schema over `petBranches`. -/
def petAllOf : Schema :=
  Schema.mk none "" "" [] none [] [] none none none none (some petBranches)

/-- C2 at a concrete allOf: `id` is declared by both branches and appears once,
as the required string of the first branch. -/
theorem createAllOf_first_occurrence_witness :
    ∃ decl types, createAllOf sampleExt petAllOf "Pet" = .ok (decl, types)
      ∧ decl.Fields.map (fun f => (f.Name, f.Typ, f.Optional))
        = [("id", "string", false), ("name", "string", true), ("age", "int", true)]
      ∧ (decl.Fields.map (fun f => f.Name)).Nodup := by
  have hv : (createAllOf sampleExt petAllOf "Pet").toOption.map
      (fun r => r.1.Fields.map (fun f => (f.Name, f.Typ, f.Optional)))
      = some [("id", "string", false), ("name", "string", true), ("age", "int", true)] := by
    decide
  cases hres : createAllOf sampleExt petAllOf "Pet" with
  | error e => rw [hres] at hv; exact absurd hv (by simp [Except.toOption])
  | ok r =>
    obtain ⟨decl, types⟩ := r
    rw [hres] at hv
    refine ⟨decl, types, rfl, by simpa [Except.toOption] using hv, ?_⟩
    exact (createAllOf_first_occurrence sampleExt petAllOf "Pet" petBranches decl types rfl
      (by decide) hres).2.2.1

/-! ## Path parameters (buildPathParams, operationToMethod, pathToMethods) -/

/-- The names of the resolved path-located parameters, in declared order. -/
def declaredPathNames (params : List ParameterRef) : List String :=
  params.filterMap (fun p =>
    match p.Value with
    | none => none
    | some v => if v.In ≠ "path" then none else some v.Name)

theorem buildPathParamsLoop_names (x : Ext) (params : List ParameterRef) :
    ∀ (acc r : List Parameter), buildPathParamsLoop x params acc = .ok r →
      r.map (fun q => q.Name) = acc.map (fun q => q.Name) ++ declaredPathNames params := by
  induction params with
  | nil =>
    intro acc r h
    simp only [buildPathParamsLoop] at h
    injection h with h
    simp [h, declaredPathNames]
  | cons p rest ih =>
    intro acc r h
    simp only [buildPathParamsLoop] at h
    cases hv : p.Value with
    | none =>
      rw [hv] at h
      simp only at h
      rw [ih _ _ h]
      simp [declaredPathNames, List.filterMap_cons, hv]
    | some v =>
      rw [hv] at h
      simp only at h
      by_cases hin : v.In ≠ "path"
      · rw [if_pos hin] at h
        rw [ih _ _ h]
        simp [declaredPathNames, List.filterMap_cons, hv, hin]
      · rw [if_neg hin] at h
        split at h
        · exact absurd h (by simp)
        · split at h
          · exact absurd h (by simp)
          · rw [ih _ _ h]
            have hin2 : v.In = "path" := by simpa using hin
            simp [declaredPathNames, List.filterMap_cons, hv, hin2]

theorem buildPathParams_names (x : Ext) (params : List ParameterRef) (r : List Parameter)
    (h : buildPathParams x "path" params = .ok r) :
    r.map (fun q => q.Name) = declaredPathNames params := by
  unfold buildPathParams at h
  split at h
  · next hlen =>
    injection h with h
    have : params = [] := List.length_eq_zero.mp hlen
    simp [← h, this, declaredPathNames]
  · rw [if_neg (by decide)] at h
    simpa using buildPathParamsLoop_names x params [] r h

theorem operationToMethod_pathParams (x : Ext) (b : BuilderSpec) (method path : String)
    (o : Operation) (succOrder respOrder : List (String × ResponseRef)) (m : Method)
    (h : operationToMethod x b method path o succOrder respOrder = .ok m) :
    ∃ params, buildPathParams x "path" o.Parameters = .ok params
      ∧ m.PathParams = params ++ bodyParams x o := by
  unfold operationToMethod at h
  split at h
  · exact absurd h (by simp)
  · split at h
    · exact absurd h (by simp)
    · split at h
      · exact absurd h (by simp)
      · next params hp =>
        split at h
        · exact absurd h (by simp)
        · split at h
          · exact absurd h (by simp)
          · injection h with h
            exact ⟨params, hp, by rw [← h]⟩

/-- What the amended claim says of the method built for one verb of a path
item: its path parameters are named as the declared path-located parameters,
the operation's own first and the path item's after them, then the body. -/
def DeclaredOrder (x : Ext) (p : PathItem) (verb : String) (m : Method) : Prop :=
  ∃ op, p.Operations.lookup verb = some op
    ∧ m.PathParams.map (fun q => q.Name)
      = declaredPathNames op.Parameters ++ declaredPathNames p.Parameters
        ++ (bodyParams x op).map (fun q => q.Name)

theorem pathToMethodsLoop_declared (x : Ext) (b : BuilderSpec) (path : String) (p : PathItem)
    (range : String → RangeOrder) (verbs : List String) :
    ∀ (acc methods : List Method),
      pathToMethodsLoop x b path p range verbs acc = .ok methods →
      ∃ new, methods = acc ++ new ∧ List.Forall₂ (DeclaredOrder x p) verbs new := by
  induction verbs with
  | nil =>
    intro acc methods h
    simp only [pathToMethodsLoop] at h
    injection h with h
    exact ⟨[], by simp [h], List.Forall₂.nil⟩
  | cons verb rest ih =>
    intro acc methods h
    simp only [pathToMethodsLoop] at h
    split at h
    · exact absurd h (by simp)
    · next op hop =>
      split at h
      · exact absurd h (by simp)
      · next m hm =>
        obtain ⟨new, hnew, hall⟩ := ih _ _ h
        obtain ⟨params, hp, hpp⟩ := operationToMethod_pathParams _ _ _ _ _ _ _ _ hm
        refine ⟨m :: new, by simp [hnew], List.Forall₂.cons ⟨op, hop, ?_⟩ hall⟩
        have hn := buildPathParams_names x _ params hp
        rw [hpp, List.map_append, hn]
        simp [declaredPathNames, bodyParams]

/-- A path item whose GET operation declares `orderId` before `userId`. -/
def ordersItem : PathItem :=
  { Ref := ""
    Parameters := []
    Operations := [("GET",
      { OperationID := "getOrder"
        Extensions := []
        Parameters :=
          [ { Ref := "", Value := some { Name := "orderId", In := "path", Required := true,
                                         Schema := some stringRef } },
            { Ref := "", Value := some { Name := "userId", In := "path", Required := true,
                                         Schema := some stringRef } } ]
        RequestBody := none
        Responses := [] })] }

/-- C3, as stated, fails: for `/users/{userId}/orders/{orderId}` with the
parameters declared as orderId, userId, the path parameters are orderId, userId,
while the placeholders read userId, orderId. -/
theorem pathParams_not_in_placeholder_order :
    (pathToMethods sampleExt ⟨[]⟩ "/users/{userId}/orders/{orderId}" ordersItem
        (fun _ => ⟨[], []⟩)).toOption.map
        (fun ms => ms.map (fun m => m.PathParams.map (fun q => q.Name)))
      = some [["orderId", "userId"]]
    ∧ pathArgs sampleExt "/users/{userId}/orders/{orderId}" = ["userId", "orderId"] := by
  decide

/-- C3, amended: for every path item and every verb, the names in
Method.PathParams are the names of the resolved path-located parameters in the
order in which they are declared, the operation's own parameters first and the
path item's after them, followed by `body` when a JSON request body with a
schema is declared; the placeholders of the path string play no part. -/
theorem pathToMethods_pathParams_declared_order (x : Ext) (b : BuilderSpec) (path : String)
    (p : PathItem) (range : String → RangeOrder) (methods : List Method)
    (h : pathToMethods x b path p range = .ok methods) :
    List.Forall₂ (DeclaredOrder x p) (sortedKeys p.Operations) methods := by
  unfold pathToMethods at h
  obtain ⟨new, hnew, hall⟩ := pathToMethodsLoop_declared x b path p range _ _ _ h
  simpa [hnew] using hall

/-- C3, amended, at the path item `ordersItem`. -/
theorem pathToMethods_pathParams_declared_order_witness :
    ∃ methods, pathToMethods sampleExt ⟨[]⟩ "/users/{userId}/orders/{orderId}" ordersItem
        (fun _ => ⟨[], []⟩) = .ok methods
      ∧ List.Forall₂ (DeclaredOrder sampleExt ordersItem) (sortedKeys ordersItem.Operations)
          methods := by
  cases hres : pathToMethods sampleExt ⟨[]⟩ "/users/{userId}/orders/{orderId}" ordersItem
      (fun _ => ⟨[], []⟩) with
  | error e =>
    have hv : (pathToMethods sampleExt ⟨[]⟩ "/users/{userId}/orders/{orderId}" ordersItem
        (fun _ => ⟨[], []⟩)).toOption.isSome = true := by decide
    rw [hres] at hv
    exact absurd hv (by simp [Except.toOption])
  | ok methods =>
    exact ⟨methods, rfl, pathToMethods_pathParams_declared_order _ _ _ _ _ _ hres⟩

/-! ## Responses (operationToMethod) -/

/-- The call ended with a returned Go error. -/
def endsWithError {α : Type} : Except Fault α → Bool
  | .error (Fault.error _) => true
  | _ => false

/-- The call ended with a panic. -/
def endsWithPanic {α : Type} : Except Fault α → Bool
  | .error Fault.panic => true
  | _ => false

theorem insertLeft_perm {α : Type} (cmp : α → α → Int) (a : α) (l : List α) :
    (insertLeft cmp a l).Perm (a :: l) := by
  induction l with
  | nil => exact List.Perm.refl _
  | cons p ps ih =>
    simp only [insertLeft]
    split
    · exact (List.Perm.cons p ih).trans (List.Perm.swap a p ps)
    · exact List.Perm.refl _

theorem foldl_insertLeft_perm {α : Type} (cmp : α → α → Int) (data : List α) :
    ∀ acc : List α,
      (data.foldl (fun sorted a => insertLeft cmp a sorted) acc).Perm (data.reverse ++ acc) := by
  induction data with
  | nil => intro acc; exact List.Perm.refl _
  | cons a rest ih =>
    intro acc
    simp only [List.foldl_cons, List.reverse_cons, List.append_assoc, List.singleton_append]
    exact (ih _).trans (List.Perm.append_left _ (insertLeft_perm cmp a acc))

theorem SortFunc_perm {α : Type} (cmp : α → α → Int) (data : List α) :
    (SortFunc cmp data).Perm data := by
  unfold SortFunc insertionSortCmpFunc
  have h := foldl_insertLeft_perm cmp data []
  rw [List.append_nil] at h
  exact (List.reverse_perm _).trans (h.trans (List.reverse_perm _))

/-- The synthesized fallback entry (methods.go 198-204). -/
def synthesizedDefault : Response :=
  { IsErr := false, IsDefault := true, IsUnexpected := true, Typ := "", Code := 0,
    ErrDescription := "" }

theorem mem_finishResponses (responses : List Response) (r : Response) :
    r ∈ finishResponses responses ↔ r ∈ responses
      ∨ (r = synthesizedDefault ∧ ∀ q ∈ responses, q.IsDefault = false) := by
  have hp := SortFunc_perm responseCmp responses
  have hany : (SortFunc responseCmp responses).any (fun q => q.IsDefault) = true
      ↔ ∃ q ∈ responses, q.IsDefault = true := by
    rw [List.any_eq_true]
    constructor
    · rintro ⟨q, hq, hd⟩
      exact ⟨q, hp.mem_iff.mp hq, hd⟩
    · rintro ⟨q, hq, hd⟩
      exact ⟨q, hp.mem_iff.mpr hq, hd⟩
  unfold finishResponses
  by_cases hex : ∃ q ∈ responses, q.IsDefault = true
  · have h1 : (SortFunc responseCmp responses).any (fun q => q.IsDefault) = true := hany.mpr hex
    simp only [h1, Bool.not_true, Bool.false_eq_true, if_false]
    rw [hp.mem_iff]
    constructor
    · exact Or.inl
    · rintro (h | ⟨_, hall⟩)
      · exact h
      · obtain ⟨q, hq, hd⟩ := hex
        rw [hall q hq] at hd
        exact absurd hd (by simp)
  · have h1 : (SortFunc responseCmp responses).any (fun q => q.IsDefault) = false := by
      cases hb : (SortFunc responseCmp responses).any (fun q => q.IsDefault) with
      | false => rfl
      | true => exact absurd (hany.mp hb) hex
    simp only [h1, Bool.not_false, if_true]
    rw [List.mem_append, hp.mem_iff, List.mem_singleton]
    constructor
    · rintro (h | h)
      · exact Or.inl h
      · refine Or.inr ⟨h, fun q hq => ?_⟩
        cases hd : q.IsDefault with
        | false => rfl
        | true => exact absurd ⟨q, hq, hd⟩ hex
    · rintro (h | ⟨h, _⟩)
      · exact Or.inl h
      · exact Or.inr h

/-- The response `r` is the one the loop of operationToMethod builds for the
entry `code` of the responses map. -/
def ResponseOf (x : Ext) (o : Operation) (entry : String × ResponseRef) (r : Response) : Prop :=
  r.IsErr = !(HasPrefixOf entry.1 "2")
    ∧ r.IsDefault = (entry.1 == "default")
    ∧ r.Code = (statusAtoi entry.1).1
    ∧ r.IsUnexpected = false
    ∧ responseToType x (x.ToCamel o.OperationID) entry.2 entry.1 = .ok r.Typ

theorem responsesLoop_ok (x : Ext) (o : Operation) (entries : List (String × ResponseRef)) :
    ∀ (acc rs : List Response), responsesLoop x o entries acc = .ok rs →
      ∃ new, rs = acc ++ new ∧ List.Forall₂ (ResponseOf x o) entries new := by
  induction entries with
  | nil =>
    intro acc rs h
    simp only [responsesLoop] at h
    injection h with h
    exact ⟨[], by simp [h], List.Forall₂.nil⟩
  | cons e rest ih =>
    intro acc rs h
    obtain ⟨code, resp⟩ := e
    simp only [responsesLoop] at h
    split at h
    · exact absurd h (by simp)
    · next typ ht =>
      obtain ⟨new, hnew, hall⟩ := ih _ _ h
      refine ⟨({ IsErr := !(HasPrefixOf code "2"), IsDefault := code == "default",
                 IsUnexpected := false, Typ := typ, Code := (statusAtoi code).1,
                 ErrDescription := TrimSpace (match resp.Value.Description with
                   | some d => d
                   | none => code) } : Response) :: new, by simp [hnew], ?_⟩
      exact List.Forall₂.cons ⟨rfl, rfl, rfl, rfl, ht⟩ hall

theorem forall₂_exists_right {α β : Type} {R : α → β → Prop} {l1 : List α} {l2 : List β}
    (h : List.Forall₂ R l1 l2) : ∀ a ∈ l1, ∃ c ∈ l2, R a c := by
  induction h with
  | nil => intro a ha; simp at ha
  | cons hab _ ih =>
    intro a ha
    rcases List.mem_cons.mp ha with h1 | h1
    · subst h1
      exact ⟨_, List.mem_cons_self _ _, hab⟩
    · obtain ⟨c, hc, hr⟩ := ih a h1
      exact ⟨c, List.mem_cons_of_mem _ hc, hr⟩

theorem forall₂_exists_left {α β : Type} {R : α → β → Prop} {l1 : List α} {l2 : List β}
    (h : List.Forall₂ R l1 l2) : ∀ c ∈ l2, ∃ a ∈ l1, R a c := by
  induction h with
  | nil => intro c hc; simp at hc
  | cons hab _ ih =>
    intro c hc
    rcases List.mem_cons.mp hc with h1 | h1
    · subst h1
      exact ⟨_, List.mem_cons_self _ _, hab⟩
    · obtain ⟨a, ha, hr⟩ := ih c h1
      exact ⟨a, List.mem_cons_of_mem _ ha, hr⟩

theorem operationToMethod_responses (x : Ext) (b : BuilderSpec) (method path : String)
    (o : Operation) (succOrder respOrder : List (String × ResponseRef)) (m : Method)
    (h : operationToMethod x b method path o succOrder respOrder = .ok m) :
    ∃ rs, responsesLoop x o respOrder [] = .ok rs ∧ m.Responses = finishResponses rs := by
  unfold operationToMethod at h
  split at h
  · exact absurd h (by simp)
  · split at h
    · exact absurd h (by simp)
    · split at h
      · exact absurd h (by simp)
      · split at h
        · exact absurd h (by simp)
        · split at h
          · exact absurd h (by simp)
          · next rs hrs =>
            injection h with h
            exact ⟨rs, hrs, by rw [← h]⟩

/-- C14: for every entry `code` of the responses map of an operation, the
response list of the Method holds the response built for it, with IsErr true
exactly when `code` does not start with `2`, IsDefault true exactly when `code`
is `default`, and Code the integer read from `code` after replacing `XX` by `00`
(400 for `4XX`, 500 for `5XX`); every other response of the list is the
synthesized fallback. The error flag is read from the text of the code alone:
`2XX` and `299` are not errors, `199` and `300` are. -/
theorem operationToMethod_response_flags (x : Ext) (b : BuilderSpec) (method path : String)
    (o : Operation) (succOrder respOrder : List (String × ResponseRef)) (m : Method)
    (h : operationToMethod x b method path o succOrder respOrder = .ok m) :
    (∀ entry ∈ respOrder, ∃ r ∈ m.Responses, ResponseOf x o entry r)
      ∧ (∀ r ∈ m.Responses, (∃ entry ∈ respOrder, ResponseOf x o entry r)
          ∨ r = synthesizedDefault)
      ∧ statusAtoi "4XX" = (400, true) ∧ statusAtoi "5XX" = (500, true)
      ∧ HasPrefixOf "2XX" "2" = true ∧ HasPrefixOf "299" "2" = true
      ∧ HasPrefixOf "199" "2" = false ∧ HasPrefixOf "300" "2" = false := by
  obtain ⟨rs, hrs, hm⟩ := operationToMethod_responses _ _ _ _ _ _ _ _ h
  obtain ⟨new, hnew, hall⟩ := responsesLoop_ok x o respOrder [] rs hrs
  rw [List.nil_append] at hnew
  subst hnew
  refine ⟨?_, ?_, by decide, by decide, by decide, by decide, by decide, by decide⟩
  · intro entry he
    obtain ⟨r, hr, hro⟩ := forall₂_exists_right hall entry he
    exact ⟨r, by rw [hm, mem_finishResponses]; exact Or.inl hr, hro⟩
  · intro r hr
    rw [hm, mem_finishResponses] at hr
    rcases hr with hr | ⟨hr, _⟩
    · exact Or.inl (forall₂_exists_left hall r hr)
    · exact Or.inr hr

/-- A response with an inline JSON string schema. -/
def jsonResponse : ResponseRef :=
  { Ref := "", Value := { Description := none,
                          Content := [("application/json", { Schema := some stringRef })] } }

/-- A response without content. -/
def emptyResponse : ResponseRef :=
  { Ref := "", Value := { Description := none, Content := [] } }

/-- The operation `getPet` with the given responses map and nothing else. -/
def getPetWith (responses : List (String × ResponseRef)) : Operation :=
  { OperationID := "getPet", Extensions := [], Parameters := [], RequestBody := none,
    Responses := responses }

/-- The method built for `getPetWith responses` when both loops visit the map in
the order `order`. -/
def getPetMethod (responses order : List (String × ResponseRef)) : Except Fault Method :=
  operationToMethod sampleExt ⟨[]⟩ "GET" "/pets" (getPetWith responses) order order

/-- C14 at the responses `404`, `200`, `5XX`: the flags and codes of the built
responses, sorted, with the synthesized fallback. -/
theorem operationToMethod_response_flags_witness :
    ∃ m, getPetMethod [("404", emptyResponse), ("200", jsonResponse), ("5XX", emptyResponse)]
        [("404", emptyResponse), ("200", jsonResponse), ("5XX", emptyResponse)] = .ok m
      ∧ m.Responses.map (fun r => (r.Code, r.IsErr, r.IsDefault))
        = [(200, false, false), (404, true, false), (500, true, false), (0, false, true)]
      ∧ ∀ entry ∈ [("404", emptyResponse), ("200", jsonResponse), ("5XX", emptyResponse)],
          ∃ r ∈ m.Responses, ResponseOf sampleExt
            (getPetWith [("404", emptyResponse), ("200", jsonResponse), ("5XX", emptyResponse)])
            entry r := by
  have hv : (getPetMethod [("404", emptyResponse), ("200", jsonResponse), ("5XX", emptyResponse)]
      [("404", emptyResponse), ("200", jsonResponse), ("5XX", emptyResponse)]).toOption.map
      (fun m => m.Responses.map (fun r => (r.Code, r.IsErr, r.IsDefault)))
      = some [(200, false, false), (404, true, false), (500, true, false), (0, false, true)] := by
    decide
  cases hres : getPetMethod
      [("404", emptyResponse), ("200", jsonResponse), ("5XX", emptyResponse)]
      [("404", emptyResponse), ("200", jsonResponse), ("5XX", emptyResponse)] with
  | error e => rw [hres] at hv; exact absurd hv (by simp [Except.toOption])
  | ok m =>
    rw [hres] at hv
    exact ⟨m, rfl, by simpa [Except.toOption] using hv,
      (operationToMethod_response_flags _ _ _ _ _ _ _ m hres).1⟩

/-- C1, the code at the failing input: with the status tokens
`5000000000000000000` and `-5000000000000000000` (both read without error)
the difference of the codes leaves the `int` range, and the response list comes
out as 5000000000000000000, -5000000000000000000, fallback, for either order of
visiting the map: the non-default entries are not in ascending order. -/
theorem responses_not_ascending_on_overflow :
    (getPetMethod [("5000000000000000000", emptyResponse), ("-5000000000000000000", emptyResponse)]
        [("5000000000000000000", emptyResponse), ("-5000000000000000000", emptyResponse)]
      ).toOption.map (fun m => m.Responses.map (fun r => (r.Code, r.IsDefault)))
      = some [(5000000000000000000, false), (-5000000000000000000, false), (0, true)]
    ∧ (getPetMethod [("5000000000000000000", emptyResponse), ("-5000000000000000000", emptyResponse)]
        [("-5000000000000000000", emptyResponse), ("5000000000000000000", emptyResponse)]
      ).toOption.map (fun m => m.Responses.map (fun r => (r.Code, r.IsDefault)))
      = some [(5000000000000000000, false), (-5000000000000000000, false), (0, true)]
    ∧ statusAtoi "5000000000000000000" = (5000000000000000000, true)
    ∧ statusAtoi "-5000000000000000000" = (-5000000000000000000, true) := by
  decide

/-- C5, the code at the failing input: an operation with the JSON responses
`200` and `201` gets the response type of whichever the map yields first, and
an operation with the responses `200` and `2XX` (both normalized to 200) gets
its response list in the order of the visit. -/
theorem operationToMethod_depends_on_map_order :
    List.Perm [("201", jsonResponse), ("200", jsonResponse)]
        [("200", jsonResponse), ("201", jsonResponse)]
    ∧ (getPetMethod [("200", jsonResponse), ("201", jsonResponse)]
        [("200", jsonResponse), ("201", jsonResponse)]).toOption.map (fun m => m.ResponseType)
      = some "GetPet200Response"
    ∧ (getPetMethod [("200", jsonResponse), ("201", jsonResponse)]
        [("201", jsonResponse), ("200", jsonResponse)]).toOption.map (fun m => m.ResponseType)
      = some "GetPet201Response"
    ∧ (getPetMethod [("200", jsonResponse), ("2XX", emptyResponse)]
        [("200", jsonResponse), ("2XX", emptyResponse)]).toOption.map
        (fun m => m.Responses.map (fun r => (r.Code, r.ErrDescription)))
      = some [(200, "200"), (200, "2XX"), (0, "")]
    ∧ (getPetMethod [("200", jsonResponse), ("2XX", emptyResponse)]
        [("2XX", emptyResponse), ("200", jsonResponse)]).toOption.map
        (fun m => m.Responses.map (fun r => (r.Code, r.ErrDescription)))
      = some [(200, "2XX"), (200, "200"), (0, "")] := by
  refine ⟨List.Perm.swap _ _ _, ?_, ?_, ?_, ?_⟩ <;> decide

/-- C16, the code at the failing input: with the responses `200` (JSON) and
`abc`, operationToMethod returns a Method, with code 0 for `abc`, when the map
yields `200` first, and an error when it yields `abc` first. -/
theorem unparsable_token_error_depends_on_order :
    (statusAtoi "abc").2 = false
    ∧ (getPetMethod [("200", jsonResponse), ("abc", emptyResponse)]
        [("200", jsonResponse), ("abc", emptyResponse)]).toOption.map
        (fun m => m.Responses.map (fun r => (r.Code, r.ErrDescription)))
      = some [(0, "abc"), (200, "200"), (0, "")]
    ∧ endsWithError (getPetMethod [("200", jsonResponse), ("abc", emptyResponse)]
        [("abc", emptyResponse), ("200", jsonResponse)]) = true := by
  decide

/-- An operation whose only parameter is an unresolved reference. -/
def unresolvedParamOperation : Operation :=
  { OperationID := "getPet", Extensions := []
    Parameters := [{ Ref := "#/components/parameters/Missing", Value := none }]
    RequestBody := none, Responses := [("200", jsonResponse)] }

/-- C17, the code at the failing input: buildPathParams skips the unresolved
parameter, but the scan for a non-path parameter dereferences its absent value,
and operationToMethod ends in a panic. -/
theorem unresolved_parameter_panics :
    buildPathParams sampleExt "path" unresolvedParamOperation.Parameters = .ok []
    ∧ endsWithPanic (containsNonPath unresolvedParamOperation.Parameters) = true
    ∧ endsWithPanic (operationToMethod sampleExt ⟨[]⟩ "GET" "/pets" unresolvedParamOperation
        [("200", jsonResponse)] [("200", jsonResponse)]) = true := by
  refine ⟨rfl, ?_, ?_⟩ <;> decide

/-! ## The order of keys -/

theorem char_eq_of_toNat_eq (a b : Char) (h : a.toNat = b.toNat) : a = b :=
  Char.ext (UInt32.toNat.inj h)

theorem charsLe_total : ∀ a b : List Char, charsLe a b = true ∨ charsLe b a = true
  | [], _ => Or.inl (by simp [charsLe])
  | _ :: _, [] => Or.inr (by simp [charsLe])
  | a :: as, b :: bs => by
    simp only [charsLe]
    by_cases h1 : a.toNat < b.toNat
    · simp [h1]
    · by_cases h2 : b.toNat < a.toNat
      · simp [h2]
      · simp only [h1, h2, if_false]
        exact charsLe_total as bs

theorem charsLe_trans : ∀ a b c : List Char,
    charsLe a b = true → charsLe b c = true → charsLe a c = true
  | [], _, _, _, _ => by simp [charsLe]
  | _ :: _, [], _, h, _ => by simp [charsLe] at h
  | _ :: _, _ :: _, [], _, h => by simp [charsLe] at h
  | a :: as, b :: bs, c :: cs, h1, h2 => by
    simp only [charsLe] at h1 h2 ⊢
    by_cases hab : a.toNat < b.toNat
    · by_cases hbc : b.toNat < c.toNat
      · rw [if_pos (Nat.lt_trans hab hbc)]
      · by_cases hcb : c.toNat < b.toNat
        · simp [hbc, hcb] at h2
        · rw [if_pos (by omega)]
    · by_cases hba : b.toNat < a.toNat
      · simp [hab, hba] at h1
      · simp only [hab, hba, if_false] at h1
        by_cases hbc : b.toNat < c.toNat
        · rw [if_pos (by omega)]
        · by_cases hcb : c.toNat < b.toNat
          · simp [hbc, hcb] at h2
          · simp only [hbc, hcb, if_false] at h2
            rw [if_neg (by omega), if_neg (by omega)]
            exact charsLe_trans as bs cs h1 h2

theorem charsLe_antisymm : ∀ a b : List Char,
    charsLe a b = true → charsLe b a = true → a = b
  | [], [], _, _ => rfl
  | [], _ :: _, _, h => by simp [charsLe] at h
  | _ :: _, [], h, _ => by simp [charsLe] at h
  | a :: as, b :: bs, h1, h2 => by
    simp only [charsLe] at h1 h2
    by_cases hab : a.toNat < b.toNat
    · have hba : ¬ b.toNat < a.toNat := by omega
      simp [hab, hba] at h2
    · by_cases hba : b.toNat < a.toNat
      · simp [hab, hba] at h1
      · simp only [hab, hba, if_false] at h1 h2
        rw [char_eq_of_toNat_eq a b (by omega), charsLe_antisymm as bs h1 h2]

instance : IsTotal String stringLe := ⟨fun a b => charsLe_total a.data b.data⟩

instance : IsTrans String stringLe := ⟨fun a b c => charsLe_trans a.data b.data c.data⟩

instance : IsAntisymm String stringLe :=
  ⟨fun a b h1 h2 => String.ext (charsLe_antisymm a.data b.data h1 h2)⟩

theorem sortedKeys_sorted {α : Type} (m : List (String × α)) :
    (sortedKeys m).Sorted stringLe :=
  List.sorted_insertionSort stringLe _

theorem sortedKeys_eq_of_perm {α : Type} (m1 m2 : List (String × α)) (h : m1.Perm m2) :
    sortedKeys m1 = sortedKeys m2 := by
  apply List.eq_of_perm_of_sorted (r := stringLe) _ (sortedKeys_sorted m1) (sortedKeys_sorted m2)
  exact (sortedKeys_perm m1).trans ((h.map Prod.fst).trans (sortedKeys_perm m2).symm)

theorem lookup_eq_of_perm {α : Type} (m1 m2 : List (String × α)) (h : m1.Perm m2)
    (hnd : (keysOf m1).Nodup) (k : String) : m1.lookup k = m2.lookup k := by
  induction h with
  | nil => rfl
  | cons kv _ ih =>
    obtain ⟨k1, v1⟩ := kv
    simp only [keysOf, List.map_cons, List.nodup_cons] at hnd
    simp only [List.lookup]
    split
    · rfl
    · exact ih hnd.2
  | swap kv1 kv2 l =>
    obtain ⟨k1, v1⟩ := kv1
    obtain ⟨k2, v2⟩ := kv2
    simp only [keysOf, List.map_cons, List.nodup_cons, List.mem_cons, not_or] at hnd
    simp only [List.lookup]
    by_cases h1 : k = k1
    · by_cases h2 : k = k2
      · exact absurd (h2.symm.trans h1) hnd.1.1
      · have e1 : (k == k1) = true := by simpa using h1
        have e2 : (k == k2) = false := by simpa using h2
        simp [e1, e2]
    · have e1 : (k == k1) = false := by simpa using h1
      simp [e1]
  | trans h1 _ ih1 ih2 =>
    rw [ih1 hnd]
    exact ih2 ((h1.map Prod.fst).nodup_iff.mp hnd)

theorem createFieldsLoopWith_lookup_congr (x : Ext) (gen : SchemaRef → String → GenResult)
    (m1 m2 : List (String × SchemaRef)) (name : String) (required : List String)
    (hl : ∀ k, m1.lookup k = m2.lookup k) (keys : List String) :
    ∀ (fields : List StructField) (types : List Writable),
      createFieldsLoopWith x gen m1 name required keys fields types
        = createFieldsLoopWith x gen m2 name required keys fields types := by
  induction keys with
  | nil => intro fields types; rfl
  | cons k rest ih =>
    intro fields types
    simp only [createFieldsLoopWith, hl k]
    cases m2.lookup k with
    | none => rfl
    | some schema =>
      dsimp only
      cases gen schema (name ++ x.ToCamel k) with
      | error e => rfl
      | ok r => exact ih _ _

/-- C11: for a property map (its keys distinct) and a required list, the fields
createFields returns are one per property, named by the keys in strictly
ascending order; each is typed by genSchema applied to the property's schema
under the name `name + ToCamel(key)`, is optional exactly when its key is not in
the required list, and carries `omitempty` in its json tag in exactly that case;
the result is the same for every order in which the map lists its entries. -/
theorem createFields_sorted_one_per_property (x : Ext) (props : List (String × SchemaRef))
    (name : String) (required : List String) (fs : List StructField) (ts : List Writable)
    (hnd : (keysOf props).Nodup) (h : createFields x props name required = .ok (fs, ts)) :
    (fs.map (fun f => f.Name)).Perm (keysOf props)
      ∧ fs.length = props.length
      ∧ fs.Pairwise (fun f g => stringLe f.Name g.Name ∧ f.Name ≠ g.Name)
      ∧ (∀ f ∈ fs, ∃ sch ty more, props.lookup f.Name = some sch
          ∧ genSchema x sch (name ++ x.ToCamel f.Name) = .ok (ty, more)
          ∧ f.Typ = ty
          ∧ f.Optional = !(required.contains f.Name)
          ∧ f.Tags = [("json", if f.Optional then [x.ToSnake f.Name, "omitempty"]
                               else [x.ToSnake f.Name])])
      ∧ (∀ props1 : List (String × SchemaRef), props1.Perm props →
          createFields x props1 name required = createFields x props name required) := by
  have hF := createFields_ok x props name required fs ts h
  have hnames := forall₂_fieldOf_names hF
  have hperm := sortedKeys_perm props
  refine ⟨hnames ▸ hperm, ?_, ?_, ?_, ?_⟩
  · have h1 : (fs.map (fun f => f.Name)).length = (keysOf props).length := by
      rw [hnames]
      exact hperm.length_eq
    simpa [keysOf] using h1
  · have hs : (sortedKeys props).Pairwise (fun a b => stringLe a b ∧ a ≠ b) :=
      List.Pairwise.and (sortedKeys_sorted props) (hperm.nodup_iff.mpr hnd)
    rw [← hnames, List.pairwise_map] at hs
    exact hs
  · intro f hf
    obtain ⟨sch, ty, more, hl, hg, hfe⟩ := forall₂_fieldOf_mem hF f hf
    refine ⟨sch, ty, more, hl, hg, ?_, ?_, ?_⟩
    · rw [hfe]; rfl
    · rw [hfe]; rfl
    · rw [hfe]; rfl
  · intro props1 hp
    unfold createFields createFieldsWith
    rw [sortedKeys_eq_of_perm props1 props hp]
    exact createFieldsLoopWith_lookup_congr x _ props1 props name required
      (lookup_eq_of_perm props1 props hp ((hp.map Prod.fst).nodup_iff.mpr hnd)) _ _ _

/-- C11 at a concrete map listed out of order. -/
theorem createFields_sorted_one_per_property_witness :
    ∃ fs ts, createFields sampleExt
        [("name", stringRef), ("id", SchemaRef.mk "" (plainSchema "integer"))] "Pet" ["id"]
        = .ok (fs, ts)
      ∧ fs.map (fun f => (f.Name, f.Typ, f.Optional))
        = [("id", "int", false), ("name", "string", true)]
      ∧ fs.map (fun f => f.Tags.map (fun t => t.2)) = [[["id"]], [["name", "omitempty"]]]
      ∧ fs.Pairwise (fun f g => stringLe f.Name g.Name ∧ f.Name ≠ g.Name) := by
  have hv : (createFields sampleExt
      [("name", stringRef), ("id", SchemaRef.mk "" (plainSchema "integer"))] "Pet"
      ["id"]).toOption.map (fun r => r.1.map (fun f => (f.Name, f.Typ, f.Optional)))
      = some [("id", "int", false), ("name", "string", true)] := by
    decide
  have hw : (createFields sampleExt
      [("name", stringRef), ("id", SchemaRef.mk "" (plainSchema "integer"))] "Pet"
      ["id"]).toOption.map (fun r => r.1.map (fun f => f.Tags.map (fun t => t.2)))
      = some [[["id"]], [["name", "omitempty"]]] := by
    decide
  cases hres : createFields sampleExt
      [("name", stringRef), ("id", SchemaRef.mk "" (plainSchema "integer"))] "Pet" ["id"] with
  | error e => rw [hres] at hv; exact absurd hv (by simp [Except.toOption])
  | ok r =>
    obtain ⟨fs, ts⟩ := r
    rw [hres] at hv hw
    exact ⟨fs, ts, rfl, by simpa [Except.toOption] using hv,
      by simpa [Except.toOption] using hw,
      (createFields_sorted_one_per_property sampleExt _ "Pet" ["id"] fs ts (by decide) hres).2.2.1⟩

/-! ## Scalars and enums in genSchema -/

/-- C13: for a non-reference schema without enum values, genSchema maps a
string schema to `time.Time` for format `date-time`, `Date` for `date`, `Time`
for `time` and `string` for any other format, an integer schema to `int`, a
number schema to `float64` and a boolean schema to `bool`, each time with no new
declarations. -/
theorem genSchema_scalar_mapping (x : Ext) (schema : SchemaRef) (name : String)
    (hr : schema.Ref = "") (he : schema.Value.Enum = []) :
    (schema.Value.TypeIs "string" = true →
        (schema.Value.Format = "date-time" → genSchema x schema name = .ok ("time.Time", []))
        ∧ (schema.Value.Format = "date" → genSchema x schema name = .ok ("Date", []))
        ∧ (schema.Value.Format = "time" → genSchema x schema name = .ok ("Time", []))
        ∧ (schema.Value.Format ≠ "date-time" → schema.Value.Format ≠ "date" →
            schema.Value.Format ≠ "time" → genSchema x schema name = .ok ("string", [])))
      ∧ (schema.Value.TypeIs "integer" = true → genSchema x schema name = .ok ("int", []))
      ∧ (schema.Value.TypeIs "number" = true → genSchema x schema name = .ok ("float64", []))
      ∧ (schema.Value.TypeIs "boolean" = true → genSchema x schema name = .ok ("bool", [])) := by
  refine ⟨?_, ?_, ?_, ?_⟩
  · intro ht
    have hs : genSchema x schema name = .ok (formatStringType schema.Value, []) := by
      rw [genSchema_unfold]
      simp [genSchemaBody, hr, he, ht]
    rw [hs]
    refine ⟨?_, ?_, ?_, ?_⟩
    · intro hf
      simp [formatStringType, hf]
    · intro hf
      simp [formatStringType, hf]
    · intro hf
      simp [formatStringType, hf]
    · intro h1 h2 h3
      simp [formatStringType, h1, h2, h3]
  · intro ht
    rw [genSchema_unfold]
    simp [genSchemaBody, hr, he, ht, typeIs_unique schema.Value _ _ ht]
  · intro ht
    rw [genSchema_unfold]
    simp [genSchemaBody, hr, he, ht, typeIs_unique schema.Value _ _ ht]
  · intro ht
    rw [genSchema_unfold]
    simp [genSchemaBody, hr, he, ht, typeIs_unique schema.Value _ _ ht]

/-- C13 at concrete schemas. -/
theorem genSchema_scalar_mapping_witness :
    genSchema sampleExt (SchemaRef.mk "" (Schema.mk (some ["string"]) "date-time" "" [] none []
        [] none none none none none)) "CreatedAt" = .ok ("time.Time", [])
      ∧ genSchema sampleExt (SchemaRef.mk "" (plainSchema "integer")) "Count" = .ok ("int", []) :=
  ⟨((genSchema_scalar_mapping sampleExt (SchemaRef.mk "" (Schema.mk (some ["string"])
      "date-time" "" [] none [] [] none none none none none)) "CreatedAt" rfl rfl).1 rfl).1 rfl,
   (genSchema_scalar_mapping sampleExt (SchemaRef.mk "" (plainSchema "integer")) "Count"
      rfl rfl).2.1 rfl⟩

/-- A boolean schema that lists the enum literal `true`. -/
def booleanEnum : Schema :=
  Schema.mk (some ["boolean"]) "" "" [AnyValue.other "bool"] none [] [] none none none none none

/-- C12, as stated, fails: for a boolean schema with enum values createEnum
returns nil, and genSchema and generateSchemaComponents emit no enum declaration. -/
theorem enum_of_other_kind_no_declaration :
    booleanEnum.Enum.length > 0
      ∧ genSchema sampleExt (SchemaRef.mk "" booleanEnum) "Flags" = .ok ("Flag", [])
      ∧ generateSchemaComponents sampleExt "Flags" (SchemaRef.mk "" booleanEnum) false
        = .ok [] := by
  refine ⟨by decide, rfl, rfl⟩

/-- The kinds for which createEnum builds a declaration. -/
def Schema.enumKind (s : Schema) : Bool :=
  s.TypeIs "string" || s.TypeIs "integer" || s.TypeIs "number"

theorem createEnum_isSome_iff (x : Ext) (schema : Schema) (name : String) :
    (schema.enumKind = true → ∃ e, createEnum x schema name = some e
        ∧ e.Typ.Name = x.MakeSingular name)
      ∧ (schema.enumKind = false → createEnum x schema name = none) := by
  obtain ⟨h1, h2, h3, h4⟩ := createEnum_values x schema name
  unfold Schema.enumKind
  constructor
  · intro hk
    by_cases hs : schema.TypeIs "string" = true
    · obtain ⟨e, he, hn, _⟩ := h1 hs
      exact ⟨e, he, hn⟩
    · by_cases hi : schema.TypeIs "integer" = true
      · by_cases hf : schema.Format = "int64"
        · obtain ⟨e, he, hn, _⟩ := h2 hi hf
          exact ⟨e, he, hn⟩
        · obtain ⟨e, he, hn, _⟩ := h3 hi hf
          exact ⟨e, he, hn⟩
      · have hn : schema.TypeIs "number" = true := by simpa [hs, hi] using hk
        obtain ⟨e, he, hn, _⟩ := h4 hn
        exact ⟨e, he, hn⟩
  · intro hk
    simp only [Bool.or_eq_false_iff] at hk
    simp [createEnum, hk.1.1, hk.1.2, hk.2]

/-- C12, amended: for a non-reference schema with a non-empty enum list of kind
string, integer or number, genSchema returns the singularized desired name
together with exactly one enum declaration bearing that name, never the base
scalar type, and generateSchemaComponents emits that enum declaration (after the
type assertion when isErr is set) and no scalar alias; for a schema of any other
kind with enum values genSchema returns the singularized name with no
declaration and generateSchemaComponents emits no declaration either. -/
theorem genSchema_enum_priority (x : Ext) (schema : SchemaRef) (name : String)
    (hr : schema.Ref = "") (he : schema.Value.Enum.length > 0) :
    (schema.Value.enumKind = true →
        ∃ e, createEnum x schema.Value name = some e ∧ e.Typ.Name = x.MakeSingular name
          ∧ genSchema x schema name = .ok (x.MakeSingular name, [Writable.enumDeclaration e])
          ∧ generateSchemaComponents x name schema false = .ok [Writable.enumDeclaration e]
          ∧ generateSchemaComponents x name schema true
            = .ok [Writable.typeAssertionDeclaration name, Writable.enumDeclaration e])
      ∧ (schema.Value.enumKind = false →
          genSchema x schema name = .ok (x.MakeSingular name, [])
          ∧ generateSchemaComponents x name schema false = .ok []
          ∧ generateSchemaComponents x name schema true
            = .ok [Writable.typeAssertionDeclaration name]) := by
  obtain ⟨h1, h2⟩ := createEnum_isSome_iff x schema.Value name
  constructor
  · intro hk
    obtain ⟨e, hce, hn⟩ := h1 hk
    refine ⟨e, hce, hn, ?_, ?_, ?_⟩
    · rw [genSchema_unfold]
      simp [genSchemaBody, hr, he, hce]
    · simp [generateSchemaComponents, he, hce]
    · simp [generateSchemaComponents, he, hce]
  · intro hk
    have hce := h2 hk
    refine ⟨?_, ?_, ?_⟩
    · rw [genSchema_unfold]
      simp [genSchemaBody, hr, he, hce]
    · simp [generateSchemaComponents, he, hce]
    · simp [generateSchemaComponents, he, hce]

/-- C12, amended, at the string enum `colorsEnum`. -/
theorem genSchema_enum_priority_witness :
    ∃ e, createEnum sampleExt colorsEnum "Colors" = some e
      ∧ genSchema sampleExt (SchemaRef.mk "" colorsEnum) "Colors"
        = .ok ("Color", [Writable.enumDeclaration e]) := by
  obtain ⟨e, hce, _, hg, _⟩ :=
    (genSchema_enum_priority sampleExt (SchemaRef.mk "" colorsEnum) "Colors" rfl
      (by decide)).1 (by decide)
  exact ⟨e, hce, hg⟩

/-! ## The primary success type (getSuccessResponse, getSuccessResponseType) -/

/-- The response a map entry stands for: the component it refers to, or its own
value. -/
def resolveResponse (b : BuilderSpec) (response : ResponseRef) : Option OAResponse :=
  if response.Ref ≠ "" then
    (b.ComponentsResponses.lookup (TrimPrefixOf response.Ref responsesPrefixStr)).map
      (fun r => r.Value)
  else some response.Value

/-- The payload type of a JSON response: the referenced schema's name, or the
name of the inline response type. -/
def payloadType (x : Ext) (o : Operation) (code : String) (schema : SchemaRef) : String :=
  if schema.Ref ≠ "" then getReferenceSchema x schema
  else getResponseName x (x.ToCamel o.OperationID) code schema

/-- The entry is a response other than `default` whose normalized code lies in
[200,300) and which has `application/json` content `content`. -/
def SuccessEntry (b : BuilderSpec) (entry : String × ResponseRef) (content : MediaType) : Prop :=
  entry.1 ≠ "default" ∧ 200 ≤ (statusAtoi entry.1).1 ∧ (statusAtoi entry.1).1 < 300
    ∧ ∃ v, resolveResponse b entry.2 = some v
      ∧ v.Content.lookup "application/json" = some content

theorem statusAtoi_400 : statusAtoi "400" = (400, true) := by decide

theorem getSuccessResponse_some (b : BuilderSpec) (order : List (String × ResponseRef)) :
    ∀ (content : MediaType) (code : String),
      getSuccessResponse b order = .ok (some (content, code)) →
      ∃ response, (code, response) ∈ order ∧ SuccessEntry b (code, response) content := by
  induction order with
  | nil => intro content code h; simp [getSuccessResponse] at h
  | cons e rest ih =>
    intro content code h
    obtain ⟨name, response⟩ := e
    have hrest : ∀ h1 : getSuccessResponse b rest = .ok (some (content, code)),
        ∃ r0, (code, r0) ∈ (name, response) :: rest
          ∧ SuccessEntry b (code, r0) content := by
      intro h1
      obtain ⟨r, hr, hs⟩ := ih content code h1
      exact ⟨r, List.mem_cons_of_mem _ hr, hs⟩
    simp only [getSuccessResponse] at h
    by_cases hd : name = "default"
    · subst hd
      simp only [if_true, statusAtoi_400] at h
      exact hrest (by simpa using h)
    · simp only [if_neg hd] at h
      split at h
      · exact absurd h (by simp)
      · split at h
        · exact hrest h
        · next hrange =>
          have hr2 : 200 ≤ (statusAtoi name).1 ∧ (statusAtoi name).1 < 300 := by
            simp only [Bool.or_eq_true, decide_eq_true_eq, not_or, not_lt] at hrange
            exact ⟨hrange.1, by omega⟩
          split at h
          · next href =>
            split at h
            · exact absurd h (by simp)
            · next resolved hres =>
              split at h
              · next c hc =>
                injection h with h
                injection h with h
                injection h with h1 h2
                subst h1 h2
                exact ⟨response, List.mem_cons_self _ _, hd, hr2.1, hr2.2, resolved.Value,
                  by simp [resolveResponse, href, hres], hc⟩
              · exact hrest h
          · next href =>
            split at h
            · next c hc =>
              injection h with h
              injection h with h
              injection h with h1 h2
              subst h1 h2
              exact ⟨response, List.mem_cons_self _ _, hd, hr2.1, hr2.2, response.Value,
                by simp [resolveResponse, href], hc⟩
            · exact hrest h

theorem getSuccessResponse_none (b : BuilderSpec) (order : List (String × ResponseRef))
    (hparse : ∀ e ∈ order, e.1 ≠ "default" → (statusAtoi e.1).2 = true)
    (hno : ∀ e ∈ order, e.1 ≠ "default" → 200 ≤ (statusAtoi e.1).1 →
      (statusAtoi e.1).1 < 300 →
      ∃ v, resolveResponse b e.2 = some v ∧ v.Content.lookup "application/json" = none) :
    getSuccessResponse b order = .ok none := by
  induction order with
  | nil => rfl
  | cons e rest ih =>
    obtain ⟨name, response⟩ := e
    have hrest := ih (fun e he => hparse e (List.mem_cons_of_mem _ he))
      (fun e he => hno e (List.mem_cons_of_mem _ he))
    simp only [getSuccessResponse]
    by_cases hd : name = "default"
    · subst hd
      simp only [if_true, statusAtoi_400]
      simpa using hrest
    · simp only [if_neg hd]
      have hp := hparse (name, response) (List.mem_cons_self _ _) hd
      simp only at hp
      rw [if_neg (by simp [hp])]
      split
      · exact hrest
      · next hrange =>
        have hr2 : 200 ≤ (statusAtoi name).1 ∧ (statusAtoi name).1 < 300 := by
          simp only [Bool.or_eq_true, decide_eq_true_eq, not_or, not_lt] at hrange
          exact ⟨hrange.1, by omega⟩
        obtain ⟨v, hv, hc⟩ := hno (name, response) (List.mem_cons_self _ _) hd hr2.1 hr2.2
        by_cases href : response.Ref ≠ ""
        · simp only [resolveResponse, if_pos href] at hv
          rw [if_pos href]
          cases hl : b.ComponentsResponses.lookup (TrimPrefixOf response.Ref responsesPrefixStr)
            with
          | none => rw [hl] at hv; simp at hv
          | some resolved =>
            rw [hl] at hv
            simp only [Option.map_some', Option.some.injEq] at hv
            simp only [hv, hc]
            exact hrest
        · simp only [resolveResponse, if_neg href, Option.some.injEq] at hv
          rw [if_neg href]
          simp only [hv, hc]
          exact hrest

theorem getSuccessResponse_no_error (b : BuilderSpec) (order : List (String × ResponseRef))
    (hparse : ∀ e ∈ order, e.1 ≠ "default" → (statusAtoi e.1).2 = true) :
    endsWithError (getSuccessResponse b order) = false := by
  induction order with
  | nil => rfl
  | cons e rest ih =>
    obtain ⟨name, response⟩ := e
    have hrest := ih (fun e he => hparse e (List.mem_cons_of_mem _ he))
    simp only [getSuccessResponse]
    by_cases hd : name = "default"
    · subst hd
      simp only [if_true, statusAtoi_400]
      simpa using hrest
    · simp only [if_neg hd]
      have hp := hparse (name, response) (List.mem_cons_self _ _) hd
      simp only at hp
      rw [if_neg (by simp [hp])]
      split
      · exact hrest
      · split
        · split
          · rfl
          · split
            · rfl
            · exact hrest
        · split
          · rfl
          · exact hrest

/-- C15: for an operation whose status tokens other than `default` all parse,
getSuccessResponseType returns a non-empty type only if the responses map holds
a response other than `default` whose normalized code lies in [200,300) and
which has `application/json` content, and the type is the payload type of that
response; when every response in that range has no such content the result is
the empty type; and the call never returns an error. -/
theorem getSuccessResponseType_sound (x : Ext) (b : BuilderSpec) (o : Operation)
    (order : List (String × ResponseRef))
    (hparse : ∀ e ∈ order, e.1 ≠ "default" → (statusAtoi e.1).2 = true) :
    (∀ t, getSuccessResponseType x b o order = .ok t → t ≠ "" →
        ∃ entry ∈ order, ∃ content schema, SuccessEntry b entry content
          ∧ content.Schema = some schema ∧ t = payloadType x o entry.1 schema)
      ∧ ((∀ e ∈ order, e.1 ≠ "default" → 200 ≤ (statusAtoi e.1).1 →
            (statusAtoi e.1).1 < 300 →
            ∃ v, resolveResponse b e.2 = some v ∧ v.Content.lookup "application/json" = none) →
          getSuccessResponseType x b o order = .ok "")
      ∧ endsWithError (getSuccessResponseType x b o order) = false := by
  refine ⟨?_, ?_, ?_⟩
  · intro t h hne
    unfold getSuccessResponseType at h
    split at h
    · exact absurd h (by simp)
    · injection h with h
      exact absurd h.symm hne
    · next resp code hs =>
      obtain ⟨response, hmem, hse⟩ := getSuccessResponse_some b order resp code hs
      split at h
      · exact absurd h (by simp)
      · next schema hsch =>
        refine ⟨(code, response), hmem, resp, schema, hse, hsch, ?_⟩
        unfold payloadType
        split at h
        · next href => injection h with h; rw [if_pos href, h]
        · next href => injection h with h; rw [if_neg href, h]
  · intro hno
    unfold getSuccessResponseType
    rw [getSuccessResponse_none b order hparse hno]
  · have hne := getSuccessResponse_no_error b order hparse
    unfold getSuccessResponseType
    split
    · next e he =>
      rw [he] at hne
      cases e with
      | error msg => simp [endsWithError] at hne
      | panic => rfl
    · rfl
    · split
      · rfl
      · split <;> rfl

/-- C15 at the responses `default`, `404` and `201` (JSON): the type is that of
`201`; with `default` and `404` alone it is empty. -/
theorem getSuccessResponseType_sound_witness :
    getSuccessResponseType sampleExt ⟨[]⟩ (getPetWith [])
        [("default", jsonResponse), ("404", jsonResponse), ("201", jsonResponse)]
        = .ok "GetPet201Response"
      ∧ getSuccessResponseType sampleExt ⟨[]⟩ (getPetWith [])
        [("default", jsonResponse), ("404", jsonResponse)] = .ok "" := by
  refine ⟨rfl, ?_⟩
  refine (getSuccessResponseType_sound sampleExt ⟨[]⟩ (getPetWith [])
    [("default", jsonResponse), ("404", jsonResponse)] (by decide)).2.1 ?_
  intro e he hd _ h2
  rcases List.mem_cons.mp he with h | h
  · subst h
    exact absurd rfl hd
  · have h404 : e = ("404", jsonResponse) := by simpa using h
    subst h404
    exact absurd h2 (by decide)

/-! ## Parameter structs (pathsToParamTypes) -/

/-- The resolved parameters not located in the path, in declared order, each
with its reference. -/
def queryParameters (params : List ParameterRef) : List (ParameterRef × OAParameter) :=
  params.filterMap (fun p =>
    match p.Value with
    | none => none
    | some v => if v.In = "path" then none else some (p, v))

/-- The field `f` is the one pathsToParamTypes builds for the parameter `pv`. -/
def QueryFieldOf (x : Ext) (pv : ParameterRef × OAParameter) (f : StructField) : Prop :=
  f.Optional = !pv.2.Required ∧ f.Parameter = some pv.2
    ∧ f.Name = (if pv.1.Ref ≠ "" then x.ToCamel (TrimPrefixOf pv.1.Ref schemasPrefixStr)
                else pv.2.Name)
    ∧ ∃ schema, pv.2.Schema = some schema ∧ convertToValidGoType x "" schema = .ok f.Typ

theorem paramFieldsLoop_ok (x : Ext) (params : List ParameterRef) :
    ∀ (acc fields : List StructField), paramFieldsLoop x params acc = .ok fields →
      ∃ new, fields = acc ++ new
        ∧ List.Forall₂ (QueryFieldOf x) (queryParameters params) new := by
  induction params with
  | nil =>
    intro acc fields h
    simp only [paramFieldsLoop] at h
    injection h with h
    exact ⟨[], by simp [h], List.Forall₂.nil⟩
  | cons p rest ih =>
    intro acc fields h
    simp only [paramFieldsLoop] at h
    cases hv : p.Value with
    | none => rw [hv] at h; exact absurd h (by simp)
    | some v =>
      rw [hv] at h
      dsimp only at h
      by_cases hin : v.In = "path"
      · rw [if_pos hin] at h
        obtain ⟨new, hnew, hall⟩ := ih _ _ h
        exact ⟨new, hnew, by simpa [queryParameters, List.filterMap_cons, hv, hin] using hall⟩
      · rw [if_neg hin] at h
        cases hs : v.Schema with
        | none => rw [hs] at h; exact absurd h (by simp)
        | some schema =>
          rw [hs] at h
          dsimp only at h
          cases hc : convertToValidGoType x "" schema with
          | error e => rw [hc] at h; exact absurd h (by simp)
          | ok t =>
            rw [hc] at h
            dsimp only at h
            obtain ⟨new, hnew, hall⟩ := ih _ _ h
            refine ⟨queryField x p v t :: new, by rw [hnew]; simp, ?_⟩
            have hq : queryParameters (p :: rest) = (p, v) :: queryParameters rest := by
              simp [queryParameters, List.filterMap_cons, hv, hin]
            rw [hq]
            exact List.Forall₂.cons ⟨rfl, rfl, rfl, schema, hs, hc⟩ hall

/-- The body of the loop of pathsToParamTypes for one operation: when at least
one parameter is not located in the path it yields exactly one struct
declaration named ToCamel(operationId)+"Params" immediately followed by the
query-serialization routine of that declaration, the struct having one field per
non-path parameter in declaration order, each optional exactly when the
parameter is not required; when all parameters are path parameters it yields
nothing. -/
theorem operationParamTypes_struct (x : Ext) (opSpec : Operation) (ws : List Writable)
    (h : operationParamTypes x opSpec = .ok ws) :
    (queryParameters opSpec.Parameters ≠ [] →
        ∃ d, ws = [Writable.typeDeclaration d, Writable.toQueryValues d]
          ∧ d.Name = x.ToCamel opSpec.OperationID ++ "Params" ∧ d.Typ = "struct"
          ∧ d.Fields.length = (queryParameters opSpec.Parameters).length
          ∧ List.Forall₂ (QueryFieldOf x) (queryParameters opSpec.Parameters) d.Fields)
      ∧ (queryParameters opSpec.Parameters = [] → ws = []) := by
  unfold operationParamTypes at h
  split at h
  · split at h
    · exact absurd h (by simp)
    · next fields hf =>
      obtain ⟨new, hnew, hall⟩ := paramFieldsLoop_ok x _ _ _ hf
      rw [List.nil_append] at hnew
      subst hnew
      have hlen := hall.length_eq
      split at h
      · next hne =>
        injection h with h
        refine ⟨fun _ => ⟨_, h.symm, rfl, rfl, hlen.symm, hall⟩, fun hq => ?_⟩
        rw [hq] at hlen
        exact absurd hlen.symm hne
      · next hz =>
        injection h with h
        refine ⟨fun hq => ?_, fun _ => h.symm⟩
        have hz2 : fields.length = 0 := by simpa using hz
        rw [hz2] at hlen
        exact absurd (List.length_eq_zero.mp hlen) hq
  · next hz =>
    injection h with h
    have hnil : opSpec.Parameters = [] := by
      cases hp : opSpec.Parameters with
      | nil => rfl
      | cons a l => rw [hp] at hz; simp at hz
    refine ⟨fun hq => ?_, fun _ => h.symm⟩
    rw [hnil] at hq
    exact absurd rfl hq

/-- The names of the fields a writable declares. -/
def Writable.fieldNames : Writable → List String
  | .typeDeclaration d => d.Fields.map (fun f => f.Name)
  | _ => []

/-- The operation `listPets` with a path parameter and two query parameters, the
second of them optional. -/
def listPetsOperation : Operation :=
  { OperationID := "listPets", Extensions := [], RequestBody := none, Responses := []
    Parameters :=
      [ { Ref := "", Value := some { Name := "shop", In := "path", Required := true,
                                     Schema := some stringRef } },
        { Ref := "", Value := some { Name := "limit", In := "query", Required := true,
                                     Schema := some (SchemaRef.mk "" (plainSchema "integer")) } },
        { Ref := "", Value := some { Name := "tag", In := "query", Required := false,
                                     Schema := some stringRef } } ] }

/-- The loop body at `listPetsOperation`: one struct `ListPetsParams` with the
fields limit and tag, followed by its serialization routine. -/
theorem operationParamTypes_struct_witness :
    ∃ d, operationParamTypes sampleExt listPetsOperation
        = .ok [Writable.typeDeclaration d, Writable.toQueryValues d]
      ∧ d.Name = "ListPetsParams"
      ∧ d.Fields.map (fun f => (f.Name, f.Typ, f.Optional))
        = [("limit", "int", false), ("tag", "string", true)] := by
  have hv : (operationParamTypes sampleExt listPetsOperation).toOption.isSome = true := by decide
  cases hres : operationParamTypes sampleExt listPetsOperation with
  | error e => rw [hres] at hv; exact absurd hv (by simp [Except.toOption])
  | ok ws =>
    obtain ⟨d, hd, hn, _, _, _⟩ :=
      (operationParamTypes_struct sampleExt listPetsOperation ws hres).1 (by
        intro hq
        have h2 : (queryParameters listPetsOperation.Parameters).length = 2 := by decide
        rw [hq] at h2
        exact absurd h2 (by decide))
    have hf : (operationParamTypes sampleExt listPetsOperation).toOption.map
        (fun ws => ws.map (fun w => match w with
          | .typeDeclaration t => t.Fields.map (fun f => (f.Name, f.Typ, f.Optional))
          | _ => []))
        = some [[("limit", "int", false), ("tag", "string", true)], []] := by decide
    rw [hres, hd] at hf
    refine ⟨d, by rw [hd], by rw [hn]; decide, ?_⟩
    simpa [Except.toOption] using hf

/-- An operation with a query parameter and a header parameter, both named `id`. -/
def twoIdsOperation : Operation :=
  { OperationID := "getPet", Extensions := [], RequestBody := none, Responses := []
    Parameters :=
      [ { Ref := "", Value := some { Name := "id", In := "query", Required := true,
                                     Schema := some stringRef } },
        { Ref := "", Value := some { Name := "id", In := "header", Required := false,
                                     Schema := some stringRef } } ] }

/-- A path item whose GET operation is `twoIdsOperation`. -/
def twoIdsItem : PathItem :=
  { Ref := "", Parameters := [], Operations := [("GET", twoIdsOperation)] }

/-- C20, the code at the failing input: for an operation with a query parameter
and a header parameter of the same name, the struct emitted by pathsToParamTypes
has two fields named `id`. -/
theorem operationParamTypes_duplicate_field_names :
    (operationParamTypes sampleExt twoIdsOperation).toOption.map
        (fun ws => ws.map Writable.fieldNames) = some [["id", "id"], []]
      ∧ (pathsToParamTypes sampleExt (some [("/pets", twoIdsItem)])).toOption.map
        (fun ws => ws.map Writable.fieldNames) = some [["id", "id"], []]
      ∧ ¬ (["id", "id"] : List String).Nodup := by
  decide

/-! ## The request body (operationToMethod, pathsToBodyTypes) -/

/-- The operation declares a request body with an `application/json` media type
that carries the schema `schema`. -/
def JsonBodySchema (o : Operation) (schema : SchemaRef) : Prop :=
  ∃ body mt, o.RequestBody = some body ∧ body.Content.lookup "application/json" = some mt
    ∧ mt.Schema = some schema

theorem createObject_name (x : Ext) (schema : Schema) (name : String) (d : TypeDeclaration)
    (rest : List Writable) (h : createObject x schema name = .ok (d, rest)) : d.Name = name := by
  unfold createObject createObjectWith at h
  split at h
  · injection h with h
    injection h with h1 _
    rw [← h1]
  · split at h
    · exact absurd h (by simp)
    · injection h with h
      injection h with h1 _
      rw [← h1]

theorem bodyParams_cases (x : Ext) (o : Operation) :
    (∃ schema, JsonBodySchema o schema
        ∧ bodyParams x o = [{ Name := "body", Typ := x.ToCamel o.OperationID ++ "Body" }]
        ∧ operationBodyTypes x o
          = (match createObject x schema.Value (x.ToCamel o.OperationID ++ "Body") with
             | .error e => .error e
             | .ok (bodyObject, additionalTypes) =>
               .ok ([Writable.typeDeclaration bodyObject] ++ additionalTypes)))
      ∨ ((¬ ∃ schema, JsonBodySchema o schema) ∧ bodyParams x o = []
          ∧ operationBodyTypes x o = .ok []) := by
  unfold bodyParams operationBodyTypes JsonBodySchema
  cases hb : o.RequestBody with
  | none => exact Or.inr ⟨by simp, rfl, rfl⟩
  | some body =>
    cases hl : body.Content.lookup "application/json" with
    | none =>
      refine Or.inr ⟨?_, by simp [hl], by simp [hl]⟩
      rintro ⟨schema, b2, mt, h1, h2, _⟩
      injection h1 with h1
      subst h1
      rw [hl] at h2
      exact absurd h2 (by simp)
    | some mt =>
      cases hs : mt.Schema with
      | none =>
        refine Or.inr ⟨?_, by simp [hl, hs], by simp [hl, hs]⟩
        rintro ⟨schema, b2, mt2, h1, h2, h3⟩
        injection h1 with h1
        subst h1
        rw [hl] at h2
        injection h2 with h2
        subst h2
        rw [hs] at h3
        exact absurd h3 (by simp)
      | some schema =>
        exact Or.inl ⟨schema, ⟨body, mt, rfl, hl, hs⟩, by simp [hl, hs], by simp [hl, hs]⟩

/-- The argument list of the Method against the body of the loop of
pathsToBodyTypes for one operation: the list is the path parameters followed by
the argument `body` of type ToCamel(operationId)+"Body" exactly when the
operation declares a request body with an `application/json` media type that
carries a schema, and followed by nothing otherwise; in the first case the loop
body yields a declaration of that same name built by createObject from the body
schema, and in the other case it yields nothing. -/
theorem operationToMethod_body_argument (x : Ext) (b : BuilderSpec) (method path : String)
    (o : Operation) (succOrder respOrder : List (String × ResponseRef)) (m : Method)
    (h : operationToMethod x b method path o succOrder respOrder = .ok m) :
    ∃ params, buildPathParams x "path" o.Parameters = .ok params
      ∧ ((∃ schema, JsonBodySchema o schema
            ∧ m.PathParams
              = params ++ [{ Name := "body", Typ := x.ToCamel o.OperationID ++ "Body" }]
            ∧ ∀ ws, operationBodyTypes x o = .ok ws →
                ∃ d rest, ws = Writable.typeDeclaration d :: rest
                  ∧ d.Name = x.ToCamel o.OperationID ++ "Body"
                  ∧ createObject x schema.Value (x.ToCamel o.OperationID ++ "Body")
                    = .ok (d, rest))
          ∨ ((¬ ∃ schema, JsonBodySchema o schema) ∧ m.PathParams = params
              ∧ operationBodyTypes x o = .ok [])) := by
  obtain ⟨params, hp, hpp⟩ := operationToMethod_pathParams _ _ _ _ _ _ _ _ h
  refine ⟨params, hp, ?_⟩
  rcases bodyParams_cases x o with ⟨schema, hj, hbp, hbt⟩ | ⟨hno, hbp, hbt⟩
  · refine Or.inl ⟨schema, hj, by rw [hpp, hbp], ?_⟩
    intro ws hws
    rw [hbt] at hws
    split at hws
    · exact absurd hws (by simp)
    · next d rest hc =>
      injection hws with hws
      exact ⟨d, rest, by rw [← hws]; rfl, createObject_name x _ _ d rest hc, hc⟩
  · exact Or.inr ⟨hno, by rw [hpp, hbp, List.append_nil], hbt⟩

/-- The operation `createPet` with the path parameter `shop` and a JSON request
body. -/
def createPetOperation : Operation :=
  { OperationID := "createPet", Extensions := [], Responses := []
    Parameters := [{ Ref := "", Value := some { Name := "shop", In := "path", Required := true,
                                                Schema := some stringRef } }]
    RequestBody := some { Ref := "", Content := [("application/json",
      { Schema := some (SchemaRef.mk "" (Schema.mk (some ["object"]) "" "" [] none
          [("name", stringRef)] [] none none none none none)) })] } }

/-- The Method of `createPetOperation`: the arguments are shop and body, and the
operation declares a JSON body schema. -/
theorem operationToMethod_body_argument_witness :
    ∃ m, operationToMethod sampleExt ⟨[]⟩ "POST" "/shops/{shop}/pets" createPetOperation [] []
        = .ok m
      ∧ m.PathParams = [{ Name := "shop", Typ := "string" },
                        { Name := "body", Typ := "CreatePetBody" }]
      ∧ ∃ schema, JsonBodySchema createPetOperation schema := by
  have hv : (operationToMethod sampleExt ⟨[]⟩ "POST" "/shops/{shop}/pets" createPetOperation
      [] []).toOption.map (fun m => m.PathParams)
      = some [{ Name := "shop", Typ := "string" }, { Name := "body", Typ := "CreatePetBody" }] := by
    decide
  cases hres : operationToMethod sampleExt ⟨[]⟩ "POST" "/shops/{shop}/pets" createPetOperation
      [] [] with
  | error e => rw [hres] at hv; exact absurd hv (by simp [Except.toOption])
  | ok m =>
    rw [hres] at hv
    refine ⟨m, rfl, by simpa [Except.toOption] using hv, ?_⟩
    obtain ⟨params, _, hc⟩ := operationToMethod_body_argument _ _ _ _ _ _ _ m hres
    rcases hc with ⟨schema, hj, _, _⟩ | ⟨_, hpp, _⟩
    · exact ⟨schema, hj⟩
    · exact ⟨_, ⟨_, _, rfl, rfl, rfl⟩⟩

/-! ## The order of the response list when no difference of codes overflows -/

/-- The response `a` may stand before `b` in the sorted list: `a` is not the
default entry, and `b` is the default entry or has a code at least that of `a`. -/
def Before (a b : Response) : Prop :=
  a.IsDefault = false ∧ (b.IsDefault = true ∨ a.Code ≤ b.Code)

/-- The code is small enough for every difference of two codes to fit an `int`. -/
def SmallCode (r : Response) : Prop := -(2 ^ 62) < r.Code ∧ r.Code < 2 ^ 62

theorem wrapInt_of_small (n : Int) (h1 : -(2 ^ 63) ≤ n) (h2 : n < 2 ^ 63) : wrapInt n = n := by
  unfold wrapInt
  rw [Int.emod_eq_of_lt (by omega) (by omega)]
  omega

theorem responseCmp_neg (a b : Response) (ha : SmallCode a) (hb : SmallCode b)
    (h : responseCmp a b < 0) : Before a b := by
  unfold responseCmp at h
  unfold SmallCode at ha hb
  cases hda : a.IsDefault with
  | true => simp [hda] at h
  | false =>
    refine ⟨hda, ?_⟩
    cases hdb : b.IsDefault with
    | true => exact Or.inl rfl
    | false =>
      simp only [hda, hdb, Bool.false_eq_true, if_false] at h
      rw [wrapInt_of_small _ (by omega) (by omega)] at h
      exact Or.inr (by omega)

theorem responseCmp_nonneg (a b : Response) (ha : SmallCode a) (hb : SmallCode b)
    (hone : a.IsDefault = true → b.IsDefault = false) (h : ¬ responseCmp a b < 0) :
    Before b a := by
  unfold responseCmp at h
  unfold SmallCode at ha hb
  cases hda : a.IsDefault with
  | true => exact ⟨hone hda, Or.inl hda⟩
  | false =>
    cases hdb : b.IsDefault with
    | true => simp [hda, hdb] at h
    | false =>
      simp only [hda, hdb, Bool.false_eq_true, if_false] at h
      rw [wrapInt_of_small _ (by omega) (by omega)] at h
      exact ⟨hdb, Or.inr (by omega)⟩

theorem before_trans (a b c : Response) (hab : Before a b) (hbc : Before b c) : Before a c := by
  refine ⟨hab.1, ?_⟩
  rcases hbc.2 with h | h
  · exact Or.inl h
  · rcases hab.2 with h2 | h2
    · rw [hbc.1] at h2
      exact absurd h2 (by simp)
    · exact Or.inr (Int.le_trans h2 h)

theorem mem_insertLeft {α : Type} (cmp : α → α → Int) (a y : α) (l : List α) :
    y ∈ insertLeft cmp a l ↔ y = a ∨ y ∈ l := by
  rw [(insertLeft_perm cmp a l).mem_iff, List.mem_cons]

theorem insertLeft_sorted (a : Response) (sorted : List Response) (ha : SmallCode a)
    (hs : ∀ r ∈ sorted, SmallCode r)
    (hone : a.IsDefault = true → ∀ r ∈ sorted, r.IsDefault = false)
    (hp : sorted.Pairwise (fun p q => Before q p)) :
    (insertLeft responseCmp a sorted).Pairwise (fun p q => Before q p) := by
  induction sorted with
  | nil => simp [insertLeft]
  | cons p ps ih =>
    simp only [insertLeft]
    rw [List.pairwise_cons] at hp
    have hsp := hs p (List.mem_cons_self _ _)
    split
    · next hlt =>
      rw [List.pairwise_cons]
      refine ⟨?_, ih (fun r hr => hs r (List.mem_cons_of_mem _ hr))
        (fun hd r hr => hone hd r (List.mem_cons_of_mem _ hr)) hp.2⟩
      intro y hy
      rcases (mem_insertLeft responseCmp a y ps).mp hy with h | h
      · rw [h]
        exact responseCmp_neg a p ha hsp hlt
      · exact hp.1 y h
    · next hge =>
      have hpa : Before p a :=
        responseCmp_nonneg a p ha hsp (fun hd => hone hd p (List.mem_cons_self _ _)) hge
      rw [List.pairwise_cons]
      refine ⟨?_, List.pairwise_cons.mpr hp⟩
      intro y hy
      rcases List.mem_cons.mp hy with h | h
      · rw [h]
        exact hpa
      · exact before_trans y p a (hp.1 y h) hpa

theorem foldl_insertLeft_sorted (data : List Response) :
    ∀ sorted : List Response,
      (∀ r ∈ data ++ sorted, SmallCode r) →
      ((data ++ sorted).filter (fun r => r.IsDefault)).length ≤ 1 →
      sorted.Pairwise (fun p q => Before q p) →
      (data.foldl (fun s a => insertLeft responseCmp a s) sorted).Pairwise
        (fun p q => Before q p) := by
  induction data with
  | nil => intro sorted _ _ hp; exact hp
  | cons a rest ih =>
    intro sorted hs hone hp
    simp only [List.foldl_cons]
    apply ih
    · intro r hr
      rcases List.mem_append.mp hr with h | h
      · exact hs r (by simp [h])
      · rcases (mem_insertLeft responseCmp a r sorted).mp h with h2 | h2
        · exact hs r (by simp [h2])
        · exact hs r (by simp [h2])
    · have hperm : (rest ++ insertLeft responseCmp a sorted).Perm ((a :: rest) ++ sorted) :=
        (List.Perm.append_left rest (insertLeft_perm responseCmp a sorted)).trans
          List.perm_middle
      rw [(hperm.filter _).length_eq]
      exact hone
    · apply insertLeft_sorted a sorted (hs a (by simp)) (fun r hr => hs r (by simp [hr])) _ hp
      intro hd r hr
      cases hdr : r.IsDefault with
      | false => rfl
      | true =>
        exfalso
        have hsub : List.Sublist [a, r] (a :: (rest ++ sorted)) :=
          List.Sublist.cons₂ a (List.singleton_sublist.mpr (List.mem_append_right _ hr))
        have hlen := (hsub.filter (fun r => r.IsDefault)).length_le
        have h2 : ([a, r].filter (fun r => r.IsDefault)).length = 2 := by
          simp [List.filter, hd, hdr]
        rw [h2] at hlen
        have hone2 : ((a :: (rest ++ sorted)).filter (fun r => r.IsDefault)).length ≤ 1 := hone
        omega

/-- When every difference of two codes fits an `int` and at most one response is
the default entry, the list built at methods.go 183-205 is a list of non-default
entries in ascending order of code followed by exactly one default entry. -/
theorem finishResponses_sorted_of_small (rs : List Response) (hs : ∀ r ∈ rs, SmallCode r)
    (hone : (rs.filter (fun r => r.IsDefault)).length ≤ 1) :
    ∃ init d, finishResponses rs = init ++ [d] ∧ d.IsDefault = true
      ∧ (∀ r ∈ init, r.IsDefault = false)
      ∧ init.Pairwise (fun a b => a.Code ≤ b.Code) := by
  have hrev : (SortFunc responseCmp rs).reverse.Pairwise (fun p q => Before q p) := by
    unfold SortFunc insertionSortCmpFunc
    rw [List.reverse_reverse]
    exact foldl_insertLeft_sorted rs [] (by simpa using hs) (by simpa using hone)
      List.Pairwise.nil
  have hsorted : (SortFunc responseCmp rs).Pairwise Before := by
    have := List.pairwise_reverse.mp hrev
    exact this
  have hcodes : ∀ l : List Response, l.Pairwise Before → (∀ r ∈ l, r.IsDefault = false) →
      l.Pairwise (fun a b => a.Code ≤ b.Code) := by
    intro l hl hnd
    refine hl.imp_of_mem ?_
    intro a b _ hb hab
    rcases hab.2 with h | h
    · rw [hnd b hb] at h
      exact absurd h (by simp)
    · exact h
  unfold finishResponses
  cases hany : (SortFunc responseCmp rs).any (fun r => r.IsDefault) with
  | false =>
    have hnd : ∀ r ∈ SortFunc responseCmp rs, r.IsDefault = false := by
      intro r hr
      cases hd : r.IsDefault with
      | false => rfl
      | true =>
        have : (SortFunc responseCmp rs).any (fun r => r.IsDefault) = true :=
          List.any_eq_true.mpr ⟨r, hr, hd⟩
        rw [hany] at this
        exact absurd this (by simp)
    simp only [Bool.not_false, if_true]
    exact ⟨SortFunc responseCmp rs, _, rfl, rfl, hnd, hcodes _ hsorted hnd⟩
  | true =>
    simp only [Bool.not_true, Bool.false_eq_true, if_false]
    obtain ⟨d, hdm, hdd⟩ := List.any_eq_true.mp hany
    have hne : SortFunc responseCmp rs ≠ [] := List.ne_nil_of_mem hdm
    obtain ⟨init, last, hl⟩ : ∃ init last, SortFunc responseCmp rs = init ++ [last] :=
      ⟨_, _, (List.dropLast_append_getLast hne).symm⟩
    rw [hl] at hsorted hdm
    rw [List.pairwise_append] at hsorted
    have hinit : ∀ r ∈ init, r.IsDefault = false := fun r hr =>
      (hsorted.2.2 r hr last (List.mem_singleton_self _)).1
    have hlast : last.IsDefault = true := by
      rcases List.mem_append.mp hdm with h | h
      · rw [hinit d h] at hdd
        exact absurd hdd (by simp)
      · rw [List.mem_singleton.mp h] at hdd
        exact hdd
    exact ⟨init, last, hl, hlast, hinit, hcodes _ hsorted.1 hinit⟩

/-! ## Response type names (getResponseName, pathsToResponseTypes) -/

theorem string_append_right_cancel (a b c : String) (h : a ++ c = b ++ c) : a = b := by
  apply String.ext
  have h1 : (a ++ c).data = (b ++ c).data := by rw [h]
  rw [String.data_append, String.data_append] at h1
  exact List.append_cancel_right h1

/-- The part of a response type name that getResponseName puts between the
operation name and `Response`: the camel-cased title of the schema when it has
one, the status token otherwise. -/
def responseNameKey (x : Ext) (responseCode : String) (schema : SchemaRef) : String :=
  if schema.Value.Title ≠ "" then x.ToCamel schema.Value.Title else responseCode

theorem getResponseName_key (x : Ext) (operationName responseCode : String)
    (schema : SchemaRef) :
    getResponseName x operationName responseCode schema
      = operationName ++ responseNameKey x responseCode schema ++ "Response" := by
  unfold getResponseName responseNameKey
  split <;> rfl

/-- The name a Writable declares, when it declares a type. -/
def Writable.declaredName : Writable → Option String
  | .typeDeclaration d => some d.Name
  | .enumDeclaration e => some e.Typ.Name
  | .oneOfDeclaration o => some o.Name
  | _ => none

/-- An inline object schema titled `Pet`. -/
def titledPet : SchemaRef :=
  SchemaRef.mk "" (Schema.mk (some ["object"]) "" "Pet" [] none [("name", stringRef)] []
    none none none none none)

/-- A response with the inline JSON schema `titledPet`. -/
def titledResponse : ResponseRef :=
  { Ref := "", Value := { Description := none,
                          Content := [("application/json", { Schema := some titledPet })] } }

/-- A path item whose operation `getPet` answers `200` and `201` with the same
titled inline schema. -/
def twoTitledItem : PathItem :=
  { Ref := "", Parameters := [],
    Operations := [("GET", getPetWith [("200", titledResponse), ("201", titledResponse)])] }

/-- C21, as stated, fails: the responses `200` and `201` of one operation carry
inline schemas with the same title, getResponseName returns the same name for
both status codes, and pathsToResponseTypes emits two declarations of that one
name. -/
theorem same_title_same_response_name :
    getResponseName sampleExt "GetPet" "200" titledPet
        = getResponseName sampleExt "GetPet" "201" titledPet
      ∧ (pathsToResponseTypes sampleExt ⟨[]⟩ (some [("/pets", twoTitledItem)])).toOption.map
          (fun ws => ws.filterMap Writable.declaredName)
        = some ["GetPetPetResponse", "GetPetPetResponse"] := by
  refine ⟨rfl, by decide⟩

/-- C21, amended: getResponseName returns the same name for two responses of one
operation exactly when their naming keys agree, the key being the camel-cased
title of a titled schema and the status token of an untitled one; in particular
two untitled schemas under distinct status codes get distinct names. -/
theorem getResponseName_distinct_iff (x : Ext) (operationName c1 c2 : String)
    (s1 s2 : SchemaRef) :
    (getResponseName x operationName c1 s1 = getResponseName x operationName c2 s2
        ↔ responseNameKey x c1 s1 = responseNameKey x c2 s2)
      ∧ (s1.Value.Title = "" → s2.Value.Title = "" → c1 ≠ c2 →
          getResponseName x operationName c1 s1 ≠ getResponseName x operationName c2 s2) := by
  have hiff : getResponseName x operationName c1 s1 = getResponseName x operationName c2 s2
      ↔ responseNameKey x c1 s1 = responseNameKey x c2 s2 := by
    rw [getResponseName_key, getResponseName_key]
    constructor
    · intro h
      exact string_append_left_cancel _ _ _ (string_append_right_cancel _ _ _ h)
    · intro h
      rw [h]
  refine ⟨hiff, ?_⟩
  intro h1 h2 hne heq
  apply hne
  have := hiff.mp heq
  simpa [responseNameKey, h1, h2] using this

/-! ## The text of a query value (paramToString) -/

/-- A schema that declares nothing the switches recognise. -/
def emptySchema : Schema :=
  Schema.mk none "" "" [] none [] [] none none none none none

/-- The parameter of the test TestParamToString_AllOfReference: a schema without
a reference of its own whose allOf wraps a reference to the schema
`ResourceType`. paramToString does not read the value of the branch. -/
def resourceParentType : OAParameter :=
  { Name := "", In := "", Required := false,
    Schema := some (SchemaRef.mk "" (Schema.mk none "" "" [] none [] [] none none none none
      (some [SchemaRef.mk "#/components/schemas/ResourceType" emptySchema]))) }

/-- C22, the code at the input of the test: for the allOf that wraps a reference
paramToString returns the expression unchanged, not the cast
`string(*p.ResourceParentType)` the test expects. -/
theorem paramToString_allOf_reference_not_cast :
    paramToString "*p.ResourceParentType" resourceParentType = .ok "*p.ResourceParentType"
      ∧ "*p.ResourceParentType" ≠ "string(*p.ResourceParentType)" :=
  ⟨rfl, by decide⟩

/-- A required query parameter with the given schema. -/
def queryParameterOf (name : String) (schema : SchemaRef) : OAParameter :=
  { Name := name, In := "query", Required := true, Schema := some schema }

/-- C23, the code at the failing inputs: a parameter whose schema is a reference
to an integer-backed or a boolean-backed named type is converted by the cast
`string(...)`, while the same schema given inline is converted by
`strconv.Itoa` and `strconv.FormatBool`. -/
theorem paramToString_reference_always_string_cast :
    paramToString "p.Limit" (queryParameterOf "limit"
        (SchemaRef.mk "#/components/schemas/Limit" (plainSchema "integer")))
      = .ok "string(p.Limit)"
    ∧ paramToString "p.Limit" (queryParameterOf "limit" (SchemaRef.mk "" (plainSchema "integer")))
      = .ok "strconv.Itoa(p.Limit)"
    ∧ paramToString "p.Active" (queryParameterOf "active"
        (SchemaRef.mk "#/components/schemas/Active" (plainSchema "boolean")))
      = .ok "string(p.Active)"
    ∧ paramToString "p.Active" (queryParameterOf "active"
        (SchemaRef.mk "" (plainSchema "boolean")))
      = .ok "strconv.FormatBool(p.Active)" :=
  ⟨rfl, rfl, rfl, rfl⟩

/-! ## oneOf, anyOf and unrecognised shapes (genSchema, generateSchemaComponents) -/

/-- The schema's `type` is one of the six that the switches of genSchema and
generateSchemaComponents recognise. -/
def Schema.recognisedType (s : Schema) : Bool :=
  s.TypeIs "string" || s.TypeIs "integer" || s.TypeIs "number" || s.TypeIs "boolean"
    || s.TypeIs "array" || s.TypeIs "object"

theorem recognisedType_false (s : Schema) (h : s.recognisedType = false) :
    s.TypeIs "string" = false ∧ s.TypeIs "integer" = false ∧ s.TypeIs "number" = false
      ∧ s.TypeIs "boolean" = false ∧ s.TypeIs "array" = false ∧ s.TypeIs "object" = false := by
  simpa [Schema.recognisedType, and_assoc] using h

/-- A schema whose oneOf lists the named schemas `Cat` and `Dog`. -/
def catOrDog : Schema :=
  Schema.mk none "" "" [] none [] [] none none
    (some [SchemaRef.mk "#/components/schemas/Cat" (plainSchema "object"),
           SchemaRef.mk "#/components/schemas/Dog" (plainSchema "object")]) none none

/-- C24, as stated, fails: for a oneOf over `Cat` and `Dog` genSchema emits one
type declaration of underlying type `json.RawMessage` without fields, and no
sum-type declaration: the branches leave no trace in what is declared. -/
theorem oneOf_is_raw_message :
    genSchema sampleExt (SchemaRef.mk "" catOrDog) "Animal"
      = .ok ("Animal", [Writable.typeDeclaration
          { Comment := "", Typ := "json.RawMessage", Name := "Animal", Fields := [],
            Schema := some catOrDog }])
    ∧ ∀ o : OneOfDeclaration, Writable.oneOfDeclaration o ∉ [Writable.typeDeclaration
          { Comment := "", Typ := "json.RawMessage", Name := "Animal", Fields := [],
            Schema := some catOrDog }] := by
  refine ⟨rfl, ?_⟩
  intro o h
  simp at h

/-- C24, amended: for a schema without enum values or a recognised `type` that
declares oneOf, createOneOf builds a type declaration named after the desired
name, of underlying type `json.RawMessage` and without fields, whatever the
branches are; genSchema (on the inline schema) returns the desired name with this
declaration alone, and generateSchemaComponents emits it, alone when isErr is
false and between the type assertion and the error implementation when isErr
is true. -/
theorem genSchema_oneOf (x : Ext) (schema : SchemaRef) (name : String)
    (he : schema.Value.Enum = []) (ht : schema.Value.recognisedType = false)
    (ho : schema.Value.OneOf.isSome = true) :
    (createOneOf x schema.Value name).Name = name
      ∧ (createOneOf x schema.Value name).Typ = "json.RawMessage"
      ∧ (createOneOf x schema.Value name).Fields = []
      ∧ (schema.Ref = "" → genSchema x schema name
          = .ok (name, [Writable.typeDeclaration (createOneOf x schema.Value name)]))
      ∧ generateSchemaComponents x name schema false
          = .ok [Writable.typeDeclaration (createOneOf x schema.Value name)]
      ∧ generateSchemaComponents x name schema true
          = .ok [Writable.typeAssertionDeclaration name,
                 Writable.typeDeclaration (createOneOf x schema.Value name),
                 Writable.errorImplementation (createOneOf x schema.Value name)] := by
  obtain ⟨h1, h2, h3, h4, h5, h6⟩ := recognisedType_false _ ht
  refine ⟨rfl, rfl, rfl, ?_, ?_, ?_⟩
  · intro hr
    rw [genSchema_unfold]
    simp [genSchemaBody, hr, he, h1, h2, h3, h4, h5, h6, ho]
  · unfold generateSchemaComponents
    simp [he, h1, h2, h3, h4, h5, h6, ho]
  · unfold generateSchemaComponents
    simp [he, h1, h2, h3, h4, h5, h6, ho]

/-- C24, amended, at the oneOf over `Cat` and `Dog` as a named schema. -/
theorem genSchema_oneOf_witness :
    generateSchemaComponents sampleExt "Animal" (SchemaRef.mk "" catOrDog) false
      = .ok [Writable.typeDeclaration (createOneOf sampleExt catOrDog "Animal")] :=
  (genSchema_oneOf sampleExt (SchemaRef.mk "" catOrDog) "Animal" rfl rfl rfl).2.2.2.2.1

/-- A string schema that also declares anyOf. -/
def stringWithAnyOf : Schema :=
  Schema.mk (some ["string"]) "" "" [] none [] [] none none none (some [stringRef]) none

/-- A schema without a type that declares oneOf and anyOf. -/
def oneOfWithAnyOf : Schema :=
  Schema.mk none "" "" [] none [] [] none none (some [stringRef]) (some [stringRef]) none

/-- A schema that declares anyOf and nothing else. -/
def anyOfOnly : Schema :=
  Schema.mk none "" "" [] none [] [] none none none (some [stringRef, stringRef]) none

/-- C25, as stated, fails: a string schema that declares anyOf resolves to
`string`, and a schema that declares oneOf and anyOf to the oneOf declaration of
type `json.RawMessage`; neither is the opaque type. -/
theorem anyOf_with_type_or_oneOf_not_opaque :
    stringWithAnyOf.AnyOf.isSome = true ∧ oneOfWithAnyOf.AnyOf.isSome = true
      ∧ genSchema sampleExt (SchemaRef.mk "" stringWithAnyOf) "Pet" = .ok ("string", [])
      ∧ generateSchemaComponents sampleExt "Pet" (SchemaRef.mk "" stringWithAnyOf) false
        = .ok [scalarDeclaration sampleExt "Pet" stringWithAnyOf "string"]
      ∧ genSchema sampleExt (SchemaRef.mk "" oneOfWithAnyOf) "Pet"
        = .ok ("Pet", [Writable.typeDeclaration (createOneOf sampleExt oneOfWithAnyOf "Pet")])
      ∧ (createOneOf sampleExt oneOfWithAnyOf "Pet").Typ = "json.RawMessage" :=
  ⟨rfl, rfl, rfl, rfl, rfl, rfl⟩

/-- C25, amended: for a non-reference schema without enum values, without a
recognised `type` and without oneOf that declares anyOf, genSchema returns the
opaque type `interface{}` with no new declarations, and generateSchemaComponents
emits one declaration of underlying type `interface{}` (after the type assertion
when isErr is set); neither call fails. -/
theorem genSchema_anyOf (x : Ext) (schema : SchemaRef) (name : String)
    (hr : schema.Ref = "") (he : schema.Value.Enum = [])
    (ht : schema.Value.recognisedType = false) (ho : schema.Value.OneOf = none)
    (ha : schema.Value.AnyOf.isSome = true) :
    genSchema x schema name = .ok ("interface\x7b\x7d", [])
      ∧ generateSchemaComponents x name schema false
        = .ok [scalarDeclaration x name schema.Value "interface\x7b\x7d"]
      ∧ generateSchemaComponents x name schema true
        = .ok [Writable.typeAssertionDeclaration name,
               scalarDeclaration x name schema.Value "interface\x7b\x7d"] := by
  obtain ⟨h1, h2, h3, h4, h5, h6⟩ := recognisedType_false _ ht
  refine ⟨?_, ?_, ?_⟩
  · rw [genSchema_unfold]
    simp [genSchemaBody, hr, he, h1, h2, h3, h4, h5, h6, ho, ha]
  · unfold generateSchemaComponents
    simp [he, h1, h2, h3, h4, h5, h6, ho, ha]
  · unfold generateSchemaComponents
    simp [he, h1, h2, h3, h4, h5, h6, ho, ha]

/-- C25, amended, at a schema that declares anyOf alone. -/
theorem genSchema_anyOf_witness :
    genSchema sampleExt (SchemaRef.mk "" anyOfOnly) "Pet" = .ok ("interface\x7b\x7d", [])
      ∧ generateSchemaComponents sampleExt "Pet" (SchemaRef.mk "" anyOfOnly) false
        = .ok [scalarDeclaration sampleExt "Pet" anyOfOnly "interface\x7b\x7d"] :=
  ⟨(genSchema_anyOf sampleExt (SchemaRef.mk "" anyOfOnly) "Pet" rfl rfl rfl rfl rfl).1,
   (genSchema_anyOf sampleExt (SchemaRef.mk "" anyOfOnly) "Pet" rfl rfl rfl rfl rfl).2.1⟩

/-- C26, as stated, fails: for the named schema that declares nothing,
generateSchemaComponents emits no declaration, and for an error schema only the
type assertion. -/
theorem unknown_shape_no_declaration :
    generateSchemaComponents sampleExt "Anything" (SchemaRef.mk "" emptySchema) false = .ok []
      ∧ generateSchemaComponents sampleExt "Anything" (SchemaRef.mk "" emptySchema) true
        = .ok [Writable.typeAssertionDeclaration "Anything"] :=
  ⟨rfl, rfl⟩

/-- C26, amended: for a named schema of unrecognised shape (no enum values, no
recognised `type`, no oneOf, anyOf or allOf) generateSchemaComponents skips the
schema: it emits no declaration, its output being empty, or the type assertion
alone when isErr is set; genSchema returns `interface{}` with no declarations
for the same shape given inline. -/
theorem generateSchemaComponents_unknown_shape (x : Ext) (schema : SchemaRef) (name : String)
    (he : schema.Value.Enum = []) (ht : schema.Value.recognisedType = false)
    (ho : schema.Value.OneOf = none) (ha : schema.Value.AnyOf = none)
    (hl : schema.Value.AllOf = none) :
    generateSchemaComponents x name schema false = .ok []
      ∧ generateSchemaComponents x name schema true
        = .ok [Writable.typeAssertionDeclaration name]
      ∧ (schema.Ref = "" → genSchema x schema name = .ok ("interface\x7b\x7d", [])) := by
  obtain ⟨h1, h2, h3, h4, h5, h6⟩ := recognisedType_false _ ht
  refine ⟨?_, ?_, ?_⟩
  · unfold generateSchemaComponents
    simp [he, h1, h2, h3, h4, h5, h6, ho, ha, hl]
  · unfold generateSchemaComponents
    simp [he, h1, h2, h3, h4, h5, h6, ho, ha, hl]
  · intro hr
    rw [genSchema_unfold]
    simp [genSchemaBody, hr, he, h1, h2, h3, h4, h5, h6, ho, ha, hl]

/-- A schema whose `type` lists two names, which `Types.Is` matches with none. -/
def stringOrNull : Schema :=
  Schema.mk (some ["string", "null"]) "" "" [] none [] [] none none none none none

/-- C26, amended, at a schema whose `type` is the list `string`, `null`. -/
theorem generateSchemaComponents_unknown_shape_witness :
    generateSchemaComponents sampleExt "Nickname" (SchemaRef.mk "" stringOrNull) false = .ok []
      ∧ genSchema sampleExt (SchemaRef.mk "" stringOrNull) "Nickname"
        = .ok ("interface\x7b\x7d", []) :=
  ⟨(generateSchemaComponents_unknown_shape sampleExt (SchemaRef.mk "" stringOrNull) "Nickname"
      rfl rfl rfl rfl rfl).1,
   (generateSchemaComponents_unknown_shape sampleExt (SchemaRef.mk "" stringOrNull) "Nickname"
      rfl rfl rfl rfl rfl).2.2 rfl⟩

/-! ## allOf in convertToValidGoType -/

/-- C27: for a non-reference schema with no additionalProperties schema,
convertToValidGoType returns the conversion of the single branch when allOf has
exactly one branch, and the placeholder `TODO`, without failing, when allOf has
more than one branch. -/
theorem convertToValidGoType_allOf (x : Ext) (property : String) (r : SchemaRef)
    (href : r.Ref = "") (hap : r.Value.APSchema = none) :
    (∀ first, r.Value.AllOf = some [first] →
        convertToValidGoType x property r = convertToValidGoType x property first)
    ∧ (∀ branches, r.Value.AllOf = some branches → 1 < branches.length →
        convertToValidGoType x property r = .ok "TODO") := by
  obtain ⟨ref, v⟩ := r
  obtain ⟨t, f, ti, e, i, p, rq, h, aps, o, a, al⟩ := v
  simp only [SchemaRef.Ref] at href
  simp only [SchemaRef.Value, Schema.APSchema] at hap
  subst href
  subst hap
  constructor
  · intro first hf
    simp only [SchemaRef.Value, Schema.AllOf] at hf
    subst hf
    rw [convertToValidGoType]
    simp [SchemaRef.Ref, SchemaRef.Value, Schema.APSchema]
  · intro branches hb hlen
    simp only [SchemaRef.Value, Schema.AllOf] at hb
    subst hb
    match branches, hlen with
    | b1 :: b2 :: rest, _ =>
      rw [convertToValidGoType]
      simp [SchemaRef.Ref, SchemaRef.Value, Schema.APSchema]

/-- An allOf with the single branch `#/components/schemas/ResourceType`. -/
def wrappedReference : SchemaRef :=
  SchemaRef.mk "" (Schema.mk none "" "" [] none [] [] none none none none
    (some [SchemaRef.mk "#/components/schemas/ResourceType" (plainSchema "string")]))

/-- C27 at an allOf that wraps one reference, whose conversion is the referenced
name, and at the allOf of two branches `petAllOf`. -/
theorem convertToValidGoType_allOf_witness :
    convertToValidGoType sampleExt "kind" wrappedReference = .ok "ResourceType"
      ∧ convertToValidGoType sampleExt "pet" (SchemaRef.mk "" petAllOf) = .ok "TODO" :=
  ⟨((convertToValidGoType_allOf sampleExt "kind" wrappedReference rfl rfl).1 _ rfl).trans rfl,
   (convertToValidGoType_allOf sampleExt "pet" (SchemaRef.mk "" petAllOf) rfl rfl).2
      petBranches rfl (by decide)⟩

/-! ## The Params type of parameters declared on the path item -/

/-- The optional integer query parameter `limit`. -/
def limitParameter : ParameterRef :=
  { Ref := "", Value := some { Name := "limit", In := "query", Required := false,
                               Schema := some (SchemaRef.mk "" (plainSchema "integer")) } }

/-- The operation `listPets` without parameters of its own. -/
def listAllPets : Operation :=
  { OperationID := "listPets", Extensions := [], Parameters := [], RequestBody := none,
    Responses := [] }

/-- A path item that declares the query parameter `limit` for all its
operations; its operation `listPets` declares no parameter of its own. -/
def sharedLimitItem : PathItem :=
  { Ref := "", Parameters := [limitParameter], Operations := [("GET", listAllPets)] }

/-- C28, the code at the failing input: the query parameter `limit` is declared
on the path item only; pathsToParamTypes emits no declaration at all, while the
method built by pathToMethods takes the argument `params` of type
`ListPetsParams`. -/
theorem params_type_of_path_item_parameter_not_declared :
    pathsToParamTypes sampleExt (some [("/pets", sharedLimitItem)]) = .ok []
      ∧ (pathToMethods sampleExt ⟨[]⟩ "/pets" sharedLimitItem (fun _ => ⟨[], []⟩)).toOption.map
          (fun ms => ms.map (fun m => m.QueryParams))
        = some [some { Name := "params", Typ := "ListPetsParams" }] := by
  refine ⟨rfl, by decide⟩

/-! ## The branches of an allOf after createAllOf -/

/-- C29, the code at the failing input: both branches of `petBranches` declare
`id`; the loop of createAllOf deletes from the property map of the second branch
the names seen in the first, so after the call that branch is left with `age`
alone, and resolving it afterwards yields one field where it yielded two
before. -/
theorem createAllOf_deletes_from_branches :
    petBranches.map (fun s => keysOf s.Value.Properties) = [["name", "id"], ["id", "age"]]
      ∧ (createAllOfLoop sampleExt petBranches "Pet"
            { types := [], fields := [], seen := [], left := [] }).toOption.map
          (fun st => st.left.map keysOf)
        = some [["name", "id"], ["age"]]
      ∧ (createFields sampleExt (deleteKeys [] [("id", SchemaRef.mk "" (plainSchema "integer")),
            ("age", SchemaRef.mk "" (plainSchema "integer"))]) "Owner" []).toOption.map
          (fun r => r.1.map (fun f => f.Name))
        = some ["age", "id"]
      ∧ (createFields sampleExt (deleteKeys ["name", "id"]
            [("id", SchemaRef.mk "" (plainSchema "integer")),
             ("age", SchemaRef.mk "" (plainSchema "integer"))]) "Owner" []).toOption.map
          (fun r => r.1.map (fun f => f.Name))
        = some ["age"] := by
  refine ⟨by decide, by decide, by decide, by decide⟩

/-! ## The error classification of the two passes -/

/-- An inline object schema with the property `location`. -/
def movedSchema : SchemaRef :=
  SchemaRef.mk "" (Schema.mk (some ["object"]) "" "" [] none [("location", stringRef)] []
    none none none none none)

/-- A response with the inline JSON schema `movedSchema`. -/
def movedResponse : ResponseRef :=
  { Ref := "", Value := { Description := none,
                          Content := [("application/json", { Schema := some movedSchema })] } }

/-- C30, the code at the failing input: for the status code `301` with an inline
JSON schema operationToMethod marks the response with IsErr, while
pathsToResponseTypes generates its type with isErr false: one declaration,
without the type assertion and the error implementation that the same schema
gets with isErr true. -/
theorem redirect_is_error_in_one_pass_only :
    (getPetMethod [("301", movedResponse)] [("301", movedResponse)]).toOption.map
        (fun m => m.Responses.map (fun r => (r.Code, r.IsErr, r.Typ)))
      = some [(301, true, "GetPet301Response"), (0, false, "")]
    ∧ operationResponseTypes sampleExt ⟨[]⟩ (getPetWith [("301", movedResponse)])
      = generateSchemaComponents sampleExt "GetPet301Response" movedSchema false
    ∧ (generateSchemaComponents sampleExt "GetPet301Response" movedSchema false).toOption.map
        (fun ws => ws.filterMap Writable.declaredName) = some ["GetPet301Response"]
    ∧ (generateSchemaComponents sampleExt "GetPet301Response" movedSchema false).toOption.map
        List.length = some 1
    ∧ (generateSchemaComponents sampleExt "GetPet301Response" movedSchema true).toOption.map
        List.length = some 3 := by
  refine ⟨by decide, rfl, by decide, by decide, by decide⟩

/-! ## HasBody and the body argument -/

/-- An inline object schema with the property `file`. -/
def uploadForm : SchemaRef :=
  SchemaRef.mk "" (Schema.mk (some ["object"]) "" "" [] none [("file", stringRef)] []
    none none none none none)

/-- A request body whose only media type is `multipart/form-data`. -/
def formBody : RequestBodyRef :=
  { Ref := "", Content := [("multipart/form-data", { Schema := some uploadForm })] }

/-- The operation `uploadPet` with the request body `formBody`. -/
def uploadPetOperation : Operation :=
  { OperationID := "uploadPet", Extensions := [], Parameters := [],
    RequestBody := some formBody, Responses := [] }

/-- A path item with the operation `uploadPet`. -/
def uploadPetItem : PathItem :=
  { Ref := "", Parameters := [], Operations := [("POST", uploadPetOperation)] }

/-- C31, the code at the failing input: the operation declares a request body
without an `application/json` media type; the Method has HasBody set, while its
argument list holds no `body` argument and pathsToBodyTypes emits no
declaration. -/
theorem hasBody_without_body_argument :
    (operationToMethod sampleExt ⟨[]⟩ "POST" "/pets" uploadPetOperation [] []).toOption.map
        (fun m => (m.HasBody, m.PathParams))
      = some (true, [])
    ∧ (pathToMethods sampleExt ⟨[]⟩ "/pets" uploadPetItem (fun _ => ⟨[], []⟩)).toOption.map
        (fun ms => ms.map (fun m => (m.FunctionName, m.HasBody, m.PathParams)))
      = some [("UploadPet", true, [])]
    ∧ pathsToBodyTypes sampleExt (some [("/pets", uploadPetItem)]) = .ok [] := by
  refine ⟨by decide, by decide, rfl⟩

/-! ## The type passes over all paths (pathsToParamTypes, pathsToBodyTypes) -/

/-- The operations of a path item in the order in which the type passes visit
them: by ascending verb. -/
def PathItem.sortedOperations (p : PathItem) : List Operation :=
  (sortedKeys p.Operations).filterMap (fun verb => p.Operations.lookup verb)

/-- The operations the type passes visit, in order: those of every path item
that is not a reference. -/
def visitedOperations : List (String × PathItem) → List Operation
  | [] => []
  | (_, pathSpec) :: rest =>
    if pathSpec.Ref ≠ "" then visitedOperations rest
    else pathSpec.sortedOperations ++ visitedOperations rest

theorem verbsLoop_ok (f : Operation → Except Fault (List Writable)) (p : PathItem)
    (verbs : List String) :
    ∀ (acc out : List Writable), verbsLoop f p verbs acc = .ok out →
      ∃ blocks, out = acc ++ blocks.flatten
        ∧ List.Forall₂ (fun o ws => f o = .ok ws)
            (verbs.filterMap (fun verb => p.Operations.lookup verb)) blocks := by
  induction verbs with
  | nil =>
    intro acc out h
    simp only [verbsLoop] at h
    injection h with h
    exact ⟨[], by simp [h], List.Forall₂.nil⟩
  | cons verb rest ih =>
    intro acc out h
    simp only [verbsLoop] at h
    cases hl : p.Operations.lookup verb with
    | none => rw [hl] at h; exact absurd h (by simp)
    | some opSpec =>
      rw [hl] at h
      dsimp only at h
      cases hf : f opSpec with
      | error e => rw [hf] at h; exact absurd h (by simp)
      | ok ws =>
        rw [hf] at h
        dsimp only at h
        obtain ⟨blocks, hout, hall⟩ := ih _ _ h
        refine ⟨ws :: blocks, by rw [hout]; simp, ?_⟩
        rw [List.filterMap_cons, hl]
        exact List.Forall₂.cons hf hall

theorem pathsLoop_ok (f : Operation → Except Fault (List Writable))
    (paths : List (String × PathItem)) :
    ∀ (acc out : List Writable), pathsLoop f paths acc = .ok out →
      ∃ blocks, out = acc ++ blocks.flatten
        ∧ List.Forall₂ (fun o ws => f o = .ok ws) (visitedOperations paths) blocks := by
  induction paths with
  | nil =>
    intro acc out h
    simp only [pathsLoop] at h
    injection h with h
    exact ⟨[], by simp [h], List.Forall₂.nil⟩
  | cons kv rest ih =>
    intro acc out h
    obtain ⟨path, pathSpec⟩ := kv
    simp only [pathsLoop] at h
    by_cases hr : pathSpec.Ref ≠ ""
    · rw [if_pos hr] at h
      obtain ⟨blocks, hout, hall⟩ := ih _ _ h
      exact ⟨blocks, hout, by simpa [visitedOperations, hr] using hall⟩
    · rw [if_neg hr] at h
      cases hv : verbsLoop f pathSpec (sortedKeys pathSpec.Operations) acc with
      | error e => rw [hv] at h; exact absurd h (by simp)
      | ok acc1 =>
        rw [hv] at h
        dsimp only at h
        obtain ⟨b1, hacc1, hall1⟩ := verbsLoop_ok f pathSpec _ _ _ hv
        obtain ⟨b2, hout, hall2⟩ := ih _ _ h
        refine ⟨b1 ++ b2, by rw [hout, hacc1]; simp, ?_⟩
        simp only [visitedOperations, if_neg hr]
        exact List.rel_append hall1 hall2

/-- What pathsToParamTypes emits for one operation: when a parameter is not
located in the path, one struct declaration named ToCamel(operationId)+"Params"
followed by the serialization routine of that declaration, with one field per
non-path parameter in declared order; nothing otherwise. -/
def ParamsBlock (x : Ext) (opSpec : Operation) (ws : List Writable) : Prop :=
  (queryParameters opSpec.Parameters ≠ [] →
      ∃ d, ws = [Writable.typeDeclaration d, Writable.toQueryValues d]
        ∧ d.Name = x.ToCamel opSpec.OperationID ++ "Params" ∧ d.Typ = "struct"
        ∧ d.Fields.length = (queryParameters opSpec.Parameters).length
        ∧ List.Forall₂ (QueryFieldOf x) (queryParameters opSpec.Parameters) d.Fields)
    ∧ (queryParameters opSpec.Parameters = [] → ws = [])

/-- C18: what pathsToParamTypes returns is the concatenation, over the
operations of the paths in the order they are visited, of one block per
operation: when the operation has at least one parameter not located in the
path, exactly one struct declaration named ToCamel(operationId)+"Params"
immediately followed by the query-serialization routine of that declaration, the
struct having one field per non-path parameter in declaration order, each
optional exactly when the parameter is not required; and nothing for an
operation all of whose parameters are path parameters. -/
theorem pathsToParamTypes_struct (x : Ext) (paths : List (String × PathItem))
    (out : List Writable) (h : pathsToParamTypes x (some paths) = .ok out) :
    ∃ blocks, out = blocks.flatten
      ∧ List.Forall₂ (ParamsBlock x) (visitedOperations paths) blocks := by
  obtain ⟨blocks, hout, hall⟩ := pathsLoop_ok (operationParamTypes x) paths [] out h
  refine ⟨blocks, by simpa using hout, ?_⟩
  exact hall.imp (fun o ws hf => operationParamTypes_struct x o ws hf)

/-- A path item whose GET operation is `listPetsOperation`. -/
def listPetsItem : PathItem :=
  { Ref := "", Parameters := [], Operations := [("GET", listPetsOperation)] }

theorem visitedOperations_listPets :
    visitedOperations [("/shops/{shop}/pets", listPetsItem)] = [listPetsOperation] := rfl

/-- C18 at a path with the operation `listPetsOperation`: pathsToParamTypes
returns the struct `ListPetsParams` with the fields limit and tag, followed by
its serialization routine, and nothing else. -/
theorem pathsToParamTypes_struct_witness :
    ∃ d, pathsToParamTypes sampleExt (some [("/shops/{shop}/pets", listPetsItem)])
        = .ok [Writable.typeDeclaration d, Writable.toQueryValues d]
      ∧ d.Name = "ListPetsParams"
      ∧ d.Fields.map (fun f => (f.Name, f.Typ, f.Optional))
        = [("limit", "int", false), ("tag", "string", true)] := by
  have hf : (pathsToParamTypes sampleExt
      (some [("/shops/{shop}/pets", listPetsItem)])).toOption.map
        (fun ws => ws.map (fun w => match w with
          | .typeDeclaration t => t.Fields.map (fun f => (f.Name, f.Typ, f.Optional))
          | _ => []))
        = some [[("limit", "int", false), ("tag", "string", true)], []] := by decide
  cases hres : pathsToParamTypes sampleExt (some [("/shops/{shop}/pets", listPetsItem)]) with
  | error e => rw [hres] at hf; exact absurd hf (by simp [Except.toOption])
  | ok out =>
    obtain ⟨blocks, hout, hall⟩ := pathsToParamTypes_struct sampleExt _ out hres
    rw [visitedOperations_listPets] at hall
    cases hall with
    | cons hb hrest =>
      cases hrest
      obtain ⟨d, hd, hn, _, _, _⟩ := hb.1 (by
        intro hq
        have h2 : (queryParameters listPetsOperation.Parameters).length = 2 := by decide
        rw [hq] at h2
        exact absurd h2 (by decide))
      have hout2 : out = [Writable.typeDeclaration d, Writable.toQueryValues d] := by
        rw [hout, hd]; rfl
      rw [hres, hout2] at hf
      refine ⟨d, by rw [hout2], by rw [hn]; decide, ?_⟩
      simpa [Except.toOption] using hf

/-- What pathsToBodyTypes emits for one operation: when the operation declares a
JSON request body with a schema, the declaration named ToCamel(operationId)+"Body"
that createObject builds from that schema, followed by the declarations
createObject adds; nothing otherwise. -/
def BodyBlock (x : Ext) (o : Operation) (ws : List Writable) : Prop :=
  (∃ schema, JsonBodySchema o schema
      ∧ ∃ d rest, ws = Writable.typeDeclaration d :: rest
        ∧ d.Name = x.ToCamel o.OperationID ++ "Body"
        ∧ createObject x schema.Value (x.ToCamel o.OperationID ++ "Body") = .ok (d, rest))
    ∨ ((¬ ∃ schema, JsonBodySchema o schema) ∧ ws = [])

theorem operationBodyTypes_block (x : Ext) (o : Operation) (ws : List Writable)
    (h : operationBodyTypes x o = .ok ws) : BodyBlock x o ws := by
  rcases bodyParams_cases x o with ⟨schema, hj, _, hbt⟩ | ⟨hno, _, hbt⟩
  · refine Or.inl ⟨schema, hj, ?_⟩
    rw [hbt] at h
    split at h
    · exact absurd h (by simp)
    · next d rest hc =>
      injection h with h
      exact ⟨d, rest, by rw [← h]; rfl, createObject_name x _ _ d rest hc, hc⟩
  · rw [hbt] at h
    injection h with h
    exact Or.inr ⟨hno, h.symm⟩

/-- C19: the argument list of the Method is the list of path parameters followed
by the argument `body` of type ToCamel(operationId)+"Body" exactly when the
operation declares a request body with an `application/json` media type that
carries a schema, and followed by nothing otherwise; and what pathsToBodyTypes
returns is the concatenation, over the operations of the paths in the order they
are visited, of one block per operation: in exactly that same case the
declaration of that same name built by createObject from the body schema (with
the declarations createObject adds), and nothing in the other case. -/
theorem pathsToBodyTypes_body_argument (x : Ext) (b : BuilderSpec) (method path : String)
    (o : Operation) (succOrder respOrder : List (String × ResponseRef)) (m : Method)
    (paths : List (String × PathItem)) (out : List Writable)
    (h : operationToMethod x b method path o succOrder respOrder = .ok m)
    (hp : pathsToBodyTypes x (some paths) = .ok out) :
    (∃ params, buildPathParams x "path" o.Parameters = .ok params
        ∧ ((∃ schema, JsonBodySchema o schema
              ∧ m.PathParams
                = params ++ [{ Name := "body", Typ := x.ToCamel o.OperationID ++ "Body" }])
            ∨ ((¬ ∃ schema, JsonBodySchema o schema) ∧ m.PathParams = params)))
      ∧ ∃ blocks, out = blocks.flatten
          ∧ List.Forall₂ (BodyBlock x) (visitedOperations paths) blocks := by
  constructor
  · obtain ⟨params, hpar, hpp⟩ := operationToMethod_pathParams _ _ _ _ _ _ _ _ h
    refine ⟨params, hpar, ?_⟩
    rcases bodyParams_cases x o with ⟨schema, hj, hbp, _⟩ | ⟨hno, hbp, _⟩
    · exact Or.inl ⟨schema, hj, by rw [hpp, hbp]⟩
    · exact Or.inr ⟨hno, by rw [hpp, hbp, List.append_nil]⟩
  · obtain ⟨blocks, hout, hall⟩ := pathsLoop_ok (operationBodyTypes x) paths [] out hp
    refine ⟨blocks, by simpa using hout, ?_⟩
    exact hall.imp (fun o ws hf => operationBodyTypes_block x o ws hf)

/-- A path item whose POST operation is `createPetOperation`. -/
def createPetItem : PathItem :=
  { Ref := "", Parameters := [], Operations := [("POST", createPetOperation)] }

theorem visitedOperations_createPet :
    visitedOperations [("/shops/{shop}/pets", createPetItem)] = [createPetOperation] := rfl

/-- C19 at `createPetOperation`: the arguments of the Method are shop and body,
and pathsToBodyTypes returns the struct `CreatePetBody` with the field name,
and nothing else. -/
theorem pathsToBodyTypes_body_argument_witness :
    ∃ m d, operationToMethod sampleExt ⟨[]⟩ "POST" "/shops/{shop}/pets" createPetOperation [] []
        = .ok m
      ∧ m.PathParams = [{ Name := "shop", Typ := "string" },
                        { Name := "body", Typ := "CreatePetBody" }]
      ∧ pathsToBodyTypes sampleExt (some [("/shops/{shop}/pets", createPetItem)])
        = .ok [Writable.typeDeclaration d]
      ∧ d.Name = "CreatePetBody" ∧ d.Typ = "struct"
      ∧ d.Fields.map (fun f => f.Name) = ["name"] := by
  have hv : (operationToMethod sampleExt ⟨[]⟩ "POST" "/shops/{shop}/pets" createPetOperation
      [] []).toOption.map (fun m => m.PathParams)
      = some [{ Name := "shop", Typ := "string" }, { Name := "body", Typ := "CreatePetBody" }] := by
    decide
  have hb : (pathsToBodyTypes sampleExt
      (some [("/shops/{shop}/pets", createPetItem)])).toOption.map
        (fun ws => ws.map (fun w => match w with
          | .typeDeclaration t => (t.Typ, t.Fields.map (fun f => f.Name))
          | _ => ("", [])))
      = some [("struct", ["name"])] := by decide
  cases hres : operationToMethod sampleExt ⟨[]⟩ "POST" "/shops/{shop}/pets" createPetOperation
      [] [] with
  | error e => rw [hres] at hv; exact absurd hv (by simp [Except.toOption])
  | ok m =>
    cases hout : pathsToBodyTypes sampleExt (some [("/shops/{shop}/pets", createPetItem)]) with
    | error e => rw [hout] at hb; exact absurd hb (by simp [Except.toOption])
    | ok out =>
      rw [hres] at hv
      obtain ⟨_, blocks, hflat, hall⟩ :=
        pathsToBodyTypes_body_argument sampleExt ⟨[]⟩ "POST" "/shops/{shop}/pets"
          createPetOperation [] [] m _ out hres hout
      rw [visitedOperations_createPet] at hall
      cases hall with
      | cons hblock hrest =>
        cases hrest
        rcases hblock with ⟨schema, _, d, rest, hws, hn, _⟩ | ⟨hno, _⟩
        · have hout2 : out = Writable.typeDeclaration d :: rest := by
            rw [hflat, hws]; simp
          rw [hout, hout2] at hb
          simp only [Except.toOption, Option.map_some', List.map_cons, Option.some.injEq,
            List.cons.injEq, Prod.mk.injEq] at hb
          obtain ⟨⟨ht, hfn⟩, hrest⟩ := hb
          have hr : rest = [] := List.map_eq_nil_iff.mp hrest
          subst hr
          exact ⟨m, d, rfl, by simpa [Except.toOption] using hv, by rw [hout2], by rw [hn]; decide,
            ht, hfn⟩
        · exact absurd ⟨_, ⟨_, _, rfl, rfl, rfl⟩⟩ hno

end Builder
